import Mathlib

/-!
Servo calibration: value <-> pulse mapping

A shallow embedding of `drivers/servo/calibration.cpp`.

* `float` is embedded twice.  The definitions without a suffix take `float` as
  `ℚ` (exact arithmetic, no rounding); a division by zero has no rational
  result and is recorded as `Fault.non_finite`.  The definitions with the
  suffix `_fl` take `float` as `Flt` (a finite number, an infinity or a NaN)
  and compute in an arithmetic `Arith`: `float32` rounds every operation to
  IEEE binary32 and overflows to an infinity, `exact` does not round; in both a
  division by zero gives an infinity or a NaN and every comparison with a NaN
  is false, as on the target.
* `calibration` is a heap array of `calibration_size` points.  It is embedded
  as a list whose length is `calibration_size`.  A read at an index outside
  `0 .. calibration_size - 1` is recorded as `Fault.out_of_bounds`.
* `uint8_t last = calibration_size - 1` truncates to eight bits, so `last` is
  `(calibration_size - 1) % 256`.  Index expressions such as `last - 1` and
  `i + 1` are computed in `int` and do not wrap.
* The two reference outputs of the mapping functions are passed in (their
  content before the call) and returned.
* The builders take the object before the call and return it after the call.
  The pointer accessors return the offset of the element they address.
-/

namespace servo

/-- A calibration anchor: `Calibration::Point`. -/
structure Point where
  pulse : ℚ
  value : ℚ
deriving DecidableEq

/-- The constants of `calibration.hpp` that the source file uses. -/
structure Constants where
  DEFAULT_MIN_PULSE : ℚ
  DEFAULT_MID_PULSE : ℚ
  DEFAULT_MAX_PULSE : ℚ
  LOWER_HARD_LIMIT : ℚ
  UPPER_HARD_LIMIT : ℚ

/-- The member variables of `Calibration`; `calibration_size` is the length of
`calibration`. -/
structure Calibration where
  calibration : List Point
  limit_lower : Bool
  limit_upper : Bool

/-- Ways in which a run leaves the outputs undetermined. -/
inductive Fault where
  | out_of_bounds
  | non_finite
deriving DecidableEq

/-- The two reference outputs of a mapping call. -/
structure Outs where
  pulse_out : ℚ
  value_out : ℚ
deriving DecidableEq

/-- What a mapping call leaves behind: the returned `bool`, and the content of
the two reference outputs (or the fault that left them undetermined). -/
structure Mapped where
  success : Bool
  outs : Except Fault Outs

/-- Modelled from the spec: the `MIN` macro (not in the source file), the
smaller of its arguments, written as the usual conditional. -/
def MIN (a b : ℚ) : ℚ := if a < b then a else b

/-- Modelled from the spec: the `MAX` macro (not in the source file), the
larger of its arguments, written as the usual conditional. -/
def MAX (a b : ℚ) : ℚ := if a > b then a else b

/-- The member `calibration_size`. -/
def Calibration.calibration_size (c : Calibration) : ℕ := c.calibration.length

/-- `Calibration::size`. -/
def Calibration.size (c : Calibration) : ℕ := c.calibration_size

/-- The array read `calibration[i]` with an `int` index. -/
def index (cal : List Point) (i : ℤ) : Except Fault Point :=
  if i < 0 then Except.error Fault.out_of_bounds
  else
    match cal[i.toNat]? with
    | some p => Except.ok p
    | none => Except.error Fault.out_of_bounds

/-- `Calibration::map_float` in exact arithmetic.  A zero divisor is recorded as
`Fault.non_finite`; `map_float_fl` gives the infinity or the NaN of the target. -/
def map_float (x in_min in_max out_min out_max : ℚ) : Except Fault ℚ :=
  if in_max - in_min = 0 then Except.error Fault.non_finite
  else Except.ok ((((x - in_min) * (out_max - out_min)) / (in_max - in_min)) + out_min)

/-- The loop `for(uint8_t i = 0; i < last; i++)` of `value_to_pulse` that looks
for the segment by value, started at counter `i` with `todo = last - i`
iterations left.  `pulse_out` is returned as it was when no segment is found.
The counter stays below `last <= 255`, so `i++` does not wrap. -/
def seek_by_value (cal : List Point) (value : ℚ) (pulse_out : ℚ) : ℕ → ℕ → Except Fault ℚ
  | 0, _ => Except.ok pulse_out
  | todo + 1, i => do
    let hi ← index cal ((i : ℤ) + 1)
    if value ≤ hi.value then
      let lo ← index cal (i : ℤ)
      map_float value lo.value hi.value lo.pulse hi.pulse
    else
      seek_by_value cal value pulse_out todo (i + 1)

/-- The loops of the hard-limit pass of `value_to_pulse` and of
`pulse_to_value` that look for the segment by pulse; `value_out` is returned
as it was when no segment is found. -/
def seek_by_pulse (cal : List Point) (pulse : ℚ) (value_out : ℚ) : ℕ → ℕ → Except Fault ℚ
  | 0, _ => Except.ok value_out
  | todo + 1, i => do
    let hi ← index cal ((i : ℤ) + 1)
    if pulse ≤ hi.pulse then
      let lo ← index cal (i : ℤ)
      map_float pulse lo.pulse hi.pulse lo.value hi.value
    else
      seek_by_pulse cal pulse value_out todo (i + 1)

/-- Lines 154-189 of `value_to_pulse`: the outputs after the curve logic. -/
def value_to_pulse_curve (c : Calibration) (last : ℕ) (value pulse_out : ℚ) :
    Except Fault Outs := do
  let cal := c.calibration
  let first ← index cal 0
  if value < first.value then
    if c.limit_lower then
      pure ⟨first.pulse, first.value⟩
    else
      let second ← index cal 1
      let p ← map_float value first.value second.value first.pulse second.pulse
      pure ⟨p, value⟩
  else
    let top ← index cal (last : ℤ)
    if value > top.value then
      if c.limit_upper then
        pure ⟨top.pulse, top.value⟩
      else
        let below ← index cal ((last : ℤ) - 1)
        let p ← map_float value below.value top.value below.pulse top.pulse
        pure ⟨p, value⟩
    else
      let p ← seek_by_value cal value pulse_out last 0
      pure ⟨p, value⟩

/-- Lines 191-215 of `value_to_pulse`: the clamp between the hard limits and
the recomputation of the value when the clamp applies. -/
def value_to_pulse_clamp (K : Constants) (c : Calibration) (last : ℕ) (o : Outs) :
    Except Fault Outs := do
  let cal := c.calibration
  if o.pulse_out < K.LOWER_HARD_LIMIT ∨ o.pulse_out > K.UPPER_HARD_LIMIT then
    let pulse_out := MIN (MAX o.pulse_out K.LOWER_HARD_LIMIT) K.UPPER_HARD_LIMIT
    let first ← index cal 0
    if pulse_out < first.pulse then
      let second ← index cal 1
      let v ← map_float pulse_out first.pulse second.pulse first.value second.value
      pure ⟨pulse_out, v⟩
    else
      let top ← index cal (last : ℤ)
      if pulse_out > top.pulse then
        let below ← index cal ((last : ℤ) - 1)
        let v ← map_float pulse_out below.pulse top.pulse below.value top.value
        pure ⟨pulse_out, v⟩
      else
        let v ← seek_by_pulse cal pulse_out o.value_out last 0
        pure ⟨pulse_out, v⟩
  else
    pure o

/-- `Calibration::value_to_pulse`; `pulse_out` and `value_out` are the contents
of the reference outputs before the call. -/
def value_to_pulse (K : Constants) (c : Calibration) (value pulse_out value_out : ℚ) :
    Mapped :=
  if c.calibration_size ≥ 2 then
    let last : ℕ := (c.calibration_size - 1) % 256
    { success := true
      outs := do
        let o ← value_to_pulse_curve c last value pulse_out
        value_to_pulse_clamp K c last o }
  else
    { success := false, outs := Except.ok ⟨pulse_out, value_out⟩ }

/-- Lines 228-264 of `pulse_to_value`: the clamp of the pulse into `pulse_out`, then the
curve logic, which tests `pulse_out` for the lower end and `pulse` for everything else. -/
def pulse_to_value_curve (K : Constants) (c : Calibration) (last : ℕ) (pulse value_out : ℚ) :
    Except Fault Outs := do
  let cal := c.calibration
  let pulse_out := MIN (MAX pulse K.LOWER_HARD_LIMIT) K.UPPER_HARD_LIMIT
  let first ← index cal 0
  if pulse_out < first.pulse then
    if c.limit_lower then
      pure ⟨first.pulse, first.value⟩
    else
      let second ← index cal 1
      let v ← map_float pulse first.pulse second.pulse first.value second.value
      pure ⟨pulse_out, v⟩
  else
    let top ← index cal (last : ℤ)
    if pulse > top.pulse then
      if c.limit_upper then
        pure ⟨top.pulse, top.value⟩
      else
        let below ← index cal ((last : ℤ) - 1)
        let v ← map_float pulse below.pulse top.pulse below.value top.value
        pure ⟨pulse_out, v⟩
    else
      let v ← seek_by_pulse cal pulse value_out last 0
      pure ⟨pulse_out, v⟩

/-- `Calibration::pulse_to_value`; `value_out` and `pulse_out` are the contents
of the reference outputs before the call. -/
def pulse_to_value (K : Constants) (c : Calibration) (pulse value_out pulse_out : ℚ) :
    Mapped :=
  if c.calibration_size ≥ 2 then
    let last : ℕ := (c.calibration_size - 1) % 256
    { success := true
      outs := pulse_to_value_curve K c last pulse value_out }
  else
    { success := false, outs := Except.ok ⟨pulse_out, value_out⟩ }

/-- Modelled from the spec: the enum `CalibrationType` of `calibration.hpp` (not in the
source file) with its three kinds; `other` stands for any value outside them. -/
inductive CalibrationType where
  | ANGULAR
  | LINEAR
  | CONTINUOUS
  | other (raw : ℕ)

/-- `Calibration::apply_blank`: `new Point[size]` default-constructs `size` points
`(0, 0)`; the limit flags are not written. -/
def Calibration.apply_blank (c : Calibration) (size : ℕ) : Calibration :=
  if size > 0 then
    { c with calibration := List.replicate size ⟨0, 0⟩ }
  else
    { c with calibration := [] }

/-- `Calibration::apply_two_point`.  The stores `calibration[0]` and `calibration[1]` are
inside the two points just allocated. -/
def Calibration.apply_two_point (c : Calibration) (min_pulse max_pulse min_value max_value : ℚ) :
    Calibration :=
  let c := c.apply_blank 2
  let c := { c with calibration := c.calibration.set 0 ⟨min_pulse, min_value⟩ }
  { c with calibration := c.calibration.set 1 ⟨max_pulse, max_value⟩ }

/-- `Calibration::apply_three_point`. -/
def Calibration.apply_three_point (c : Calibration)
    (min_pulse mid_pulse max_pulse min_value mid_value max_value : ℚ) : Calibration :=
  let c := c.apply_blank 3
  let c := { c with calibration := c.calibration.set 0 ⟨min_pulse, min_value⟩ }
  let c := { c with calibration := c.calibration.set 1 ⟨mid_pulse, mid_value⟩ }
  { c with calibration := c.calibration.set 2 ⟨max_pulse, max_value⟩ }

/-- The loop `for(uint i = 0; i < size; i++)` of `apply_uniform`, at counter `i` with
`todo = size - i` iterations left; every store `calibration[i]` has `i < size`. -/
def fill_uniform (size_minus_one min_pulse max_pulse min_value max_value : ℚ) :
    ℕ → ℕ → List Point → Except Fault (List Point)
  | 0, _, cal => Except.ok cal
  | todo + 1, i, cal => do
    let pulse ← map_float (i : ℚ) 0 size_minus_one min_pulse max_pulse
    let value ← map_float (i : ℚ) 0 size_minus_one min_value max_value
    fill_uniform size_minus_one min_pulse max_pulse min_value max_value todo (i + 1)
      (cal.set i ⟨pulse, value⟩)

/-- `Calibration::apply_uniform`. -/
def Calibration.apply_uniform (c : Calibration) (size : ℕ)
    (min_pulse max_pulse min_value max_value : ℚ) : Except Fault Calibration :=
  let c := c.apply_blank size
  if size > 0 then do
    let size_minus_one : ℚ := ((size - 1 : ℕ) : ℚ)
    let cal ← fill_uniform size_minus_one min_pulse max_pulse min_value max_value size 0
      c.calibration
    pure { c with calibration := cal }
  else
    pure c

/-- `Calibration::apply_default`; the `default:` label shares the `ANGULAR` case. -/
def Calibration.apply_default (K : Constants) (c : Calibration)
    (default_type : CalibrationType) : Calibration :=
  match default_type with
  | CalibrationType.ANGULAR =>
    c.apply_three_point K.DEFAULT_MIN_PULSE K.DEFAULT_MID_PULSE K.DEFAULT_MAX_PULSE (-90) 0 90
  | CalibrationType.LINEAR =>
    c.apply_two_point K.DEFAULT_MIN_PULSE K.DEFAULT_MAX_PULSE 0 1
  | CalibrationType.CONTINUOUS =>
    c.apply_three_point K.DEFAULT_MIN_PULSE K.DEFAULT_MID_PULSE K.DEFAULT_MAX_PULSE (-1) 0 1
  | CalibrationType.other _ =>
    c.apply_three_point K.DEFAULT_MIN_PULSE K.DEFAULT_MID_PULSE K.DEFAULT_MAX_PULSE (-90) 0 90

/-- `Calibration::point_at`.  The parameter is a `uint8_t`, so the argument arrives
reduced modulo 256.  The result is the offset of the element the returned pointer
addresses, `none` for `nullptr`. -/
def Calibration.point_at (c : Calibration) (index : ℕ) : Option ℕ :=
  let index := index % 256
  if index < c.calibration_size then some index else none

/-- `Calibration::first_point`, as the offset of the addressed element. -/
def Calibration.first_point (c : Calibration) : Option ℕ :=
  if c.calibration_size > 0 then some 0 else none

/-- `Calibration::last_point`, as the offset of the addressed element. -/
def Calibration.last_point (c : Calibration) : Option ℕ :=
  if c.calibration_size > 0 then some (c.calibration_size - 1) else none

/-- `Calibration::has_lower_limit`. -/
def Calibration.has_lower_limit (c : Calibration) : Bool := c.limit_lower

/-- `Calibration::has_upper_limit`. -/
def Calibration.has_upper_limit (c : Calibration) : Bool := c.limit_upper

/-- `Calibration::limit_to_calibration`. -/
def Calibration.limit_to_calibration (c : Calibration) (lower upper : Bool) : Calibration :=
  { c with limit_lower := lower, limit_upper := upper }

/-- A `float` as the IEEE format classifies it: a finite number, an infinity or a NaN.
The sign of a zero is not kept: no comparison sees it, and a zero divisor is taken as
`+0` (the divisor `in_max - in_min` of `map_float` is `-0` only for `in_max = -0.0` and
`in_min = +0.0`). -/
inductive Flt where
  | fin (q : ℚ)
  | pinf
  | ninf
  | nan
deriving DecidableEq

/-- The comparison `a < b` on `float`; false when a side is a NaN. -/
def Flt.lt : Flt → Flt → Bool
  | Flt.fin a, Flt.fin b => decide (a < b)
  | Flt.fin _, Flt.pinf => true
  | Flt.ninf, Flt.fin _ => true
  | Flt.ninf, Flt.pinf => true
  | _, _ => false

/-- The comparison `a > b` on `float`. -/
def Flt.gt (a b : Flt) : Bool := Flt.lt b a

/-- The comparison `a <= b` on `float`; false when a side is a NaN. -/
def Flt.le : Flt → Flt → Bool
  | Flt.fin a, Flt.fin b => decide (a ≤ b)
  | Flt.fin _, Flt.pinf => true
  | Flt.ninf, Flt.fin _ => true
  | Flt.ninf, Flt.pinf => true
  | Flt.ninf, Flt.ninf => true
  | Flt.pinf, Flt.pinf => true
  | _, _ => false

/-- The four `float` operations that `map_float` uses. -/
structure Arith where
  sub : Flt → Flt → Flt
  mul : Flt → Flt → Flt
  div : Flt → Flt → Flt
  add : Flt → Flt → Flt

/-- IEEE addition, the finite result rounded by `rnd`. -/
def ieee_add (rnd : ℚ → Flt) : Flt → Flt → Flt
  | Flt.fin a, Flt.fin b => rnd (a + b)
  | Flt.fin _, Flt.pinf => Flt.pinf
  | Flt.fin _, Flt.ninf => Flt.ninf
  | Flt.pinf, Flt.fin _ => Flt.pinf
  | Flt.pinf, Flt.pinf => Flt.pinf
  | Flt.pinf, Flt.ninf => Flt.nan
  | Flt.ninf, Flt.fin _ => Flt.ninf
  | Flt.ninf, Flt.pinf => Flt.nan
  | Flt.ninf, Flt.ninf => Flt.ninf
  | Flt.nan, _ => Flt.nan
  | _, Flt.nan => Flt.nan

/-- IEEE subtraction, the finite result rounded by `rnd`. -/
def ieee_sub (rnd : ℚ → Flt) : Flt → Flt → Flt
  | Flt.fin a, Flt.fin b => rnd (a - b)
  | Flt.fin _, Flt.pinf => Flt.ninf
  | Flt.fin _, Flt.ninf => Flt.pinf
  | Flt.pinf, Flt.fin _ => Flt.pinf
  | Flt.pinf, Flt.pinf => Flt.nan
  | Flt.pinf, Flt.ninf => Flt.pinf
  | Flt.ninf, Flt.fin _ => Flt.ninf
  | Flt.ninf, Flt.pinf => Flt.ninf
  | Flt.ninf, Flt.ninf => Flt.nan
  | Flt.nan, _ => Flt.nan
  | _, Flt.nan => Flt.nan

/-- The infinity with the sign of `a`, a NaN when `a` is zero. -/
def signed_infinity (a : ℚ) : Flt :=
  if a = 0 then Flt.nan else if 0 < a then Flt.pinf else Flt.ninf

/-- IEEE multiplication, the finite result rounded by `rnd`; zero times infinity is a
NaN. -/
def ieee_mul (rnd : ℚ → Flt) : Flt → Flt → Flt
  | Flt.fin a, Flt.fin b => rnd (a * b)
  | Flt.fin a, Flt.pinf => signed_infinity a
  | Flt.fin a, Flt.ninf => signed_infinity (-a)
  | Flt.pinf, Flt.fin b => signed_infinity b
  | Flt.pinf, Flt.pinf => Flt.pinf
  | Flt.pinf, Flt.ninf => Flt.ninf
  | Flt.ninf, Flt.fin b => signed_infinity (-b)
  | Flt.ninf, Flt.pinf => Flt.ninf
  | Flt.ninf, Flt.ninf => Flt.pinf
  | Flt.nan, _ => Flt.nan
  | _, Flt.nan => Flt.nan

/-- IEEE division, the finite result rounded by `rnd`: a non-zero number over zero is an
infinity with the sign of the number, zero over zero and infinity over infinity are NaN. -/
def ieee_div (rnd : ℚ → Flt) : Flt → Flt → Flt
  | Flt.fin a, Flt.fin b => if b = 0 then signed_infinity a else rnd (a / b)
  | Flt.fin _, Flt.pinf => Flt.fin 0
  | Flt.fin _, Flt.ninf => Flt.fin 0
  | Flt.pinf, Flt.fin b => if b < 0 then Flt.ninf else Flt.pinf
  | Flt.pinf, Flt.pinf => Flt.nan
  | Flt.pinf, Flt.ninf => Flt.nan
  | Flt.ninf, Flt.fin b => if b < 0 then Flt.pinf else Flt.ninf
  | Flt.ninf, Flt.pinf => Flt.nan
  | Flt.ninf, Flt.ninf => Flt.nan
  | Flt.nan, _ => Flt.nan
  | _, Flt.nan => Flt.nan

/-- The exponent of the last place of a binary32 number of magnitude `a`: the least
`e >= -149` with `a < 2^24 * 2^e`, searched upwards from `e` in at most the given number
of steps. -/
def last_place (a : ℚ) : ℕ → ℤ → ℤ
  | 0, e => e
  | n + 1, e => if a < 16777216 * (2 : ℚ) ^ e then e else last_place a n (e + 1)

/-- The integer nearest to `x`, the even one of the two when `x` is half-way. -/
def nearest_even (x : ℚ) : ℤ :=
  let f := ⌊x⌋
  if x - f < 1 / 2 then f
  else if 1 / 2 < x - f then f + 1
  else if f % 2 = 0 then f
  else f + 1

/-- The exponent of the last place of the binary32 number that the exact result `q` is
rounded to. -/
def round_place (q : ℚ) : ℤ := last_place (if q < 0 then -q else q) 253 (-149)

/-- The exact result `q` rounded to 24 significant bits with least exponent -149 (round
to nearest, ties to even), before the overflow test. -/
def round_value (q : ℚ) : ℚ :=
  (nearest_even (q / (2 : ℚ) ^ round_place q) : ℚ) * (2 : ℚ) ^ round_place q

/-- Rounding of an exact result to binary32 (24 significant bits, least exponent -149,
round to nearest, ties to even); a rounded magnitude of `2^128` or more overflows to an
infinity. -/
def round32 (q : ℚ) : Flt :=
  if round_value q ≥ 340282366920938463463374607431768211456 then Flt.pinf
  else if round_value q ≤ -340282366920938463463374607431768211456 then Flt.ninf
  else Flt.fin (round_value q)

/-- The arithmetic of `float` on the target: IEEE binary32. -/
def float32 : Arith :=
  ⟨ieee_sub round32, ieee_mul round32, ieee_div round32, ieee_add round32⟩

/-- Exact arithmetic: the IEEE rules for infinities, NaN and division by zero, without
rounding and without overflow. -/
def exact : Arith :=
  ⟨ieee_sub Flt.fin, ieee_mul Flt.fin, ieee_div Flt.fin, ieee_add Flt.fin⟩

/-- `Calibration::Point` with `float` members. -/
structure FloatPoint where
  pulse : Flt
  value : Flt
deriving DecidableEq

/-- The member variables of `Calibration`, the points with `float` members. -/
structure FloatCalibration where
  calibration : List FloatPoint
  limit_lower : Bool
  limit_upper : Bool

/-- The two reference outputs of a mapping call, as `float`. -/
structure FloatOuts where
  pulse_out : Flt
  value_out : Flt
deriving DecidableEq

/-- What a mapping call on `float` leaves behind: the returned `bool` and the two
reference outputs (or the fault of a read outside the array). -/
structure FloatMapped where
  success : Bool
  outs : Except Fault FloatOuts

/-- The `MIN` macro on `float`: `a < b ? a : b`. -/
def MIN_fl (a b : Flt) : Flt := if a.lt b then a else b

/-- The `MAX` macro on `float`: `a > b ? a : b`. -/
def MAX_fl (a b : Flt) : Flt := if a.gt b then a else b

/-- The array read `calibration[i]` with an `int` index, on `float` points. -/
def index_fl (cal : List FloatPoint) (i : ℤ) : Except Fault FloatPoint :=
  if i < 0 then Except.error Fault.out_of_bounds
  else
    match cal[i.toNat]? with
    | some p => Except.ok p
    | none => Except.error Fault.out_of_bounds

/-- `Calibration::map_float` in the arithmetic `A`, operation by operation. -/
def map_float_fl (A : Arith) (x in_min in_max out_min out_max : Flt) : Flt :=
  A.add (A.div (A.mul (A.sub x in_min) (A.sub out_max out_min)) (A.sub in_max in_min)) out_min

/-- The segment loop by value of `value_to_pulse`, on `float`. -/
def seek_by_value_fl (A : Arith) (cal : List FloatPoint) (value : Flt) (pulse_out : Flt) :
    ℕ → ℕ → Except Fault Flt
  | 0, _ => Except.ok pulse_out
  | todo + 1, i => do
    let hi ← index_fl cal ((i : ℤ) + 1)
    if value.le hi.value then
      let lo ← index_fl cal (i : ℤ)
      pure (map_float_fl A value lo.value hi.value lo.pulse hi.pulse)
    else
      seek_by_value_fl A cal value pulse_out todo (i + 1)

/-- The segment loop by pulse of the hard-limit pass of `value_to_pulse`, on `float`. -/
def seek_by_pulse_fl (A : Arith) (cal : List FloatPoint) (pulse : Flt) (value_out : Flt) :
    ℕ → ℕ → Except Fault Flt
  | 0, _ => Except.ok value_out
  | todo + 1, i => do
    let hi ← index_fl cal ((i : ℤ) + 1)
    if pulse.le hi.pulse then
      let lo ← index_fl cal (i : ℤ)
      pure (map_float_fl A pulse lo.pulse hi.pulse lo.value hi.value)
    else
      seek_by_pulse_fl A cal pulse value_out todo (i + 1)

/-- Lines 154-189 of `value_to_pulse` on `float`. -/
def value_to_pulse_curve_fl (A : Arith) (c : FloatCalibration) (last : ℕ)
    (value pulse_out : Flt) : Except Fault FloatOuts := do
  let cal := c.calibration
  let first ← index_fl cal 0
  if value.lt first.value then
    if c.limit_lower then
      pure ⟨first.pulse, first.value⟩
    else
      let second ← index_fl cal 1
      pure ⟨map_float_fl A value first.value second.value first.pulse second.pulse, value⟩
  else
    let top ← index_fl cal (last : ℤ)
    if value.gt top.value then
      if c.limit_upper then
        pure ⟨top.pulse, top.value⟩
      else
        let below ← index_fl cal ((last : ℤ) - 1)
        pure ⟨map_float_fl A value below.value top.value below.pulse top.pulse, value⟩
    else
      let p ← seek_by_value_fl A cal value pulse_out last 0
      pure ⟨p, value⟩

/-- Lines 191-215 of `value_to_pulse` on `float`. -/
def value_to_pulse_clamp_fl (A : Arith) (K : Constants) (c : FloatCalibration) (last : ℕ)
    (o : FloatOuts) : Except Fault FloatOuts := do
  let cal := c.calibration
  if o.pulse_out.lt (Flt.fin K.LOWER_HARD_LIMIT) || o.pulse_out.gt (Flt.fin K.UPPER_HARD_LIMIT)
  then
    let pulse_out :=
      MIN_fl (MAX_fl o.pulse_out (Flt.fin K.LOWER_HARD_LIMIT)) (Flt.fin K.UPPER_HARD_LIMIT)
    let first ← index_fl cal 0
    if pulse_out.lt first.pulse then
      let second ← index_fl cal 1
      pure ⟨pulse_out,
        map_float_fl A pulse_out first.pulse second.pulse first.value second.value⟩
    else
      let top ← index_fl cal (last : ℤ)
      if pulse_out.gt top.pulse then
        let below ← index_fl cal ((last : ℤ) - 1)
        pure ⟨pulse_out,
          map_float_fl A pulse_out below.pulse top.pulse below.value top.value⟩
      else
        let v ← seek_by_pulse_fl A cal pulse_out o.value_out last 0
        pure ⟨pulse_out, v⟩
  else
    pure o

/-- `Calibration::value_to_pulse` on `float`, in the arithmetic `A`. -/
def value_to_pulse_fl (A : Arith) (K : Constants) (c : FloatCalibration)
    (value pulse_out value_out : Flt) : FloatMapped :=
  if c.calibration.length ≥ 2 then
    let last : ℕ := (c.calibration.length - 1) % 256
    { success := true
      outs := do
        let o ← value_to_pulse_curve_fl A c last value pulse_out
        value_to_pulse_clamp_fl A K c last o }
  else
    { success := false, outs := Except.ok ⟨pulse_out, value_out⟩ }

/-- A point of rationals as a `float` point. -/
def Point.to_float (p : Point) : FloatPoint := ⟨Flt.fin p.pulse, Flt.fin p.value⟩

/-- A table of rationals as a `float` table. -/
def Calibration.to_float (c : Calibration) : FloatCalibration :=
  ⟨c.calibration.map Point.to_float, c.limit_lower, c.limit_upper⟩

/-- Equality of two outcomes of a `float` mapping call can be decided. -/
instance decide_float_outcome : DecidableEq (Except Fault FloatOuts) := fun a b =>
  match a, b with
  | Except.ok x, Except.ok y =>
    if h : x = y then isTrue (by rw [h]) else isFalse (fun e => h (by cases e; rfl))
  | Except.error x, Except.error y =>
    if h : x = y then isTrue (by rw [h]) else isFalse (fun e => h (by cases e; rfl))
  | Except.ok _, Except.error _ => isFalse (fun e => by cases e)
  | Except.error _, Except.ok _ => isFalse (fun e => by cases e)

/-- The `float` point at index `i`, a NaN point when `i` is outside the table. -/
def nth_fl (cal : List FloatPoint) (i : ℕ) : FloatPoint := cal.getD i ⟨Flt.nan, Flt.nan⟩

/-- The pulse that the hard-limit pass of `value_to_pulse` leaves for the pulse `g` of the
curve logic (lines 192-193). -/
def clip_fl (K : Constants) (g : Flt) : Flt :=
  if g.lt (Flt.fin K.LOWER_HARD_LIMIT) || g.gt (Flt.fin K.UPPER_HARD_LIMIT) then
    MIN_fl (MAX_fl g (Flt.fin K.LOWER_HARD_LIMIT)) (Flt.fin K.UPPER_HARD_LIMIT)
  else g

/-- The point at index `i`, the origin when `i` is outside the table. -/
def nth (cal : List Point) (i : ℕ) : Point := cal.getD i ⟨0, 0⟩

/-- Values strictly increasing along the table. -/
def values_increasing (cal : List Point) : Prop := List.Sorted (· < ·) (cal.map Point.value)

/-- Pulses strictly increasing along the table. -/
def pulses_increasing (cal : List Point) : Prop := List.Sorted (· < ·) (cal.map Point.pulse)

/-- The line through `(a, c)` and `(b, d)` at `x`, as `map_float` computes it. -/
def lerp (x a b c d : ℚ) : ℚ := (x - a) * (d - c) / (b - a) + c

/-- The hard-limit clamp of line 193. -/
def clip (K : Constants) (p : ℚ) : ℚ := MIN (MAX p K.LOWER_HARD_LIMIT) K.UPPER_HARD_LIMIT

/-- No segment of the table is degenerate: neighbouring points differ in value and in pulse. -/
def no_flat_segment (cal : List Point) : Prop :=
  List.Chain' (fun a b : Point => a.value ≠ b.value ∧ a.pulse ≠ b.pulse) cal

/-- Sample constants: hard limits 400 and 2600, default pulses 500, 1500 and 2500. -/
def sample_constants : Constants := ⟨500, 1500, 2500, 400, 2600⟩

/-- Sample constants with the upper hard limit at 2400. -/
def tight_constants : Constants := ⟨500, 1500, 2500, 400, 2400⟩

/-- The three-point angular table `{(1000,-90), (1500,0), (2000,90)}`, both limits on. -/
def angular_table : Calibration := ⟨[⟨1000, -90⟩, ⟨1500, 0⟩, ⟨2000, 90⟩], true, true⟩

/-- The two-point table `{(1000,0), (2000,1)}` with the upper limit off. -/
def linear_table : Calibration := ⟨[⟨1000, 0⟩, ⟨2000, 1⟩], true, false⟩

/-- A two-point table whose two points have the same value. -/
def flat_table : Calibration := ⟨[⟨1000, 0⟩, ⟨2000, 0⟩], true, true⟩

/-- A one-point table. -/
def single_table : Calibration := ⟨[⟨1500, 0⟩], true, true⟩

/-- A two-point table with increasing pulse and decreasing value. -/
def reversed_table : Calibration := ⟨[⟨1000, 90⟩, ⟨2000, -90⟩], true, true⟩

/-- A two-point table whose first pulse lies below the lower hard limit of the samples. -/
def low_table : Calibration := ⟨[⟨300, 0⟩, ⟨2000, 1⟩], true, true⟩

/-- A two-point table whose last pulse (3000) lies above the upper hard limit of the
samples. -/
def steep_table : Calibration := ⟨[⟨1000, 0⟩, ⟨3000, 1⟩], true, true⟩

/-- The 258 points `(1000 + i, i)`, as `apply_uniform(258, 1000, 1257, 0, 257)` lays them
out. -/
def long_points : List Point :=
  (List.range 258).map (fun i => ⟨((1000 + i : ℕ) : ℚ), (i : ℚ)⟩)

/-- The uniform 258-point table with both limits on. -/
def long_table : Calibration := ⟨long_points, true, true⟩

/-- The 258 points `(1000 + i, i)` with the pulse of the last point raised to 2000. -/
def kinked_points : List Point :=
  (List.range 258).map (fun i => ⟨((1000 + i + 743 * (i - 256) : ℕ) : ℚ), (i : ℚ)⟩)

/-- The 258-point table with the raised last pulse, upper limit off. -/
def kinked_table : Calibration := ⟨kinked_points, true, false⟩

/-- A two-point table whose first pulse (3000) lies above the upper hard limit of the
samples. -/
def high_table : Calibration := ⟨[⟨3000, 0⟩, ⟨4000, 1⟩], true, true⟩

/-- The 257 points `(1000 + i, i)`, as `apply_uniform(257, 1000, 1256, 0, 256)` lays them
out. -/
def wrapped_points : List Point :=
  (List.range 257).map (fun i => ⟨((1000 + i : ℕ) : ℚ), (i : ℚ)⟩)

/-- The uniform 257-point table with both limits on. -/
def wrapped_table : Calibration := ⟨wrapped_points, true, true⟩

/-- The uniform 257-point table with the upper limit off. -/
def wrapped_free_table : Calibration := ⟨wrapped_points, true, false⟩

/-- The point that `apply_uniform` computes for index `i`. -/
def uniform_point (size_minus_one min_pulse max_pulse min_value max_value : ℚ) (i : ℕ) :
    Point :=
  ⟨lerp (i : ℚ) 0 size_minus_one min_pulse max_pulse,
   lerp (i : ℚ) 0 size_minus_one min_value max_value⟩

/-- The two-point table `{(500,0), (2500,1)}` with the lower limit off. -/
def unit_table : Calibration := ⟨[⟨500, 0⟩, ⟨2500, 1⟩], false, true⟩

/-- The two-point table `{(1000,-3e38f), (2000,3e38f)}`, both limits on; `3e38f` is the
binary32 number `300000000549775575777803994281145270272`. -/
def wide_table : Calibration :=
  ⟨[⟨1000, -300000000549775575777803994281145270272⟩,
    ⟨2000, 300000000549775575777803994281145270272⟩], true, true⟩

/-- The two-point table whose points share the value 0, both limits off. -/
def flat_free_table : Calibration := ⟨[⟨1000, 0⟩, ⟨2000, 0⟩], false, false⟩

/-- The two-point table `{(3000,0), (3000,1)}`, whose points share a pulse above the upper
hard limit of the samples. -/
def level_table : Calibration := ⟨[⟨3000, 0⟩, ⟨3000, 1⟩], true, true⟩

/-- Two `float` results are in order, or one of them is a NaN. -/
def ordered_fl (x y : Flt) : Prop := x = Flt.nan ∨ y = Flt.nan ∨ x.le y = true

/-- A `float` that is a non-negative number or plus infinity. -/
def nonneg_fl (x : Flt) : Prop := x = Flt.pinf ∨ ∃ r : ℚ, 0 ≤ r ∧ x = Flt.fin r

theorem nth_of_lookup {cal : List Point} {i : ℕ} {p : Point} (h : cal[i]? = some p) :
    nth cal i = p ∧ i < cal.length := by
  have hi : i < cal.length := by
    by_contra hc
    rw [List.getElem?_eq_none (by omega)] at h
    exact absurd h (by simp)
  refine ⟨?_, hi⟩
  simp [nth, h]

theorem lookup_nth {cal : List Point} {i : ℕ} (h : i < cal.length) :
    cal[i]? = some (nth cal i) := by
  simp [nth, List.getElem?_eq_getElem h]

theorem index_cast {cal : List Point} {i : ℕ} (h : i < cal.length) :
    index cal (i : ℤ) = Except.ok (nth cal i) := by
  have h0 : ¬ ((i : ℤ) < 0) := by omega
  simp [index, h0, lookup_nth h]

theorem index_zero {cal : List Point} (h : 0 < cal.length) :
    index cal 0 = Except.ok (nth cal 0) := by
  have := index_cast h
  simpa using this

theorem index_one {cal : List Point} (h : 1 < cal.length) :
    index cal 1 = Except.ok (nth cal 1) := by
  have := index_cast h
  simpa using this

theorem index_succ {cal : List Point} {i : ℕ} (h : i + 1 < cal.length) :
    index cal ((i : ℤ) + 1) = Except.ok (nth cal (i + 1)) := by
  have := index_cast h
  simpa using this

theorem index_pred {cal : List Point} {i : ℕ} (h0 : 0 < i) (h : i < cal.length) :
    index cal ((i : ℤ) - 1) = Except.ok (nth cal (i - 1)) := by
  have h1 : i - 1 < cal.length := by omega
  have := index_cast h1
  have e : ((i - 1 : ℕ) : ℤ) = (i : ℤ) - 1 := by omega
  rw [e] at this
  exact this

theorem values_increasing_nth {cal : List Point} (h : values_increasing cal) {i j : ℕ}
    (hij : i < j) (hj : j < cal.length) : (nth cal i).value < (nth cal j).value := by
  have hi : i < cal.length := by omega
  have := (List.pairwise_iff_getElem.mp h) i j (by simpa using hi) (by simpa using hj) hij
  simpa [nth, List.getD_eq_getElem, hi, hj] using this

theorem pulses_increasing_nth {cal : List Point} (h : pulses_increasing cal) {i j : ℕ}
    (hij : i < j) (hj : j < cal.length) : (nth cal i).pulse < (nth cal j).pulse := by
  have hi : i < cal.length := by omega
  have := (List.pairwise_iff_getElem.mp h) i j (by simpa using hi) (by simpa using hj) hij
  simpa [nth, List.getD_eq_getElem, hi, hj] using this

theorem map_float_ok {x a b c d : ℚ} (h : a ≠ b) :
    map_float x a b c d = Except.ok ((x - a) * (d - c) / (b - a) + c) := by
  have : b - a ≠ 0 := sub_ne_zero.mpr (Ne.symm h)
  simp [map_float, this]

/-- The loop by value stops at the lowest segment whose upper value is not below `x`. -/
theorem seek_by_value_found (cal : List Point) (x d : ℚ) :
    ∀ (todo i j : ℕ), i ≤ j → j < i + todo → i + todo < cal.length →
      (∀ k, i ≤ k → k < j → ¬ x ≤ (nth cal (k + 1)).value) →
      x ≤ (nth cal (j + 1)).value →
      seek_by_value cal x d todo i =
        map_float x (nth cal j).value (nth cal (j + 1)).value
          (nth cal j).pulse (nth cal (j + 1)).pulse := by
  intro todo
  induction todo with
  | zero => intro i j h1 h2; omega
  | succ t ih =>
    intro i j hij hj hlen hlow hx
    have e1 : index cal ((i : ℤ) + 1) = Except.ok (nth cal (i + 1)) := index_succ (by omega)
    have e0 : index cal (i : ℤ) = Except.ok (nth cal i) := index_cast (by omega)
    rcases Nat.eq_or_lt_of_le hij with heq | hlt
    · subst heq
      simp [seek_by_value, e1, e0, bind, Except.bind, hx]
    · have hn : ¬ x ≤ (nth cal (i + 1)).value := hlow i le_rfl hlt
      have := ih (i + 1) j (by omega) (by omega) (by omega)
        (fun k hk1 hk2 => hlow k (by omega) hk2) hx
      simp [seek_by_value, e1, bind, Except.bind, hn, this]

theorem seek_by_pulse_found (cal : List Point) (x d : ℚ) :
    ∀ (todo i j : ℕ), i ≤ j → j < i + todo → i + todo < cal.length →
      (∀ k, i ≤ k → k < j → ¬ x ≤ (nth cal (k + 1)).pulse) →
      x ≤ (nth cal (j + 1)).pulse →
      seek_by_pulse cal x d todo i =
        map_float x (nth cal j).pulse (nth cal (j + 1)).pulse
          (nth cal j).value (nth cal (j + 1)).value := by
  intro todo
  induction todo with
  | zero => intro i j h1 h2; omega
  | succ t ih =>
    intro i j hij hj hlen hlow hx
    have e1 : index cal ((i : ℤ) + 1) = Except.ok (nth cal (i + 1)) := index_succ (by omega)
    have e0 : index cal (i : ℤ) = Except.ok (nth cal i) := index_cast (by omega)
    rcases Nat.eq_or_lt_of_le hij with heq | hlt
    · subst heq
      simp [seek_by_pulse, e1, e0, bind, Except.bind, hx]
    · have hn : ¬ x ≤ (nth cal (i + 1)).pulse := hlow i le_rfl hlt
      have := ih (i + 1) j (by omega) (by omega) (by omega)
        (fun k hk1 hk2 => hlow k (by omega) hk2) hx
      simp [seek_by_pulse, e1, bind, Except.bind, hn, this]

theorem map_float_lerp {x a b c d : ℚ} (h : a ≠ b) :
    map_float x a b c d = Except.ok (lerp x a b c d) := map_float_ok h

theorem lerp_left (a b c d : ℚ) : lerp a a b c d = c := by
  simp [lerp]

theorem lerp_right {a b : ℚ} (c d : ℚ) (h : a ≠ b) : lerp b a b c d = d := by
  have : b - a ≠ 0 := sub_ne_zero.mpr (Ne.symm h)
  unfold lerp
  field_simp

theorem lerp_mono {a b c d : ℚ} (hab : a < b) (hcd : c ≤ d) {x y : ℚ} (hxy : x ≤ y) :
    lerp x a b c d ≤ lerp y a b c d := by
  have hpos : 0 < b - a := sub_pos.mpr hab
  unfold lerp
  have : (x - a) * (d - c) ≤ (y - a) * (d - c) :=
    mul_le_mul_of_nonneg_right (by linarith) (by linarith)
  have := div_le_div_of_nonneg_right this hpos.le
  linarith

theorem lerp_strict_mono {a b c d : ℚ} (hab : a < b) (hcd : c < d) {x y : ℚ} (hxy : x < y) :
    lerp x a b c d < lerp y a b c d := by
  have hpos : 0 < b - a := sub_pos.mpr hab
  unfold lerp
  have : (x - a) * (d - c) < (y - a) * (d - c) :=
    mul_lt_mul_of_pos_right (by linarith) (by linarith)
  have := div_lt_div_of_pos_right this hpos
  linarith

theorem lerp_inverse {a b c d : ℚ} (hab : a ≠ b) (hcd : c ≠ d) (x : ℚ) :
    lerp (lerp x a b c d) c d a b = x := by
  have h1 : b - a ≠ 0 := sub_ne_zero.mpr (Ne.symm hab)
  have h2 : d - c ≠ 0 := sub_ne_zero.mpr (Ne.symm hcd)
  unfold lerp
  field_simp
  ring

theorem clip_mem {K : Constants} (h : K.LOWER_HARD_LIMIT ≤ K.UPPER_HARD_LIMIT) (p : ℚ) :
    K.LOWER_HARD_LIMIT ≤ clip K p ∧ clip K p ≤ K.UPPER_HARD_LIMIT := by
  unfold clip MIN MAX
  split_ifs <;> constructor <;> linarith

theorem clip_of_mem {K : Constants} {p : ℚ} (h1 : K.LOWER_HARD_LIMIT ≤ p)
    (h2 : p ≤ K.UPPER_HARD_LIMIT) : clip K p = p := by
  unfold clip MIN MAX
  split_ifs <;> linarith

theorem clip_of_gt {K : Constants} {p : ℚ} (h : K.UPPER_HARD_LIMIT < p) :
    clip K p = K.UPPER_HARD_LIMIT := by
  unfold clip MIN MAX
  split_ifs <;> linarith

/-- Lowest index below `last` whose successor bounds `x` from above. -/
theorem exists_lowest (f : ℕ → ℚ) (x : ℚ) (last : ℕ) (h0 : 0 < last) (hx : x ≤ f last) :
    ∃ j, j < last ∧ x ≤ f (j + 1) ∧ ∀ k, k < j → ¬ x ≤ f (k + 1) := by
  have hex : ∃ j, j < last ∧ x ≤ f (j + 1) :=
    ⟨last - 1, by omega, by rwa [Nat.sub_add_cancel h0]⟩
  classical
  refine ⟨Nat.find hex, (Nat.find_spec hex).1, (Nat.find_spec hex).2, ?_⟩
  intro k hk hxk
  exact Nat.find_min hex hk ⟨lt_trans hk (Nat.find_spec hex).1, hxk⟩

theorem curve_below_limit {c : Calibration} {l : ℕ} {v d : ℚ}
    (hn : 0 < c.calibration.length) (hv : v < (nth c.calibration 0).value)
    (hl : c.limit_lower = true) :
    value_to_pulse_curve c l v d =
      Except.ok ⟨(nth c.calibration 0).pulse, (nth c.calibration 0).value⟩ := by
  simp [value_to_pulse_curve, index_zero hn, bind, Except.bind, hv, hl, pure, Except.pure]

theorem curve_below_free {c : Calibration} {l : ℕ} {v d : ℚ}
    (hn : 1 < c.calibration.length) (hv : v < (nth c.calibration 0).value)
    (hl : c.limit_lower = false)
    (hne : (nth c.calibration 0).value ≠ (nth c.calibration 1).value) :
    value_to_pulse_curve c l v d =
      Except.ok ⟨lerp v (nth c.calibration 0).value (nth c.calibration 1).value
        (nth c.calibration 0).pulse (nth c.calibration 1).pulse, v⟩ := by
  simp [value_to_pulse_curve, index_zero (Nat.lt_of_succ_lt hn), index_one hn, bind,
    Except.bind, hv, hl, pure, Except.pure, map_float_lerp hne]

theorem curve_above_limit {c : Calibration} {l : ℕ} {v d : ℚ}
    (hn : l < c.calibration.length) (hv0 : ¬ v < (nth c.calibration 0).value)
    (hv : (nth c.calibration l).value < v) (hl : c.limit_upper = true) :
    value_to_pulse_curve c l v d =
      Except.ok ⟨(nth c.calibration l).pulse, (nth c.calibration l).value⟩ := by
  simp [value_to_pulse_curve, index_zero (Nat.zero_lt_of_lt hn), index_cast hn, bind,
    Except.bind, hv0, hv, hl, pure, Except.pure]

theorem curve_above_free {c : Calibration} {l : ℕ} {v d : ℚ}
    (h0 : 0 < l) (hn : l < c.calibration.length)
    (hv0 : ¬ v < (nth c.calibration 0).value)
    (hv : (nth c.calibration l).value < v) (hl : c.limit_upper = false)
    (hne : (nth c.calibration (l - 1)).value ≠ (nth c.calibration l).value) :
    value_to_pulse_curve c l v d =
      Except.ok ⟨lerp v (nth c.calibration (l - 1)).value (nth c.calibration l).value
        (nth c.calibration (l - 1)).pulse (nth c.calibration l).pulse, v⟩ := by
  simp [value_to_pulse_curve, index_zero (Nat.zero_lt_of_lt hn), index_cast hn,
    index_pred h0 hn, bind, Except.bind, hv0, hv, hl, pure, Except.pure, map_float_lerp hne]

theorem curve_inside {c : Calibration} {l j : ℕ} {v d : ℚ}
    (hn : l < c.calibration.length)
    (hv0 : ¬ v < (nth c.calibration 0).value)
    (hv : ¬ (nth c.calibration l).value < v)
    (hj : j < l) (hx : v ≤ (nth c.calibration (j + 1)).value)
    (hlow : ∀ k, k < j → ¬ v ≤ (nth c.calibration (k + 1)).value)
    (hne : (nth c.calibration j).value ≠ (nth c.calibration (j + 1)).value) :
    value_to_pulse_curve c l v d =
      Except.ok ⟨lerp v (nth c.calibration j).value (nth c.calibration (j + 1)).value
        (nth c.calibration j).pulse (nth c.calibration (j + 1)).pulse, v⟩ := by
  have hs := seek_by_value_found c.calibration v d l 0 j (Nat.zero_le _) (by omega)
    (by omega) (fun k _ hk => hlow k hk) hx
  simp [value_to_pulse_curve, index_zero (Nat.zero_lt_of_lt hn), index_cast hn, bind,
    Except.bind, hv0, hv, pure, Except.pure, hs, map_float_lerp hne]

theorem clamp_idle {K : Constants} {c : Calibration} {l : ℕ} {o : Outs}
    (h1 : K.LOWER_HARD_LIMIT ≤ o.pulse_out) (h2 : o.pulse_out ≤ K.UPPER_HARD_LIMIT) :
    value_to_pulse_clamp K c l o = Except.ok o := by
  have : ¬ (o.pulse_out < K.LOWER_HARD_LIMIT ∨ o.pulse_out > K.UPPER_HARD_LIMIT) := by
    intro h
    rcases h with h | h
    · exact absurd h1 (not_le.mpr h)
    · exact absurd h2 (not_le.mpr h)
  simp only [value_to_pulse_clamp, this, if_false]
  rfl

theorem clamp_below {K : Constants} {c : Calibration} {l : ℕ} {o : Outs}
    (hn : 1 < c.calibration.length)
    (ho : o.pulse_out < K.LOWER_HARD_LIMIT ∨ o.pulse_out > K.UPPER_HARD_LIMIT)
    (hq : clip K o.pulse_out < (nth c.calibration 0).pulse)
    (hne : (nth c.calibration 0).pulse ≠ (nth c.calibration 1).pulse) :
    value_to_pulse_clamp K c l o =
      Except.ok ⟨clip K o.pulse_out,
        lerp (clip K o.pulse_out) (nth c.calibration 0).pulse (nth c.calibration 1).pulse
          (nth c.calibration 0).value (nth c.calibration 1).value⟩ := by
  unfold clip at hq
  simp [value_to_pulse_clamp, ho, index_zero (Nat.lt_of_succ_lt hn), index_one hn, bind,
    Except.bind, pure, Except.pure, hq, map_float_lerp hne, clip]

theorem clamp_above {K : Constants} {c : Calibration} {l : ℕ} {o : Outs}
    (h0 : 0 < l) (hn : l < c.calibration.length)
    (ho : o.pulse_out < K.LOWER_HARD_LIMIT ∨ o.pulse_out > K.UPPER_HARD_LIMIT)
    (hq0 : ¬ clip K o.pulse_out < (nth c.calibration 0).pulse)
    (hq : (nth c.calibration l).pulse < clip K o.pulse_out)
    (hne : (nth c.calibration (l - 1)).pulse ≠ (nth c.calibration l).pulse) :
    value_to_pulse_clamp K c l o =
      Except.ok ⟨clip K o.pulse_out,
        lerp (clip K o.pulse_out) (nth c.calibration (l - 1)).pulse
          (nth c.calibration l).pulse
          (nth c.calibration (l - 1)).value (nth c.calibration l).value⟩ := by
  unfold clip at hq hq0
  simp [value_to_pulse_clamp, ho, index_zero (Nat.zero_lt_of_lt hn), index_cast hn,
    index_pred h0 hn, bind, Except.bind, pure, Except.pure, hq, hq0, map_float_lerp hne, clip]

theorem clamp_inside {K : Constants} {c : Calibration} {l j : ℕ} {o : Outs}
    (hn : l < c.calibration.length)
    (ho : o.pulse_out < K.LOWER_HARD_LIMIT ∨ o.pulse_out > K.UPPER_HARD_LIMIT)
    (hq0 : ¬ clip K o.pulse_out < (nth c.calibration 0).pulse)
    (hq : ¬ (nth c.calibration l).pulse < clip K o.pulse_out)
    (hj : j < l) (hx : clip K o.pulse_out ≤ (nth c.calibration (j + 1)).pulse)
    (hlow : ∀ k, k < j → ¬ clip K o.pulse_out ≤ (nth c.calibration (k + 1)).pulse)
    (hne : (nth c.calibration j).pulse ≠ (nth c.calibration (j + 1)).pulse) :
    value_to_pulse_clamp K c l o =
      Except.ok ⟨clip K o.pulse_out,
        lerp (clip K o.pulse_out) (nth c.calibration j).pulse (nth c.calibration (j + 1)).pulse
          (nth c.calibration j).value (nth c.calibration (j + 1)).value⟩ := by
  have hs := seek_by_pulse_found c.calibration (clip K o.pulse_out) o.value_out l 0 j
    (Nat.zero_le _) (by omega) (by omega) (fun k _ hk => hlow k hk) hx
  unfold clip at hq hq0 hs
  simp [value_to_pulse_clamp, ho, index_zero (Nat.zero_lt_of_lt hn), index_cast hn, bind,
    Except.bind, pure, Except.pure, hq, hq0, hs, map_float_lerp hne, clip]

theorem no_flat_segment_nth {cal : List Point} (h : no_flat_segment cal) {i : ℕ}
    (hi : i + 1 < cal.length) :
    (nth cal i).value ≠ (nth cal (i + 1)).value ∧ (nth cal i).pulse ≠ (nth cal (i + 1)).pulse := by
  have := (List.chain'_iff_get.mp h) i (by omega)
  have hi0 : i < cal.length := by omega
  simpa [nth, List.getD_eq_getElem, hi, hi0] using this

theorem value_to_pulse_outs {K : Constants} {c : Calibration} (h : 2 ≤ c.calibration.length)
    (v p0 v0 : ℚ) :
    (value_to_pulse K c v p0 v0).outs =
      (value_to_pulse_curve c ((c.calibration.length - 1) % 256) v p0 >>=
        value_to_pulse_clamp K c ((c.calibration.length - 1) % 256)) := by
  simp [value_to_pulse, Calibration.calibration_size, h]

theorem last_eq {n : ℕ} (h : n ≤ 256) : (n - 1) % 256 = n - 1 :=
  Nat.mod_eq_of_lt (by omega)

theorem curve_total {c : Calibration} {l : ℕ} (h0 : 0 < l)
    (hn : l < c.calibration.length) (hseg : no_flat_segment c.calibration) (v d : ℚ) :
    ∃ o, value_to_pulse_curve c l v d = Except.ok o := by
  by_cases hv0 : v < (nth c.calibration 0).value
  · cases hl : c.limit_lower
    · exact ⟨_, curve_below_free (by omega) hv0 hl (no_flat_segment_nth hseg (by omega)).1⟩
    · exact ⟨_, curve_below_limit (by omega) hv0 hl⟩
  · by_cases hv : (nth c.calibration l).value < v
    · cases hl : c.limit_upper
      · have hne := (no_flat_segment_nth hseg (i := l - 1) (by omega)).1
        rw [Nat.sub_add_cancel h0] at hne
        exact ⟨_, curve_above_free h0 hn hv0 hv hl hne⟩
      · exact ⟨_, curve_above_limit hn hv0 hv hl⟩
    · obtain ⟨j, hj, hx, hlow⟩ :=
        exists_lowest (fun i => (nth c.calibration i).value) v l h0 (not_lt.mp hv)
      exact ⟨_, curve_inside hn hv0 hv hj hx hlow (no_flat_segment_nth hseg (by omega)).1⟩

theorem lerp_le_left {a b c d : ℚ} (hab : a < b) (hcd : c ≤ d) {x : ℚ} (hx : x ≤ a) :
    lerp x a b c d ≤ c := by
  have := lerp_mono hab hcd hx
  rwa [lerp_left] at this

theorem lerp_ge_left {a b c d : ℚ} (hab : a < b) (hcd : c ≤ d) {x : ℚ} (hx : a ≤ x) :
    c ≤ lerp x a b c d := by
  have := lerp_mono hab hcd hx
  rwa [lerp_left] at this

theorem lerp_le_right {a b c d : ℚ} (hab : a < b) (hcd : c ≤ d) {x : ℚ} (hx : x ≤ b) :
    lerp x a b c d ≤ d := by
  have := lerp_mono hab hcd hx
  rwa [lerp_right c d (ne_of_lt hab)] at this

theorem lerp_ge_right {a b c d : ℚ} (hab : a < b) (hcd : c ≤ d) {x : ℚ} (hx : b ≤ x) :
    d ≤ lerp x a b c d := by
  have := lerp_mono hab hcd hx
  rwa [lerp_right c d (ne_of_lt hab)] at this

theorem values_le_nth {cal : List Point} (h : values_increasing cal) {i j : ℕ}
    (hij : i ≤ j) (hj : j < cal.length) : (nth cal i).value ≤ (nth cal j).value := by
  rcases Nat.eq_or_lt_of_le hij with e | l
  · rw [e]
  · exact (values_increasing_nth h l hj).le

theorem pulses_le_nth {cal : List Point} (h : pulses_increasing cal) {i j : ℕ}
    (hij : i ≤ j) (hj : j < cal.length) : (nth cal i).pulse ≤ (nth cal j).pulse := by
  rcases Nat.eq_or_lt_of_le hij with e | l
  · rw [e]
  · exact (pulses_increasing_nth h l hj).le

theorem no_flat_segment_of_increasing {cal : List Point} (hp : pulses_increasing cal)
    (hv : values_increasing cal) : no_flat_segment cal := by
  unfold no_flat_segment
  rw [List.chain'_iff_get]
  intro i hi
  have h1 : i + 1 < cal.length := by omega
  have h0 : i < cal.length := by omega
  have a := values_increasing_nth hv (Nat.lt_succ_self i) h1
  have b := pulses_increasing_nth hp (Nat.lt_succ_self i) h1
  simp only [nth, List.getD_eq_getElem _ _ h1, List.getD_eq_getElem _ _ h0] at a b
  exact ⟨ne_of_lt a, ne_of_lt b⟩

/-- The three branches of the curve logic on a table with strictly increasing values. -/
theorem curve_cases {c : Calibration} {l : ℕ} (h0 : 0 < l)
    (hn : l < c.calibration.length) (hv : values_increasing c.calibration) (v d : ℚ) :
    (v < (nth c.calibration 0).value ∧
        value_to_pulse_curve c l v d = Except.ok
          ⟨if c.limit_lower = true then (nth c.calibration 0).pulse
            else lerp v (nth c.calibration 0).value (nth c.calibration 1).value
              (nth c.calibration 0).pulse (nth c.calibration 1).pulse,
           if c.limit_lower = true then (nth c.calibration 0).value else v⟩) ∨
      ((nth c.calibration l).value < v ∧
        value_to_pulse_curve c l v d = Except.ok
          ⟨if c.limit_upper = true then (nth c.calibration l).pulse
            else lerp v (nth c.calibration (l - 1)).value (nth c.calibration l).value
              (nth c.calibration (l - 1)).pulse (nth c.calibration l).pulse,
           if c.limit_upper = true then (nth c.calibration l).value else v⟩) ∨
      (∃ j, j < l ∧ (nth c.calibration j).value ≤ v ∧ v ≤ (nth c.calibration (j + 1)).value ∧
        (0 < j → (nth c.calibration j).value < v) ∧
        value_to_pulse_curve c l v d = Except.ok
          ⟨lerp v (nth c.calibration j).value (nth c.calibration (j + 1)).value
            (nth c.calibration j).pulse (nth c.calibration (j + 1)).pulse, v⟩) := by
  by_cases hv0 : v < (nth c.calibration 0).value
  · left
    refine ⟨hv0, ?_⟩
    cases hl : c.limit_lower
    · rw [curve_below_free (by omega) hv0 hl
        (ne_of_lt (values_increasing_nth hv (by omega) (by omega)))]
      simp
    · rw [curve_below_limit (by omega) hv0 hl]
      simp
  · by_cases hvl : (nth c.calibration l).value < v
    · right; left
      refine ⟨hvl, ?_⟩
      cases hl : c.limit_upper
      · rw [curve_above_free h0 hn hv0 hvl hl
          (ne_of_lt (values_increasing_nth hv (by omega) hn))]
        simp
      · rw [curve_above_limit hn hv0 hvl hl]
        simp
    · right; right
      obtain ⟨j, hj, hx, hlow⟩ :=
        exists_lowest (fun i => (nth c.calibration i).value) v l h0 (not_lt.mp hvl)
      have hpos : 0 < j → (nth c.calibration j).value < v := by
        intro hj0
        have := hlow (j - 1) (by omega)
        simp only [Nat.sub_add_cancel hj0] at this
        exact not_le.mp this
      have hge : (nth c.calibration j).value ≤ v := by
        rcases Nat.eq_zero_or_pos j with e | l
        · rw [e]; exact not_lt.mp hv0
        · exact (hpos l).le
      exact ⟨j, hj, hge, hx, hpos, curve_inside hn hv0 hvl hj hx hlow
        (ne_of_lt (values_increasing_nth hv (Nat.lt_succ_self j) (by omega)))⟩

theorem pulse_to_value_outs {K : Constants} {c : Calibration} (h : 2 ≤ c.calibration.length)
    (p v0 p0 : ℚ) :
    (pulse_to_value K c p v0 p0).outs =
      pulse_to_value_curve K c ((c.calibration.length - 1) % 256) p v0 := by
  simp [pulse_to_value, Calibration.calibration_size, h]

theorem inverse_below_limit {K : Constants} {c : Calibration} {l : ℕ} {p d : ℚ}
    (hn : 0 < c.calibration.length) (hq : clip K p < (nth c.calibration 0).pulse)
    (hl : c.limit_lower = true) :
    pulse_to_value_curve K c l p d =
      Except.ok ⟨(nth c.calibration 0).pulse, (nth c.calibration 0).value⟩ := by
  unfold clip at hq
  simp [pulse_to_value_curve, index_zero hn, bind, Except.bind, hq, hl, pure, Except.pure]

theorem inverse_below_free {K : Constants} {c : Calibration} {l : ℕ} {p d : ℚ}
    (hn : 1 < c.calibration.length) (hq : clip K p < (nth c.calibration 0).pulse)
    (hl : c.limit_lower = false)
    (hne : (nth c.calibration 0).pulse ≠ (nth c.calibration 1).pulse) :
    pulse_to_value_curve K c l p d =
      Except.ok ⟨clip K p, lerp p (nth c.calibration 0).pulse (nth c.calibration 1).pulse
        (nth c.calibration 0).value (nth c.calibration 1).value⟩ := by
  unfold clip at hq
  simp [pulse_to_value_curve, index_zero (Nat.lt_of_succ_lt hn), index_one hn, bind,
    Except.bind, hq, hl, pure, Except.pure, map_float_lerp hne, clip]

theorem inverse_above_limit {K : Constants} {c : Calibration} {l : ℕ} {p d : ℚ}
    (hn : l < c.calibration.length) (hq0 : ¬ clip K p < (nth c.calibration 0).pulse)
    (hq : (nth c.calibration l).pulse < p) (hl : c.limit_upper = true) :
    pulse_to_value_curve K c l p d =
      Except.ok ⟨(nth c.calibration l).pulse, (nth c.calibration l).value⟩ := by
  unfold clip at hq0
  simp [pulse_to_value_curve, index_zero (Nat.zero_lt_of_lt hn), index_cast hn, bind,
    Except.bind, hq0, hq, hl, pure, Except.pure]

theorem inverse_above_free {K : Constants} {c : Calibration} {l : ℕ} {p d : ℚ}
    (h0 : 0 < l) (hn : l < c.calibration.length)
    (hq0 : ¬ clip K p < (nth c.calibration 0).pulse)
    (hq : (nth c.calibration l).pulse < p) (hl : c.limit_upper = false)
    (hne : (nth c.calibration (l - 1)).pulse ≠ (nth c.calibration l).pulse) :
    pulse_to_value_curve K c l p d =
      Except.ok ⟨clip K p, lerp p (nth c.calibration (l - 1)).pulse (nth c.calibration l).pulse
        (nth c.calibration (l - 1)).value (nth c.calibration l).value⟩ := by
  unfold clip at hq0
  simp [pulse_to_value_curve, index_zero (Nat.zero_lt_of_lt hn), index_cast hn,
    index_pred h0 hn, bind, Except.bind, hq0, hq, hl, pure, Except.pure, map_float_lerp hne,
    clip]

theorem inverse_inside {K : Constants} {c : Calibration} {l j : ℕ} {p d : ℚ}
    (hn : l < c.calibration.length)
    (hq0 : ¬ clip K p < (nth c.calibration 0).pulse)
    (hq : ¬ (nth c.calibration l).pulse < p)
    (hj : j < l) (hx : p ≤ (nth c.calibration (j + 1)).pulse)
    (hlow : ∀ k, k < j → ¬ p ≤ (nth c.calibration (k + 1)).pulse)
    (hne : (nth c.calibration j).pulse ≠ (nth c.calibration (j + 1)).pulse) :
    pulse_to_value_curve K c l p d =
      Except.ok ⟨clip K p, lerp p (nth c.calibration j).pulse (nth c.calibration (j + 1)).pulse
        (nth c.calibration j).value (nth c.calibration (j + 1)).value⟩ := by
  have hs := seek_by_pulse_found c.calibration p d l 0 j (Nat.zero_le _) (by omega)
    (by omega) (fun k _ hk => hlow k hk) hx
  unfold clip at hq0
  simp [pulse_to_value_curve, index_zero (Nat.zero_lt_of_lt hn), index_cast hn, bind,
    Except.bind, hq0, hq, pure, Except.pure, hs, map_float_lerp hne, clip]

theorem ok_bind {α β : Type} (a : α) (f : α → Except Fault β) :
    (Except.ok a >>= f) = f a := rfl

theorem long_points_length : long_points.length = 258 := by
  simp [long_points]

theorem long_points_nth (i : ℕ) (h : i < 258) :
    nth long_points i = ⟨((1000 + i : ℕ) : ℚ), (i : ℚ)⟩ := by
  simp [nth, long_points, List.getElem?_range, h]

theorem long_points_increasing :
    pulses_increasing long_points ∧ values_increasing long_points := by
  constructor
  · unfold pulses_increasing long_points
    rw [List.map_map]
    refine List.Pairwise.map _ ?_ (List.pairwise_lt_range 258)
    intro a b hab
    simp only [Function.comp]
    have : 1000 + a < 1000 + b := by omega
    exact_mod_cast this
  · unfold values_increasing long_points
    rw [List.map_map]
    refine List.Pairwise.map _ ?_ (List.pairwise_lt_range 258)
    intro a b hab
    simp only [Function.comp]
    exact_mod_cast hab

theorem kinked_points_length : kinked_points.length = 258 := by
  simp [kinked_points]

theorem kinked_points_nth (i : ℕ) (h : i < 258) :
    nth kinked_points i = ⟨((1000 + i + 743 * (i - 256) : ℕ) : ℚ), (i : ℚ)⟩ := by
  simp [nth, kinked_points, List.getElem?_range, h]

theorem kinked_points_increasing :
    pulses_increasing kinked_points ∧ values_increasing kinked_points := by
  constructor
  · unfold pulses_increasing kinked_points
    rw [List.map_map]
    refine List.Pairwise.map _ ?_ (List.pairwise_lt_range 258)
    intro a b hab
    simp only [Function.comp]
    have : 1000 + a + 743 * (a - 256) < 1000 + b + 743 * (b - 256) := by omega
    exact_mod_cast this
  · unfold values_increasing kinked_points
    rw [List.map_map]
    refine List.Pairwise.map _ ?_ (List.pairwise_lt_range 258)
    intro a b hab
    simp only [Function.comp]
    exact_mod_cast hab

/-- Interior interpolation on a table of 2 to 256 points with strictly increasing pulses
and values: a value between the first and the last value whose interpolation in the lowest
segment `i` with `v <= points[i+1].value` lies between the hard limits yields that
interpolated pulse and the value itself. -/
theorem value_to_pulse_interpolates_upto_256 (K : Constants) (c : Calibration)
    (v p0 v0 : ℚ) (i : ℕ) (first lo hi : Point) (h2 : 2 ≤ c.size) (h256 : c.size ≤ 256)
    (_hp : pulses_increasing c.calibration) (hv : values_increasing c.calibration)
    (hfirst : c.calibration[0]? = some first) (hge : first.value ≤ v)
    (hlo : c.calibration[i]? = some lo) (hhi : c.calibration[i + 1]? = some hi)
    (hx : v ≤ hi.value)
    (hlow : ∀ k q, k < i → c.calibration[k + 1]? = some q → ¬ v ≤ q.value)
    (hL : K.LOWER_HARD_LIMIT ≤
      (v - lo.value) * (hi.pulse - lo.pulse) / (hi.value - lo.value) + lo.pulse)
    (hU : (v - lo.value) * (hi.pulse - lo.pulse) / (hi.value - lo.value) + lo.pulse
      ≤ K.UPPER_HARD_LIMIT) :
    (value_to_pulse K c v p0 v0).outs =
      Except.ok ⟨(v - lo.value) * (hi.pulse - lo.pulse) / (hi.value - lo.value) + lo.pulse, v⟩ := by
  have h2l : 2 ≤ c.calibration.length := h2
  have h256l : c.calibration.length ≤ 256 := h256
  obtain ⟨hf, -⟩ := nth_of_lookup hfirst
  obtain ⟨hnlo, -⟩ := nth_of_lookup hlo
  obtain ⟨hnhi, hil⟩ := nth_of_lookup hhi
  have hn : c.calibration.length - 1 < c.calibration.length := by omega
  have hcurve := curve_inside (c := c) (l := c.calibration.length - 1) (j := i) (v := v)
    (d := p0) hn (by rw [hf]; exact not_lt.mpr hge)
    (by
      have := values_le_nth hv (show i + 1 ≤ c.calibration.length - 1 by omega) hn
      rw [hnhi] at this
      exact not_lt.mpr (le_trans hx this))
    (by omega) (by rw [hnhi]; exact hx)
    (fun k hk => hlow k _ hk (lookup_nth (by omega)))
    (by
      have := values_increasing_nth hv (show i < i + 1 by omega) hil
      exact ne_of_lt this)
  rw [value_to_pulse_outs h2l, last_eq h256l, hcurve, hnlo, hnhi]
  exact clamp_idle hL hU

/-- Hard-limit override on a table of 2 to 256 points with strictly increasing pulses and
values, last pulse at most `UPPER_HARD_LIMIT` and the upper limit off: a value above the
last value whose extrapolation along the last segment exceeds `UPPER_HARD_LIMIT` yields
the pulse `UPPER_HARD_LIMIT` and the value of the last segment's pulse-to-value line at
`UPPER_HARD_LIMIT`, which is strictly below the requested value. -/
theorem hard_limit_override_upto_256 (K : Constants) (c : Calibration) (v p0 v0 : ℚ)
    (below top : Point) (h2 : 2 ≤ c.size) (h256 : c.size ≤ 256)
    (hp : pulses_increasing c.calibration) (hv : values_increasing c.calibration)
    (hl : c.limit_upper = false)
    (hbelow : c.calibration[c.size - 2]? = some below)
    (htop : c.calibration[c.size - 1]? = some top)
    (htopU : top.pulse ≤ K.UPPER_HARD_LIMIT) (hgt : top.value < v)
    (hex : K.UPPER_HARD_LIMIT <
      (v - below.value) * (top.pulse - below.pulse) / (top.value - below.value) + below.pulse) :
    (value_to_pulse K c v p0 v0).outs =
        Except.ok ⟨K.UPPER_HARD_LIMIT,
          (K.UPPER_HARD_LIMIT - below.pulse) * (top.value - below.value)
            / (top.pulse - below.pulse) + below.value⟩ ∧
      (K.UPPER_HARD_LIMIT - below.pulse) * (top.value - below.value)
        / (top.pulse - below.pulse) + below.value < v := by
  have h2l : 2 ≤ c.calibration.length := h2
  have h256l : c.calibration.length ≤ 256 := h256
  have hs : c.size = c.calibration.length := rfl
  rw [hs] at hbelow htop
  obtain ⟨ht, -⟩ := nth_of_lookup htop
  obtain ⟨hb, -⟩ := nth_of_lookup hbelow
  have h0 : 0 < c.calibration.length - 1 := by omega
  have hn : c.calibration.length - 1 < c.calibration.length := by omega
  have e2 : c.calibration.length - 1 - 1 = c.calibration.length - 2 := by omega
  have e1 : c.calibration.length - 2 + 1 = c.calibration.length - 1 := by omega
  have vs : below.value < top.value := by
    have := values_increasing_nth hv (show c.calibration.length - 2 < c.calibration.length - 1
      by omega) hn
    rwa [hb, ht] at this
  have ps : below.pulse < top.pulse := by
    have := pulses_increasing_nth hp (show c.calibration.length - 2 < c.calibration.length - 1
      by omega) hn
    rwa [hb, ht] at this
  have hex2 : K.UPPER_HARD_LIMIT < lerp v below.value top.value below.pulse top.pulse := hex
  have hv0 : ¬ v < (nth c.calibration 0).value := by
    have := values_le_nth hv (Nat.zero_le (c.calibration.length - 1)) hn
    rw [ht] at this
    exact not_lt.mpr (le_trans this hgt.le)
  have hcurve : value_to_pulse_curve c (c.calibration.length - 1) v p0 =
      Except.ok ⟨lerp v below.value top.value below.pulse top.pulse, v⟩ := by
    rw [curve_above_free h0 hn hv0 (by rw [ht]; exact hgt) hl
      (by rw [e2, hb, ht]; exact ne_of_lt vs), e2, hb, ht]
  have hclip := clip_of_gt hex2
  have hq0 : ¬ clip K (lerp v below.value top.value below.pulse top.pulse)
      < (nth c.calibration 0).pulse := by
    rw [hclip]
    have := pulses_le_nth hp (Nat.zero_le (c.calibration.length - 1)) hn
    rw [ht] at this
    exact not_lt.mpr (le_trans this htopU)
  have hclamp : value_to_pulse_clamp K c (c.calibration.length - 1)
      ⟨lerp v below.value top.value below.pulse top.pulse, v⟩ =
      Except.ok ⟨K.UPPER_HARD_LIMIT,
        lerp K.UPPER_HARD_LIMIT below.pulse top.pulse below.value top.value⟩ := by
    rcases lt_or_eq_of_le htopU with hlt | heq
    · rw [clamp_above (o := ⟨lerp v below.value top.value below.pulse top.pulse, v⟩) h0 hn
        (Or.inr hex2) hq0 (by rw [hclip, ht]; exact hlt)
        (by rw [e2, hb, ht]; exact ne_of_lt ps), e2, hb, ht]
      simp only [hclip]
    · rw [clamp_inside (o := ⟨lerp v below.value top.value below.pulse top.pulse, v⟩)
        (j := c.calibration.length - 2) hn (Or.inr hex2) hq0
        (by rw [hclip, ht, heq]; exact lt_irrefl _) (by omega)
        (by rw [hclip, e1, ht, heq])
        (fun k hk => by
          rw [hclip, ← heq, ← ht]
          exact not_le.mpr (pulses_increasing_nth hp (by omega) hn))
        (by rw [e1, hb, ht]; exact ne_of_lt ps), e1, hb, ht]
      simp only [hclip]
  constructor
  · rw [value_to_pulse_outs h2l, last_eq h256l, hcurve, ok_bind]
    exact hclamp
  · have := lerp_strict_mono ps vs hex2
    rw [lerp_inverse (ne_of_lt vs) (ne_of_lt ps)] at this
    exact this

/-- The three-point scenario of the specification: on `{(1000,-90), (1500,0), (2000,90)}`
with both limits on, 0 maps to `(1500, 0)`, 45 to `(1750, 45)` and -100 to `(1000, -90)`. -/
theorem angular_table_scenario :
    (value_to_pulse sample_constants angular_table 0 0 0).outs = Except.ok ⟨1500, 0⟩ ∧
      (value_to_pulse sample_constants angular_table 45 0 0).outs = Except.ok ⟨1750, 45⟩ ∧
      (value_to_pulse sample_constants angular_table (-100) 0 0).outs
        = Except.ok ⟨1000, -90⟩ := by
  refine ⟨?_, ?_, ?_⟩ <;>
    simp [value_to_pulse, value_to_pulse_curve, value_to_pulse_clamp, seek_by_value, index,
      map_float, angular_table, sample_constants, Calibration.calibration_size, bind,
      Except.bind, pure, Except.pure] <;>
    norm_num

/-- The two-point scenario of the specification: on `{(1000,0), (2000,1)}` with the upper
limit off and `UPPER_HARD_LIMIT = 2400`, 3/2 maps to `(2400, 7/5)`. -/
theorem linear_table_scenario :
    (value_to_pulse tight_constants linear_table (3 / 2) 0 0).outs
      = Except.ok ⟨2400, 7 / 5⟩ := by
  simp [value_to_pulse, value_to_pulse_curve, value_to_pulse_clamp, seek_by_value,
    seek_by_pulse, index, map_float, linear_table, tight_constants,
    Calibration.calibration_size, bind, Except.bind, pure, Except.pure, MIN, MAX]
  norm_num

theorem apply_blank_calibration (c : Calibration) (size : ℕ) :
    (c.apply_blank size).calibration = List.replicate size ⟨0, 0⟩ := by
  unfold Calibration.apply_blank
  split_ifs with h
  · rfl
  · have : size = 0 := by omega
    subst this
    rfl

theorem apply_blank_limits (c : Calibration) (size : ℕ) :
    (c.apply_blank size).limit_lower = c.limit_lower ∧
      (c.apply_blank size).limit_upper = c.limit_upper := by
  unfold Calibration.apply_blank
  split_ifs <;> exact ⟨rfl, rfl⟩

theorem apply_two_point_calibration (c : Calibration) (a b d e : ℚ) :
    (c.apply_two_point a b d e).calibration = [⟨a, d⟩, ⟨b, e⟩] := by
  simp [Calibration.apply_two_point, apply_blank_calibration, List.replicate]

theorem apply_three_point_calibration (c : Calibration) (a b d e f g : ℚ) :
    (c.apply_three_point a b d e f g).calibration = [⟨a, e⟩, ⟨b, f⟩, ⟨d, g⟩] := by
  simp [Calibration.apply_three_point, apply_blank_calibration, List.replicate]

theorem apply_two_point_limits (c : Calibration) (a b d e : ℚ) :
    (c.apply_two_point a b d e).limit_lower = c.limit_lower ∧
      (c.apply_two_point a b d e).limit_upper = c.limit_upper := by
  simp [Calibration.apply_two_point, apply_blank_limits]

theorem apply_three_point_limits (c : Calibration) (a b d e f g : ℚ) :
    (c.apply_three_point a b d e f g).limit_lower = c.limit_lower ∧
      (c.apply_three_point a b d e f g).limit_upper = c.limit_upper := by
  simp [Calibration.apply_three_point, apply_blank_limits]

theorem fill_uniform_spec {s a b d e : ℚ} (hs : (0 : ℚ) ≠ s) :
    ∀ (todo i : ℕ) (cal : List Point), i + todo = cal.length →
      ∃ out, fill_uniform s a b d e todo i cal = Except.ok out ∧ out.length = cal.length ∧
        ∀ k, k < cal.length →
          out[k]? = if k < i then cal[k]? else some (uniform_point s a b d e k) := by
  intro todo
  induction todo with
  | zero =>
    intro i cal h
    refine ⟨cal, rfl, rfl, ?_⟩
    intro k hk
    have : k < i := by omega
    simp [this]
  | succ t ih =>
    intro i cal h
    obtain ⟨out, h1, h2, h3⟩ := ih (i + 1) (cal.set i (uniform_point s a b d e i))
      (by rw [List.length_set]; omega)
    refine ⟨out, ?_, by rw [h2, List.length_set], ?_⟩
    · simp only [fill_uniform, map_float_lerp hs, bind, Except.bind]
      exact h1
    · intro k hk
      have := h3 k (by rw [List.length_set]; exact hk)
      rw [this]
      by_cases hki : k < i
      · have hk1 : k < i + 1 := by omega
        have hne : i ≠ k := by omega
        simp [hki, hk1, List.getElem?_set_ne hne]
      · by_cases hke : k = i
        · subst hke
          have hlt : k < cal.length := hk
          simp [List.getElem?_set_self, hlt]
        · have hk1 : ¬ k < i + 1 := by omega
          simp [hki, hk1]

theorem apply_uniform_eq (c : Calibration) {size : ℕ} (h : 2 ≤ size) (a b d e : ℚ) :
    c.apply_uniform size a b d e = Except.ok
      { calibration := (List.range size).map (uniform_point ((size - 1 : ℕ) : ℚ) a b d e),
        limit_lower := c.limit_lower, limit_upper := c.limit_upper } := by
  have hpos : size > 0 := by omega
  have hs : (0 : ℚ) ≠ ((size - 1 : ℕ) : ℚ) := by
    have : 0 < size - 1 := by omega
    exact_mod_cast (Nat.ne_of_lt this)
  obtain ⟨out, h1, h2, h3⟩ := fill_uniform_spec (a := a) (b := b) (d := d) (e := e) hs size 0
    (List.replicate size ⟨0, 0⟩) (by simp)
  have hout : out = (List.range size).map (uniform_point ((size - 1 : ℕ) : ℚ) a b d e) := by
    apply List.ext_getElem?
    intro k
    by_cases hk : k < size
    · rw [h3 k (by simpa using hk)]
      simp [List.getElem?_range, hk]
    · have hl : out.length ≤ k := by rw [h2]; simp; omega
      rw [List.getElem?_eq_none hl, List.getElem?_eq_none (by simp; omega)]
  have hb := apply_blank_calibration c size
  have hl := apply_blank_limits c size
  simp only [Calibration.apply_uniform, hpos, if_true, hb, h1, bind, Except.bind, pure,
    Except.pure, hout, hl.1, hl.2]

theorem uniform_point_formula {size : ℕ} (h : 1 ≤ size) (a b d e : ℚ) (i : ℕ) :
    uniform_point ((size - 1 : ℕ) : ℚ) a b d e i =
      ⟨a + (i : ℚ) * (b - a) / ((size : ℚ) - 1), d + (i : ℚ) * (e - d) / ((size : ℚ) - 1)⟩ := by
  have hc : ((size - 1 : ℕ) : ℚ) = (size : ℚ) - 1 := by
    rw [Nat.cast_sub h]; simp
  simp only [uniform_point, lerp, hc, sub_zero]
  congr 1 <;> ring

theorem uniform_lookup {size : ℕ} (s a b d e : ℚ) {i : ℕ} (h : i < size) :
    ((List.range size).map (uniform_point s a b d e))[i]? = some (uniform_point s a b d e i) := by
  simp [List.getElem?_range, h]

theorem apply_uniform_frame (c : Calibration) (size : ℕ) (a b d e : ℚ) :
    c.apply_uniform size a b d e =
      (if size > 0 then
        fill_uniform ((size - 1 : ℕ) : ℚ) a b d e size 0 (List.replicate size ⟨0, 0⟩)
      else Except.ok []).map
        (fun cal => { calibration := cal, limit_lower := c.limit_lower,
                      limit_upper := c.limit_upper }) := by
  have hb := apply_blank_calibration c size
  have hl := apply_blank_limits c size
  by_cases h : size > 0
  · simp only [Calibration.apply_uniform, h, if_true, hb, bind, Except.bind, Except.map, pure,
      Except.pure]
    cases fill_uniform ((size - 1 : ℕ) : ℚ) a b d e size 0 (List.replicate size ⟨0, 0⟩) with
    | error err => rfl
    | ok cal => simp only [hl.1, hl.2]
  · have h0 : size = 0 := by omega
    subst h0
    rfl

theorem wrapped_points_length : wrapped_points.length = 257 := by
  simp [wrapped_points]

theorem wrapped_points_nth (i : ℕ) (h : i < 257) :
    nth wrapped_points i = ⟨((1000 + i : ℕ) : ℚ), (i : ℚ)⟩ := by
  simp [nth, wrapped_points, List.getElem?_range, h]

theorem wrapped_points_increasing :
    pulses_increasing wrapped_points ∧ values_increasing wrapped_points := by
  constructor
  · unfold pulses_increasing wrapped_points
    rw [List.map_map]
    refine List.Pairwise.map _ ?_ (List.pairwise_lt_range 257)
    intro a b hab
    simp only [Function.comp]
    have : 1000 + a < 1000 + b := by omega
    exact_mod_cast this
  · unfold values_increasing wrapped_points
    rw [List.map_map]
    refine List.Pairwise.map _ ?_ (List.pairwise_lt_range 257)
    intro a b hab
    simp only [Function.comp]
    exact_mod_cast hab

/-- With `last = 0` the segment loop of `value_to_pulse` does not run: a value equal to
the first value leaves `pulse_out` as the caller had it. -/
theorem curve_last_zero_idle {c : Calibration} {v d : ℚ} (hn : 0 < c.calibration.length)
    (hv : v = (nth c.calibration 0).value) :
    value_to_pulse_curve c 0 v d = Except.ok ⟨d, v⟩ := by
  have h1 : ¬ v < (nth c.calibration 0).value := by rw [hv]; exact lt_irrefl _
  have h2 : ¬ (nth c.calibration 0).value < v := by rw [hv]; exact lt_irrefl _
  have e0 : index c.calibration ((0 : ℕ) : ℤ) = Except.ok (nth c.calibration 0) :=
    index_cast hn
  simp [value_to_pulse_curve, index_zero hn, e0, seek_by_value, bind, Except.bind, h1, h2,
    pure, Except.pure]

/-- With `last = 0` and the upper limit off, a value above the first value makes
`value_to_pulse` read `calibration[-1]`. -/
theorem curve_last_zero_reads_before {c : Calibration} {v d : ℚ}
    (hn : 0 < c.calibration.length) (hv : (nth c.calibration 0).value < v)
    (hl : c.limit_upper = false) :
    value_to_pulse_curve c 0 v d = Except.error Fault.out_of_bounds := by
  have h1 : ¬ v < (nth c.calibration 0).value := not_lt.mpr hv.le
  have e0 : index c.calibration ((0 : ℕ) : ℤ) = Except.ok (nth c.calibration 0) :=
    index_cast hn
  have hm : index c.calibration (-1) = Except.error Fault.out_of_bounds := by
    simp [index]
  simp [value_to_pulse_curve, index_zero hn, e0, hm, bind, Except.bind, h1, hv, hl]

/-- With `last = 0` and the upper limit off, a pulse above the first pulse whose clamp is
not below it makes `pulse_to_value` read `calibration[-1]`. -/
theorem inverse_last_zero_reads_before {K : Constants} {c : Calibration} {p d : ℚ}
    (hn : 0 < c.calibration.length) (hq0 : ¬ clip K p < (nth c.calibration 0).pulse)
    (hp : (nth c.calibration 0).pulse < p) (hl : c.limit_upper = false) :
    pulse_to_value_curve K c 0 p d = Except.error Fault.out_of_bounds := by
  have e0 : index c.calibration ((0 : ℕ) : ℤ) = Except.ok (nth c.calibration 0) :=
    index_cast hn
  have hm : index c.calibration (-1) = Except.error Fault.out_of_bounds := by
    simp [index]
  unfold clip at hq0
  simp [pulse_to_value_curve, index_zero hn, e0, hm, bind, Except.bind, hq0, hp, hl]

/-- Inverse round trip on a table of 2 to 256 points with strictly increasing pulses and
values: a pulse between the first and the last pulse and within the hard limits is
returned unchanged by `pulse_to_value` together with its interpolation in the lowest
segment `i` with `p <= points[i+1].pulse`, and `value_to_pulse` of that value returns the
same pair. -/
theorem inverse_round_trip_upto_256 (K : Constants) (c : Calibration) (p v0 p0 d0 d1 : ℚ)
    (i : ℕ) (first lo hi : Point) (h2 : 2 ≤ c.size) (h256 : c.size ≤ 256)
    (hp : pulses_increasing c.calibration) (hv : values_increasing c.calibration)
    (hfirst : c.calibration[0]? = some first) (hge : first.pulse ≤ p)
    (hlo : c.calibration[i]? = some lo) (hhi : c.calibration[i + 1]? = some hi)
    (hx : p ≤ hi.pulse)
    (hlow : ∀ k q, k < i → c.calibration[k + 1]? = some q → ¬ p ≤ q.pulse)
    (hL : K.LOWER_HARD_LIMIT ≤ p) (hU : p ≤ K.UPPER_HARD_LIMIT) :
    (pulse_to_value K c p v0 p0).outs =
        Except.ok ⟨p, (p - lo.pulse) * (hi.value - lo.value) / (hi.pulse - lo.pulse)
          + lo.value⟩ ∧
      (value_to_pulse K c
          ((p - lo.pulse) * (hi.value - lo.value) / (hi.pulse - lo.pulse) + lo.value)
          d0 d1).outs =
        Except.ok ⟨p, (p - lo.pulse) * (hi.value - lo.value) / (hi.pulse - lo.pulse)
          + lo.value⟩ := by
  have h2l : 2 ≤ c.calibration.length := h2
  have h256l : c.calibration.length ≤ 256 := h256
  obtain ⟨hf, -⟩ := nth_of_lookup hfirst
  obtain ⟨hnlo, -⟩ := nth_of_lookup hlo
  obtain ⟨hnhi, hil⟩ := nth_of_lookup hhi
  have hn : c.calibration.length - 1 < c.calibration.length := by omega
  have hi0 : i < c.calibration.length := by omega
  have vs := values_increasing_nth hv (show i < i + 1 by omega) hil
  have ps := pulses_increasing_nth hp (show i < i + 1 by omega) hil
  rw [hnlo, hnhi] at vs ps
  have hclip := clip_of_mem hL hU
  have hlowp : ∀ k, k < i → (nth c.calibration (k + 1)).pulse < p := fun k hk =>
    not_le.mp (hlow k _ hk (lookup_nth (by omega)))
  have hpos : 0 < i → lo.pulse < p := by
    intro h
    have := hlowp (i - 1) (by omega)
    rwa [Nat.sub_add_cancel h, hnlo] at this
  have hlop : lo.pulse ≤ p := by
    rcases Nat.eq_zero_or_pos i with e | l
    · subst e
      rw [hf] at hnlo
      rw [← hnlo]; exact hge
    · exact (hpos l).le
  have hval : (p - lo.pulse) * (hi.value - lo.value) / (hi.pulse - lo.pulse) + lo.value
      = lerp p lo.pulse hi.pulse lo.value hi.value := rfl
  rw [hval]
  have hvge : lo.value ≤ lerp p lo.pulse hi.pulse lo.value hi.value :=
    lerp_ge_left ps vs.le hlop
  have hvle : lerp p lo.pulse hi.pulse lo.value hi.value ≤ hi.value :=
    lerp_le_right ps vs.le hx
  have hvpos : 0 < i → lo.value < lerp p lo.pulse hi.pulse lo.value hi.value := by
    intro h
    have := lerp_strict_mono ps vs (hpos h)
    rwa [lerp_left] at this
  constructor
  · rw [pulse_to_value_outs h2l, last_eq h256l,
      inverse_inside (j := i) hn
        (by rw [hclip, hf]; exact not_lt.mpr hge)
        (by
          have := pulses_le_nth hp (show i + 1 ≤ c.calibration.length - 1 by omega) hn
          rw [hnhi] at this
          exact not_lt.mpr (le_trans hx this))
        (by omega) (by rw [hnhi]; exact hx)
        (fun k hk => not_le.mpr (hlowp k hk))
        (by rw [hnlo, hnhi]; exact ne_of_lt ps),
      hclip, hnlo, hnhi]
  · rw [value_to_pulse_outs h2l, last_eq h256l,
      curve_inside (j := i) hn
        (by
          have := values_le_nth hv (Nat.zero_le i) hi0
          rw [hnlo] at this
          exact not_lt.mpr (le_trans this hvge))
        (by
          have := values_le_nth hv (show i + 1 ≤ c.calibration.length - 1 by omega) hn
          rw [hnhi] at this
          exact not_lt.mpr (le_trans hvle this))
        (by omega) (by rw [hnhi]; exact hvle)
        (fun k hk => by
          have h1 := values_le_nth hv (show k + 1 ≤ i by omega) hi0
          rw [hnlo] at h1
          exact not_le.mpr (lt_of_le_of_lt h1 (hvpos (by omega))))
        (by rw [hnlo, hnhi]; exact ne_of_lt vs),
      hnlo, hnhi, lerp_inverse (ne_of_lt ps) (ne_of_lt vs), ok_bind]
    exact clamp_idle hL hU

theorem clip_of_lt {K : Constants} (hK : K.LOWER_HARD_LIMIT ≤ K.UPPER_HARD_LIMIT) {p : ℚ}
    (h : p < K.LOWER_HARD_LIMIT) : clip K p = K.LOWER_HARD_LIMIT := by
  unfold clip MIN MAX
  split_ifs <;> linarith

/-- On a table with strictly increasing values the curve logic does not depend on what the
caller had in `pulse_out`. -/
theorem curve_indep {c : Calibration} {l : ℕ} (h0 : 0 < l) (hn : l < c.calibration.length)
    (hv : values_increasing c.calibration) (v d d' : ℚ) :
    value_to_pulse_curve c l v d = value_to_pulse_curve c l v d' := by
  by_cases hv0 : v < (nth c.calibration 0).value
  · cases hl : c.limit_lower
    · rw [curve_below_free (by omega) hv0 hl
        (ne_of_lt (values_increasing_nth hv (by omega) (by omega))),
        curve_below_free (by omega) hv0 hl
        (ne_of_lt (values_increasing_nth hv (by omega) (by omega)))]
    · rw [curve_below_limit (by omega) hv0 hl, curve_below_limit (by omega) hv0 hl]
  · by_cases hvl : (nth c.calibration l).value < v
    · cases hl : c.limit_upper
      · rw [curve_above_free h0 hn hv0 hvl hl
          (ne_of_lt (values_increasing_nth hv (by omega) hn)),
          curve_above_free h0 hn hv0 hvl hl
          (ne_of_lt (values_increasing_nth hv (by omega) hn))]
      · rw [curve_above_limit hn hv0 hvl hl, curve_above_limit hn hv0 hvl hl]
    · obtain ⟨j, hj, hx, hlow⟩ :=
        exists_lowest (fun i => (nth c.calibration i).value) v l h0 (not_lt.mp hvl)
      have hne := ne_of_lt (values_increasing_nth hv (show j < j + 1 by omega)
        (show j + 1 < c.calibration.length by omega))
      rw [curve_inside hn hv0 hvl hj hx hlow hne, curve_inside hn hv0 hvl hj hx hlow hne]

/-- The curve logic at the value of point `k` yields point `k`. -/
theorem curve_at_anchor {c : Calibration} {l : ℕ} (h0 : 0 < l) (hn : l < c.calibration.length)
    (hv : values_increasing c.calibration) {k : ℕ} (hk : k ≤ l) (d : ℚ) :
    value_to_pulse_curve c l (nth c.calibration k).value d =
      Except.ok ⟨(nth c.calibration k).pulse, (nth c.calibration k).value⟩ := by
  have hv0 : ¬ (nth c.calibration k).value < (nth c.calibration 0).value :=
    not_lt.mpr (values_le_nth hv (Nat.zero_le k) (by omega))
  have hvl : ¬ (nth c.calibration l).value < (nth c.calibration k).value :=
    not_lt.mpr (values_le_nth hv hk hn)
  rcases Nat.eq_zero_or_pos k with h | h
  · subst h
    have h01 := values_increasing_nth hv (show 0 < 0 + 1 by omega)
      (show 0 + 1 < c.calibration.length by omega)
    rw [curve_inside (j := 0) hn hv0 hvl h0 h01.le
      (fun k hk => absurd hk (Nat.not_lt_zero k)) (ne_of_lt h01), lerp_left]
  · have hk1 : k - 1 + 1 = k := Nat.sub_add_cancel h
    have hstep := values_increasing_nth hv (show k - 1 < k by omega)
      (show k < c.calibration.length by omega)
    rw [curve_inside (j := k - 1) hn hv0 hvl (by omega) (by rw [hk1])
      (fun i hi => not_le.mpr (values_increasing_nth hv (show i + 1 < k by omega) (by omega)))
      (by rw [hk1]; exact ne_of_lt hstep), hk1, lerp_right _ _ (ne_of_lt hstep)]

/-- The three branches of the hard-limit pass, when it applies, on a table with strictly
increasing pulses; the outcome depends on the clamped pulse only. -/
theorem clamp_cases {K : Constants} {c : Calibration} {l : ℕ} (h0 : 0 < l)
    (hn : l < c.calibration.length) (hp : pulses_increasing c.calibration) (o : Outs)
    (ho : o.pulse_out < K.LOWER_HARD_LIMIT ∨ o.pulse_out > K.UPPER_HARD_LIMIT) :
    (clip K o.pulse_out < (nth c.calibration 0).pulse ∧
        value_to_pulse_clamp K c l o = Except.ok ⟨clip K o.pulse_out,
          lerp (clip K o.pulse_out) (nth c.calibration 0).pulse (nth c.calibration 1).pulse
            (nth c.calibration 0).value (nth c.calibration 1).value⟩) ∨
      ((nth c.calibration l).pulse < clip K o.pulse_out ∧
        value_to_pulse_clamp K c l o = Except.ok ⟨clip K o.pulse_out,
          lerp (clip K o.pulse_out) (nth c.calibration (l - 1)).pulse
            (nth c.calibration l).pulse (nth c.calibration (l - 1)).value
            (nth c.calibration l).value⟩) ∨
      (∃ j, j < l ∧ (nth c.calibration j).pulse ≤ clip K o.pulse_out ∧
        clip K o.pulse_out ≤ (nth c.calibration (j + 1)).pulse ∧
        (0 < j → (nth c.calibration j).pulse < clip K o.pulse_out) ∧
        value_to_pulse_clamp K c l o = Except.ok ⟨clip K o.pulse_out,
          lerp (clip K o.pulse_out) (nth c.calibration j).pulse
            (nth c.calibration (j + 1)).pulse (nth c.calibration j).value
            (nth c.calibration (j + 1)).value⟩) := by
  by_cases hq0 : clip K o.pulse_out < (nth c.calibration 0).pulse
  · left
    exact ⟨hq0, clamp_below (by omega) ho hq0
      (ne_of_lt (pulses_increasing_nth hp (by omega) (by omega)))⟩
  · by_cases hq : (nth c.calibration l).pulse < clip K o.pulse_out
    · right; left
      exact ⟨hq, clamp_above h0 hn ho hq0 hq
        (ne_of_lt (pulses_increasing_nth hp (by omega) hn))⟩
    · right; right
      obtain ⟨j, hj, hx, hlow⟩ :=
        exists_lowest (fun i => (nth c.calibration i).pulse) (clip K o.pulse_out) l h0
          (not_lt.mp hq)
      have hpos : 0 < j → (nth c.calibration j).pulse < clip K o.pulse_out := by
        intro hj0
        have := hlow (j - 1) (by omega)
        simp only [Nat.sub_add_cancel hj0] at this
        exact not_le.mp this
      have hge : (nth c.calibration j).pulse ≤ clip K o.pulse_out := by
        rcases Nat.eq_zero_or_pos j with e | l
        · rw [e]; exact not_lt.mp hq0
        · exact (hpos l).le
      exact ⟨j, hj, hge, hx, hpos, clamp_inside hn ho hq0 hq hj hx hlow
        (ne_of_lt (pulses_increasing_nth hp (show j < j + 1 by omega) (by omega)))⟩

/-- With `limit_lower` set the curve logic never yields a pulse below the first pulse, and
with `limit_upper` set never one above the last pulse. -/
theorem curve_pulse_bounds {c : Calibration} {l : ℕ} (h0 : 0 < l)
    (hn : l < c.calibration.length) (hp : pulses_increasing c.calibration)
    (hv : values_increasing c.calibration) {v d : ℚ} {o : Outs}
    (ho : value_to_pulse_curve c l v d = Except.ok o) :
    (c.limit_lower = true → (nth c.calibration 0).pulse ≤ o.pulse_out) ∧
      (c.limit_upper = true → o.pulse_out ≤ (nth c.calibration l).pulse) := by
  have v01 := values_increasing_nth hv (i := 0) (j := 1) (by omega) (by omega)
  have p01 := pulses_increasing_nth hp (i := 0) (j := 1) (by omega) (by omega)
  have vtop := values_increasing_nth hv (i := l - 1) (j := l) (by omega) hn
  have ptop := pulses_increasing_nth hp (i := l - 1) (j := l) (by omega) hn
  have p0l := pulses_le_nth hp (Nat.zero_le l) hn
  rcases curve_cases h0 hn hv v d with ⟨hb, e⟩ | ⟨ha, e⟩ | ⟨j, hj, hj1, hj2, -, e⟩ <;>
    rw [e] at ho <;> cases ho <;> simp only []
  · constructor
    · intro hl; simp [hl]
    · intro _
      split_ifs
      · exact p0l
      · exact le_trans (lerp_le_left v01 p01.le hb.le) p0l
  · constructor
    · intro _
      split_ifs
      · exact p0l
      · exact le_trans p0l (lerp_ge_right vtop ptop.le ha.le)
    · intro hl; simp [hl]
  · have vs := values_increasing_nth hv (show j < j + 1 by omega)
      (show j + 1 < c.calibration.length by omega)
    have ps := pulses_increasing_nth hp (show j < j + 1 by omega)
      (show j + 1 < c.calibration.length by omega)
    constructor
    · intro _
      exact le_trans (pulses_le_nth hp (Nat.zero_le j) (by omega)) (lerp_ge_left vs ps.le hj1)
    · intro _
      exact le_trans (lerp_le_right vs ps.le hj2) (pulses_le_nth hp (by omega) hn)

/-- Snapping is idempotent on a table of 2 to 256 points with strictly increasing pulses
and values and ordered hard limits: when `value_to_pulse(v)` yields `(p, e)`, so does
`value_to_pulse(e)`, whatever the caller had in the outputs. -/
theorem value_to_pulse_idempotent_upto_256 (K : Constants) (c : Calibration)
    (v p0 v0 d0 d1 p e : ℚ) (h2 : 2 ≤ c.size) (h256 : c.size ≤ 256)
    (hp : pulses_increasing c.calibration) (hv : values_increasing c.calibration)
    (hK : K.LOWER_HARD_LIMIT ≤ K.UPPER_HARD_LIMIT)
    (hres : (value_to_pulse K c v p0 v0).outs = Except.ok ⟨p, e⟩) :
    (value_to_pulse K c e d0 d1).outs = Except.ok ⟨p, e⟩ := by
  have h2l : 2 ≤ c.calibration.length := h2
  have h256l : c.calibration.length ≤ 256 := h256
  have h0 : 0 < c.calibration.length - 1 := by omega
  have hn : c.calibration.length - 1 < c.calibration.length := by omega
  have v01 := values_increasing_nth hv (i := 0) (j := 1) (by omega) (by omega)
  have p01 := pulses_increasing_nth hp (i := 0) (j := 1) (by omega) (by omega)
  have vtop := values_increasing_nth hv (i := c.calibration.length - 1 - 1)
    (j := c.calibration.length - 1) (by omega) hn
  have ptop := pulses_increasing_nth hp (i := c.calibration.length - 1 - 1)
    (j := c.calibration.length - 1) (by omega) hn
  have v0l := values_le_nth hv (Nat.zero_le (c.calibration.length - 1)) hn
  rw [value_to_pulse_outs h2l, last_eq h256l] at hres ⊢
  obtain ⟨o, ho⟩ := curve_total h0 hn (no_flat_segment_of_increasing hp hv) v p0
  rw [ho, ok_bind] at hres
  by_cases hact : o.pulse_out < K.LOWER_HARD_LIMIT ∨ o.pulse_out > K.UPPER_HARD_LIMIT
  · have hq := clip_mem hK o.pulse_out
    have hb := curve_pulse_bounds h0 hn hp hv ho
    rcases clamp_cases h0 hn hp o hact with ⟨hlt, ec⟩ | ⟨hgt, ec⟩ | ⟨j, hj, hj1, hj2, hj3, ec⟩ <;>
      rw [ec] at hres <;> cases hres
    · -- the clamped pulse lies below the table
      have he : lerp (clip K o.pulse_out) (nth c.calibration 0).pulse
          (nth c.calibration 1).pulse (nth c.calibration 0).value (nth c.calibration 1).value
          < (nth c.calibration 0).value := by
        have := lerp_strict_mono p01 v01 hlt
        rwa [lerp_left] at this
      cases hl : c.limit_lower
      · rw [curve_below_free (by omega) he hl (ne_of_lt v01), ok_bind,
          lerp_inverse (ne_of_lt p01) (ne_of_lt v01)]
        exact clamp_idle hq.1 hq.2
      · have hge := hb.1 hl
        have hgtU : K.UPPER_HARD_LIMIT < o.pulse_out := by
          rcases hact with h | h
          · exfalso
            rw [clip_of_lt hK h] at hlt
            linarith
          · exact h
        have hclipU := clip_of_gt hgtU
        have hP0 : K.UPPER_HARD_LIMIT < (nth c.calibration 0).pulse := by
          rw [hclipU] at hlt; exact hlt
        have hclip0 := clip_of_gt hP0
        rw [curve_below_limit (by omega) he hl, ok_bind,
          clamp_below (o := ⟨(nth c.calibration 0).pulse, (nth c.calibration 0).value⟩)
            (by omega) (Or.inr hP0) (by rw [hclip0]; exact hP0) (ne_of_lt p01)]
        simp only [hclip0, hclipU]
    · -- the clamped pulse lies above the table
      have he : (nth c.calibration (c.calibration.length - 1)).value <
          lerp (clip K o.pulse_out) (nth c.calibration (c.calibration.length - 1 - 1)).pulse
            (nth c.calibration (c.calibration.length - 1)).pulse
            (nth c.calibration (c.calibration.length - 1 - 1)).value
            (nth c.calibration (c.calibration.length - 1)).value := by
        have := lerp_strict_mono ptop vtop hgt
        rwa [lerp_right _ _ (ne_of_lt ptop)] at this
      have he0 : ¬ lerp (clip K o.pulse_out)
            (nth c.calibration (c.calibration.length - 1 - 1)).pulse
            (nth c.calibration (c.calibration.length - 1)).pulse
            (nth c.calibration (c.calibration.length - 1 - 1)).value
            (nth c.calibration (c.calibration.length - 1)).value
          < (nth c.calibration 0).value := not_lt.mpr (le_trans v0l he.le)
      cases hl : c.limit_upper
      · rw [curve_above_free h0 hn he0 he hl (ne_of_lt vtop), ok_bind,
          lerp_inverse (ne_of_lt ptop) (ne_of_lt vtop)]
        exact clamp_idle hq.1 hq.2
      · have hle := hb.2 hl
        have hltL : o.pulse_out < K.LOWER_HARD_LIMIT := by
          rcases hact with h | h
          · exact h
          · exfalso
            rw [clip_of_gt h] at hgt
            linarith
        have hclipL := clip_of_lt hK hltL
        have hPl : (nth c.calibration (c.calibration.length - 1)).pulse
            < K.LOWER_HARD_LIMIT := by
          rw [hclipL] at hgt; exact hgt
        have hclipl := clip_of_lt hK hPl
        have hq0 : ¬ clip K (nth c.calibration (c.calibration.length - 1)).pulse
            < (nth c.calibration 0).pulse := by
          rw [hclipl]
          have := pulses_le_nth hp (Nat.zero_le (c.calibration.length - 1)) hn
          exact not_lt.mpr (le_trans this hPl.le)
        rw [curve_above_limit hn he0 he hl, ok_bind,
          clamp_above (o := ⟨(nth c.calibration (c.calibration.length - 1)).pulse,
              (nth c.calibration (c.calibration.length - 1)).value⟩)
            h0 hn (Or.inl hPl) hq0 (by rw [hclipl]; exact hPl) (ne_of_lt ptop)]
        simp only [hclipl, hclipL]
    · -- the clamped pulse lies inside segment `j`
      have hjn : j + 1 < c.calibration.length := by omega
      have vs := values_increasing_nth hv (show j < j + 1 by omega) hjn
      have ps := pulses_increasing_nth hp (show j < j + 1 by omega) hjn
      have hge := lerp_ge_left ps vs.le hj1
      have hle := lerp_le_right ps vs.le hj2
      have hpos : 0 < j → (nth c.calibration j).value <
          lerp (clip K o.pulse_out) (nth c.calibration j).pulse
            (nth c.calibration (j + 1)).pulse (nth c.calibration j).value
            (nth c.calibration (j + 1)).value := by
        intro h
        have := lerp_strict_mono ps vs (hj3 h)
        rwa [lerp_left] at this
      rw [curve_inside (j := j) hn
          (not_lt.mpr (le_trans (values_le_nth hv (Nat.zero_le j) (by omega)) hge))
          (not_lt.mpr (le_trans hle (values_le_nth hv (by omega) hn)))
          hj hle
          (fun k hk => not_le.mpr (lt_of_le_of_lt
            (values_le_nth hv (show k + 1 ≤ j by omega) (by omega)) (hpos (by omega))))
          (ne_of_lt vs),
        ok_bind, lerp_inverse (ne_of_lt ps) (ne_of_lt vs)]
      exact clamp_idle hq.1 hq.2
  · have h1 : K.LOWER_HARD_LIMIT ≤ o.pulse_out := not_lt.mp (fun h => hact (Or.inl h))
    have h3 : o.pulse_out ≤ K.UPPER_HARD_LIMIT := not_lt.mp (fun h => hact (Or.inr h))
    rw [clamp_idle h1 h3] at hres
    cases hres
    have hcurve : value_to_pulse_curve c (c.calibration.length - 1) e d0
        = Except.ok ⟨p, e⟩ := by
      rcases curve_cases h0 hn hv v p0 with ⟨-, ec⟩ | ⟨-, ec⟩ | ⟨j, -, -, -, -, ec⟩
      · cases hl : c.limit_lower
        · rw [ho] at ec
          simp only [hl, Bool.false_eq_true, if_false, Except.ok.injEq, Outs.mk.injEq] at ec
          rw [ec.2, curve_indep h0 hn hv v d0 p0, ho, ec.2]
        · rw [ho] at ec
          simp only [hl, if_true, Except.ok.injEq, Outs.mk.injEq] at ec
          rw [ec.1, ec.2]
          exact curve_at_anchor h0 hn hv (Nat.zero_le _) d0
      · cases hl : c.limit_upper
        · rw [ho] at ec
          simp only [hl, Bool.false_eq_true, if_false, Except.ok.injEq, Outs.mk.injEq] at ec
          rw [ec.2, curve_indep h0 hn hv v d0 p0, ho, ec.2]
        · rw [ho] at ec
          simp only [hl, if_true, Except.ok.injEq, Outs.mk.injEq] at ec
          rw [ec.1, ec.2]
          exact curve_at_anchor h0 hn hv le_rfl d0
      · rw [ho] at ec
        simp only [Except.ok.injEq, Outs.mk.injEq] at ec
        rw [ec.2, curve_indep h0 hn hv v d0 p0, ho, ec.2]
    rw [hcurve, ok_bind]
    exact clamp_idle h1 h3

theorem map_float_inside (x a b d e : ℚ) :
    map_float x a b d e ≠ Except.error Fault.out_of_bounds := by
  unfold map_float
  split_ifs <;> simp

theorem bind_inside {α β : Type} {x : Except Fault α} {f : α → Except Fault β}
    (hx : x ≠ Except.error Fault.out_of_bounds)
    (hf : ∀ a, f a ≠ Except.error Fault.out_of_bounds) :
    (x >>= f) ≠ Except.error Fault.out_of_bounds := by
  cases x with
  | error err =>
    intro h
    apply hx
    simpa [bind, Except.bind] using h
  | ok a => exact hf a

theorem seek_by_value_inside (cal : List Point) (x d : ℚ) :
    ∀ (todo i : ℕ), i + todo < cal.length →
      seek_by_value cal x d todo i ≠ Except.error Fault.out_of_bounds := by
  intro todo
  induction todo with
  | zero => intro i _; simp [seek_by_value]
  | succ t ih =>
    intro i h
    have e1 : index cal ((i : ℤ) + 1) = Except.ok (nth cal (i + 1)) := index_succ (by omega)
    have e0 : index cal (i : ℤ) = Except.ok (nth cal i) := index_cast (by omega)
    simp only [seek_by_value, e1, e0, ok_bind]
    split_ifs
    · exact map_float_inside _ _ _ _ _
    · exact ih (i + 1) (by omega)

theorem seek_by_pulse_inside (cal : List Point) (x d : ℚ) :
    ∀ (todo i : ℕ), i + todo < cal.length →
      seek_by_pulse cal x d todo i ≠ Except.error Fault.out_of_bounds := by
  intro todo
  induction todo with
  | zero => intro i _; simp [seek_by_pulse]
  | succ t ih =>
    intro i h
    have e1 : index cal ((i : ℤ) + 1) = Except.ok (nth cal (i + 1)) := index_succ (by omega)
    have e0 : index cal (i : ℤ) = Except.ok (nth cal i) := index_cast (by omega)
    simp only [seek_by_pulse, e1, e0, ok_bind]
    split_ifs
    · exact map_float_inside _ _ _ _ _
    · exact ih (i + 1) (by omega)

theorem curve_inside_table {c : Calibration} {l : ℕ} (h0 : 0 < l)
    (hn : l < c.calibration.length) (v d : ℚ) :
    value_to_pulse_curve c l v d ≠ Except.error Fault.out_of_bounds := by
  simp only [value_to_pulse_curve, index_zero (Nat.zero_lt_of_lt hn),
    index_one (show 1 < c.calibration.length by omega), index_cast hn, index_pred h0 hn,
    ok_bind]
  split_ifs
  · simp [pure, Except.pure]
  · exact bind_inside (map_float_inside _ _ _ _ _) (fun a => by simp [pure, Except.pure])
  · simp [pure, Except.pure]
  · exact bind_inside (map_float_inside _ _ _ _ _) (fun a => by simp [pure, Except.pure])
  · exact bind_inside (seek_by_value_inside _ _ _ l 0 (by omega))
      (fun a => by simp [pure, Except.pure])

theorem clamp_inside_table {K : Constants} {c : Calibration} {l : ℕ} (h0 : 0 < l)
    (hn : l < c.calibration.length) (o : Outs) :
    value_to_pulse_clamp K c l o ≠ Except.error Fault.out_of_bounds := by
  simp only [value_to_pulse_clamp, index_zero (Nat.zero_lt_of_lt hn),
    index_one (show 1 < c.calibration.length by omega), index_cast hn, index_pred h0 hn,
    ok_bind]
  split_ifs
  · exact bind_inside (map_float_inside _ _ _ _ _) (fun a => by simp [pure, Except.pure])
  · exact bind_inside (map_float_inside _ _ _ _ _) (fun a => by simp [pure, Except.pure])
  · exact bind_inside (seek_by_pulse_inside _ _ _ l 0 (by omega))
      (fun a => by simp [pure, Except.pure])
  · simp [pure, Except.pure]

theorem inverse_inside_table {K : Constants} {c : Calibration} {l : ℕ} (h0 : 0 < l)
    (hn : l < c.calibration.length) (p d : ℚ) :
    pulse_to_value_curve K c l p d ≠ Except.error Fault.out_of_bounds := by
  simp only [pulse_to_value_curve, index_zero (Nat.zero_lt_of_lt hn),
    index_one (show 1 < c.calibration.length by omega), index_cast hn, index_pred h0 hn,
    ok_bind]
  split_ifs
  · simp [pure, Except.pure]
  · exact bind_inside (map_float_inside _ _ _ _ _) (fun a => by simp [pure, Except.pure])
  · simp [pure, Except.pure]
  · exact bind_inside (map_float_inside _ _ _ _ _) (fun a => by simp [pure, Except.pure])
  · exact bind_inside (seek_by_pulse_inside _ _ _ l 0 (by omega))
      (fun a => by simp [pure, Except.pure])

/-- On a table of 2 to 256 points `last` is `calibration_size - 1`, and neither mapping
reads outside the table, for every input and every setting of the limit flags. -/
theorem no_read_outside_upto_256 (K : Constants) (c : Calibration) (x p0 v0 : ℚ)
    (h2 : 2 ≤ c.size) (h256 : c.size ≤ 256) :
    (c.calibration_size - 1) % 256 = c.size - 1 ∧
      (value_to_pulse K c x p0 v0).outs ≠ Except.error Fault.out_of_bounds ∧
      (pulse_to_value K c x v0 p0).outs ≠ Except.error Fault.out_of_bounds := by
  have h2l : 2 ≤ c.calibration.length := h2
  have h256l : c.calibration.length ≤ 256 := h256
  have h0 : 0 < c.calibration.length - 1 := by omega
  have hn : c.calibration.length - 1 < c.calibration.length := by omega
  refine ⟨last_eq h256l, ?_, ?_⟩
  · rw [value_to_pulse_outs h2l, last_eq h256l]
    exact bind_inside (curve_inside_table h0 hn x p0) (fun o => clamp_inside_table h0 hn o)
  · rw [pulse_to_value_outs h2l, last_eq h256l]
    exact inverse_inside_table h0 hn x v0

theorem lookup_nth_fl {cal : List FloatPoint} {i : ℕ} (h : i < cal.length) :
    cal[i]? = some (nth_fl cal i) := by
  simp [nth_fl, List.getElem?_eq_getElem h]

theorem index_fl_cast {cal : List FloatPoint} {i : ℕ} (h : i < cal.length) :
    index_fl cal (i : ℤ) = Except.ok (nth_fl cal i) := by
  have h0 : ¬ ((i : ℤ) < 0) := by omega
  simp [index_fl, h0, lookup_nth_fl h]

theorem index_fl_zero {cal : List FloatPoint} (h : 0 < cal.length) :
    index_fl cal 0 = Except.ok (nth_fl cal 0) := by
  have := index_fl_cast h
  simpa using this

theorem index_fl_one {cal : List FloatPoint} (h : 1 < cal.length) :
    index_fl cal 1 = Except.ok (nth_fl cal 1) := by
  have := index_fl_cast h
  simpa using this

theorem index_fl_succ {cal : List FloatPoint} {i : ℕ} (h : i + 1 < cal.length) :
    index_fl cal ((i : ℤ) + 1) = Except.ok (nth_fl cal (i + 1)) := by
  have := index_fl_cast h
  simpa using this

theorem index_fl_pred {cal : List FloatPoint} {i : ℕ} (h0 : 0 < i) (h : i < cal.length) :
    index_fl cal ((i : ℤ) - 1) = Except.ok (nth_fl cal (i - 1)) := by
  have h1 : i - 1 < cal.length := by omega
  have := index_fl_cast h1
  have e : ((i - 1 : ℕ) : ℤ) = (i : ℤ) - 1 := by omega
  rw [e] at this
  exact this

theorem seek_by_value_fl_total (A : Arith) (cal : List FloatPoint) (x d : Flt) :
    ∀ (todo i : ℕ), i + todo < cal.length →
      ∃ r, seek_by_value_fl A cal x d todo i = Except.ok r := by
  intro todo
  induction todo with
  | zero => intro i _; exact ⟨d, rfl⟩
  | succ t ih =>
    intro i h
    have e1 := @index_fl_succ cal i (by omega)
    have e0 := @index_fl_cast cal i (by omega)
    simp only [seek_by_value_fl, e1, e0, ok_bind]
    split_ifs
    · exact ⟨_, rfl⟩
    · exact ih (i + 1) (by omega)

theorem seek_by_pulse_fl_total (A : Arith) (cal : List FloatPoint) (x d : Flt) :
    ∀ (todo i : ℕ), i + todo < cal.length →
      ∃ r, seek_by_pulse_fl A cal x d todo i = Except.ok r := by
  intro todo
  induction todo with
  | zero => intro i _; exact ⟨d, rfl⟩
  | succ t ih =>
    intro i h
    have e1 := @index_fl_succ cal i (by omega)
    have e0 := @index_fl_cast cal i (by omega)
    simp only [seek_by_pulse_fl, e1, e0, ok_bind]
    split_ifs
    · exact ⟨_, rfl⟩
    · exact ih (i + 1) (by omega)

theorem curve_fl_total (A : Arith) {c : FloatCalibration} {l : ℕ} (h0 : 0 < l)
    (hn : l < c.calibration.length) (v d : Flt) :
    ∃ o, value_to_pulse_curve_fl A c l v d = Except.ok o := by
  obtain ⟨r, hr⟩ := seek_by_value_fl_total A c.calibration v d l 0 (by omega)
  simp only [value_to_pulse_curve_fl, index_fl_zero (Nat.zero_lt_of_lt hn),
    index_fl_one (show 1 < c.calibration.length by omega), index_fl_cast hn,
    index_fl_pred h0 hn, ok_bind, hr]
  split_ifs <;> exact ⟨_, rfl⟩

theorem clamp_fl_pulse (A : Arith) (K : Constants) {c : FloatCalibration} {l : ℕ}
    (h0 : 0 < l) (hn : l < c.calibration.length) (o : FloatOuts) :
    ∃ e, value_to_pulse_clamp_fl A K c l o = Except.ok ⟨clip_fl K o.pulse_out, e⟩ := by
  obtain ⟨r, hr⟩ := seek_by_pulse_fl_total A c.calibration
    (MIN_fl (MAX_fl o.pulse_out (Flt.fin K.LOWER_HARD_LIMIT)) (Flt.fin K.UPPER_HARD_LIMIT))
    o.value_out l 0 (by omega)
  simp only [value_to_pulse_clamp_fl, clip_fl, index_fl_zero (Nat.zero_lt_of_lt hn),
    index_fl_one (show 1 < c.calibration.length by omega), index_fl_cast hn,
    index_fl_pred h0 hn, ok_bind, hr]
  split_ifs <;> exact ⟨_, rfl⟩

theorem clip_fl_range {K : Constants} (hK : K.LOWER_HARD_LIMIT ≤ K.UPPER_HARD_LIMIT)
    (g : Flt) :
    clip_fl K g = Flt.nan ∨
      ∃ q, clip_fl K g = Flt.fin q ∧ K.LOWER_HARD_LIMIT ≤ q ∧ q ≤ K.UPPER_HARD_LIMIT := by
  cases g with
  | nan => left; simp [clip_fl, Flt.lt, Flt.gt]
  | pinf =>
    right
    refine ⟨K.UPPER_HARD_LIMIT, ?_, hK, le_rfl⟩
    simp [clip_fl, Flt.lt, Flt.gt, MIN_fl, MAX_fl]
  | ninf =>
    right
    by_cases h : K.LOWER_HARD_LIMIT < K.UPPER_HARD_LIMIT
    · exact ⟨K.LOWER_HARD_LIMIT, by simp [clip_fl, Flt.lt, Flt.gt, MIN_fl, MAX_fl, h],
        le_rfl, hK⟩
    · exact ⟨K.UPPER_HARD_LIMIT, by simp [clip_fl, Flt.lt, Flt.gt, MIN_fl, MAX_fl, h],
        hK, le_rfl⟩
  | fin q =>
    right
    by_cases h1 : q < K.LOWER_HARD_LIMIT
    · by_cases h : K.LOWER_HARD_LIMIT < K.UPPER_HARD_LIMIT
      · refine ⟨K.LOWER_HARD_LIMIT, ?_, le_rfl, hK⟩
        have h3 : ¬ K.LOWER_HARD_LIMIT < q := not_lt.mpr h1.le
        simp [clip_fl, Flt.lt, Flt.gt, MIN_fl, MAX_fl, h1, h, h3]
      · refine ⟨K.UPPER_HARD_LIMIT, ?_, hK, le_rfl⟩
        have h3 : ¬ K.LOWER_HARD_LIMIT < q := not_lt.mpr h1.le
        simp [clip_fl, Flt.lt, Flt.gt, MIN_fl, MAX_fl, h1, h, h3]
    · by_cases h2 : K.UPPER_HARD_LIMIT < q
      · refine ⟨K.UPPER_HARD_LIMIT, ?_, hK, le_rfl⟩
        have h3 : K.LOWER_HARD_LIMIT < q := lt_of_le_of_lt hK h2
        have h4 : ¬ q < K.UPPER_HARD_LIMIT := not_lt.mpr h2.le
        simp [clip_fl, Flt.lt, Flt.gt, MIN_fl, MAX_fl, h1, h2, h3, h4]
      · exact ⟨q, by simp [clip_fl, Flt.lt, Flt.gt, h1, h2], not_lt.mp h1, not_lt.mp h2⟩

theorem value_to_pulse_fl_outs (A : Arith) (K : Constants) {c : FloatCalibration}
    (h : 2 ≤ c.calibration.length) (v p0 v0 : Flt) :
    (value_to_pulse_fl A K c v p0 v0).outs =
      (value_to_pulse_curve_fl A c ((c.calibration.length - 1) % 256) v p0 >>=
        value_to_pulse_clamp_fl A K c ((c.calibration.length - 1) % 256)) := by
  simp [value_to_pulse_fl, h]

theorem to_float_length (c : Calibration) :
    c.to_float.calibration.length = c.calibration.length := by
  simp [Calibration.to_float]

theorem to_float_nth (c : Calibration) {i : ℕ} (h : i < c.calibration.length) :
    nth_fl c.to_float.calibration i = (nth c.calibration i).to_float := by
  simp [nth_fl, nth, Calibration.to_float, List.getElem?_eq_getElem h]

theorem curve_fl_below_free (A : Arith) {c : FloatCalibration} {l : ℕ} {v d : Flt}
    (hn : 1 < c.calibration.length) (hv : v.lt (nth_fl c.calibration 0).value = true)
    (hl : c.limit_lower = false) :
    value_to_pulse_curve_fl A c l v d =
      Except.ok ⟨map_float_fl A v (nth_fl c.calibration 0).value (nth_fl c.calibration 1).value
        (nth_fl c.calibration 0).pulse (nth_fl c.calibration 1).pulse, v⟩ := by
  simp [value_to_pulse_curve_fl, index_fl_zero (Nat.lt_of_succ_lt hn), index_fl_one hn, bind,
    Except.bind, hv, hl, pure, Except.pure]

theorem clamp_fl_idle (A : Arith) {K : Constants} {c : FloatCalibration} {l : ℕ}
    {o : FloatOuts}
    (h : (o.pulse_out.lt (Flt.fin K.LOWER_HARD_LIMIT) ||
      o.pulse_out.gt (Flt.fin K.UPPER_HARD_LIMIT)) = false) :
    value_to_pulse_clamp_fl A K c l o = Except.ok o := by
  simp only [value_to_pulse_clamp_fl, h]
  rfl

/-- In exact arithmetic `map_float` on finite arguments is the line through the two
points, unless the divisor is zero: then it is an infinity with the sign of the dividend,
or a NaN when the dividend is zero too. -/
theorem map_float_exact (x a b d e : ℚ) :
    map_float_fl exact (Flt.fin x) (Flt.fin a) (Flt.fin b) (Flt.fin d) (Flt.fin e) =
      if b - a = 0 then signed_infinity ((x - a) * (e - d)) else Flt.fin (lerp x a b d e) := by
  by_cases h : b - a = 0
  · simp only [map_float_fl, exact, ieee_sub, ieee_mul, ieee_div, h, if_true]
    unfold signed_infinity
    split_ifs <;> rfl
  · simp [map_float_fl, exact, ieee_sub, ieee_mul, ieee_div, ieee_add, h, lerp]

theorem to_float_nth_value (c : Calibration) {i : ℕ} (h : i < c.calibration.length) :
    (nth_fl c.to_float.calibration i).value = Flt.fin (nth c.calibration i).value := by
  rw [to_float_nth c h]; rfl

theorem to_float_nth_pulse (c : Calibration) {i : ℕ} (h : i < c.calibration.length) :
    (nth_fl c.to_float.calibration i).pulse = Flt.fin (nth c.calibration i).pulse := by
  rw [to_float_nth c h]; rfl

theorem index_to_float {cal : List Point} {i : ℤ} {p : Point}
    (h : index cal i = Except.ok p) :
    index_fl (cal.map Point.to_float) i = Except.ok p.to_float := by
  unfold index at h
  unfold index_fl
  by_cases hi : i < 0
  · simp [hi] at h
  · simp only [hi, if_false] at h ⊢
    rw [List.getElem?_map]
    cases hc : cal[i.toNat]? with
    | none => simp [hc] at h
    | some q =>
      simp only [hc] at h
      cases h
      rfl

theorem map_float_to_exact {x a b d e r : ℚ} (h : map_float x a b d e = Except.ok r) :
    map_float_fl exact (Flt.fin x) (Flt.fin a) (Flt.fin b) (Flt.fin d) (Flt.fin e)
      = Flt.fin r := by
  unfold map_float at h
  rw [map_float_exact]
  by_cases hz : b - a = 0
  · simp [hz] at h
  · simp only [hz, if_false] at h ⊢
    cases h
    rfl

theorem seek_by_value_to_exact (cal : List Point) (v p : ℚ) :
    ∀ (todo i : ℕ) (r : ℚ), seek_by_value cal v p todo i = Except.ok r →
      seek_by_value_fl exact (cal.map Point.to_float) (Flt.fin v) (Flt.fin p) todo i
        = Except.ok (Flt.fin r) := by
  intro todo
  induction todo with
  | zero =>
    intro i r h
    simp only [seek_by_value] at h
    cases h
    rfl
  | succ t ih =>
    intro i r h
    simp only [seek_by_value, bind, Except.bind] at h
    simp only [seek_by_value_fl, bind, Except.bind]
    cases hhi : index cal ((i : ℤ) + 1) with
    | error f => simp [hhi] at h
    | ok hi =>
      simp only [hhi] at h
      rw [index_to_float hhi]
      by_cases hle : v ≤ hi.value
      · simp only [hle, if_true] at h
        have hle2 : (Flt.fin v).le hi.to_float.value = true := by
          simpa [Point.to_float, Flt.le] using hle
        simp only [hle2, if_true]
        cases hlo : index cal (i : ℤ) with
        | error f => simp [hlo] at h
        | ok lo =>
          simp only [hlo] at h
          rw [index_to_float hlo]
          simp only [pure, Except.pure, Point.to_float]
          rw [map_float_to_exact h]
      · simp only [hle, if_false] at h
        have hle2 : (Flt.fin v).le hi.to_float.value = false := by
          simpa [Point.to_float, Flt.le] using hle
        simp only [hle2]
        exact ih (i + 1) r h

theorem seek_by_pulse_to_exact (cal : List Point) (v p : ℚ) :
    ∀ (todo i : ℕ) (r : ℚ), seek_by_pulse cal v p todo i = Except.ok r →
      seek_by_pulse_fl exact (cal.map Point.to_float) (Flt.fin v) (Flt.fin p) todo i
        = Except.ok (Flt.fin r) := by
  intro todo
  induction todo with
  | zero =>
    intro i r h
    simp only [seek_by_pulse] at h
    cases h
    rfl
  | succ t ih =>
    intro i r h
    simp only [seek_by_pulse, bind, Except.bind] at h
    simp only [seek_by_pulse_fl, bind, Except.bind]
    cases hhi : index cal ((i : ℤ) + 1) with
    | error f => simp [hhi] at h
    | ok hi =>
      simp only [hhi] at h
      rw [index_to_float hhi]
      by_cases hle : v ≤ hi.pulse
      · simp only [hle, if_true] at h
        have hle2 : (Flt.fin v).le hi.to_float.pulse = true := by
          simpa [Point.to_float, Flt.le] using hle
        simp only [hle2, if_true]
        cases hlo : index cal (i : ℤ) with
        | error f => simp [hlo] at h
        | ok lo =>
          simp only [hlo] at h
          rw [index_to_float hlo]
          simp only [pure, Except.pure, Point.to_float]
          rw [map_float_to_exact h]
      · simp only [hle, if_false] at h
        have hle2 : (Flt.fin v).le hi.to_float.pulse = false := by
          simpa [Point.to_float, Flt.le] using hle
        simp only [hle2]
        exact ih (i + 1) r h

/-- The outputs of the rational embedding as `float` outputs. -/
theorem curve_to_exact {c : Calibration} {l : ℕ} {v p : ℚ} {o : Outs}
    (h : value_to_pulse_curve c l v p = Except.ok o) :
    value_to_pulse_curve_fl exact c.to_float l (Flt.fin v) (Flt.fin p)
      = Except.ok ⟨Flt.fin o.pulse_out, Flt.fin o.value_out⟩ := by
  simp only [value_to_pulse_curve, bind, Except.bind] at h
  simp only [value_to_pulse_curve_fl, bind, Except.bind, Calibration.to_float]
  cases h0 : index c.calibration 0 with
  | error f => simp [h0] at h
  | ok first =>
    simp only [h0] at h
    rw [index_to_float h0]
    by_cases hb : v < first.value
    · simp only [hb, if_true] at h
      have hb2 : (Flt.fin v).lt first.to_float.value = true := by
        simpa [Point.to_float, Flt.lt] using hb
      simp only [hb2, if_true]
      cases hll : c.limit_lower with
      | true =>
        simp only [hll, if_true, pure, Except.pure] at h
        cases h
        rfl
      | false =>
        simp only [hll, pure, Except.pure] at h
        cases h1 : index c.calibration 1 with
        | error f => simp [h1] at h
        | ok second =>
          simp only [h1] at h
          rw [index_to_float h1]
          cases hm : map_float v first.value second.value first.pulse second.pulse with
          | error f => simp [hm] at h
          | ok r =>
            simp only [hm] at h
            cases h
            simp [Point.to_float, map_float_to_exact hm, pure, Except.pure]
    · simp only [hb, if_false] at h
      have hb2 : (Flt.fin v).lt first.to_float.value = false := by
        simpa [Point.to_float, Flt.lt] using hb
      simp only [hb2]
      cases hl : index c.calibration (l : ℤ) with
      | error f => simp [hl] at h
      | ok top =>
        simp only [hl] at h
        rw [index_to_float hl]
        by_cases ha : v > top.value
        · simp only [ha, if_true] at h
          have ha2 : (Flt.fin v).gt top.to_float.value = true := by
            simpa [Point.to_float, Flt.gt, Flt.lt] using ha
          simp only [ha2, if_true]
          cases hlu : c.limit_upper with
          | true =>
            simp only [hlu, if_true, pure, Except.pure] at h
            cases h
            rfl
          | false =>
            simp only [hlu, pure, Except.pure] at h
            cases h1 : index c.calibration ((l : ℤ) - 1) with
            | error f => simp [h1] at h
            | ok below =>
              simp only [h1] at h
              rw [index_to_float h1]
              cases hm : map_float v below.value top.value below.pulse top.pulse with
              | error f => simp [hm] at h
              | ok r =>
                simp only [hm] at h
                cases h
                simp [Point.to_float, map_float_to_exact hm, pure, Except.pure]
        · simp only [ha, if_false] at h
          have ha2 : (Flt.fin v).gt top.to_float.value = false := by
            simpa [Point.to_float, Flt.gt, Flt.lt] using ha
          simp only [ha2]
          cases hs : seek_by_value c.calibration v p l 0 with
          | error f => simp [hs] at h
          | ok r =>
            simp only [hs, pure, Except.pure] at h
            cases h
            simp [seek_by_value_to_exact _ _ _ _ _ _ hs, pure, Except.pure]

theorem min_max_fl_fin (a b d : ℚ) :
    MIN_fl (MAX_fl (Flt.fin a) (Flt.fin b)) (Flt.fin d) = Flt.fin (MIN (MAX a b) d) := by
  by_cases h1 : a > b
  · by_cases h2 : a < d
    · simp [MIN_fl, MAX_fl, MIN, MAX, Flt.gt, Flt.lt, h1, h2]
    · simp [MIN_fl, MAX_fl, MIN, MAX, Flt.gt, Flt.lt, h1, h2]
  · by_cases h2 : b < d
    · simp [MIN_fl, MAX_fl, MIN, MAX, Flt.gt, Flt.lt, h1, h2]
    · simp [MIN_fl, MAX_fl, MIN, MAX, Flt.gt, Flt.lt, h1, h2]

theorem clamp_to_exact {K : Constants} {c : Calibration} {l : ℕ} {o r : Outs}
    (h : value_to_pulse_clamp K c l o = Except.ok r) :
    value_to_pulse_clamp_fl exact K c.to_float l ⟨Flt.fin o.pulse_out, Flt.fin o.value_out⟩
      = Except.ok ⟨Flt.fin r.pulse_out, Flt.fin r.value_out⟩ := by
  simp only [value_to_pulse_clamp, bind, Except.bind] at h
  simp only [value_to_pulse_clamp_fl, bind, Except.bind, Calibration.to_float]
  by_cases hc : o.pulse_out < K.LOWER_HARD_LIMIT ∨ o.pulse_out > K.UPPER_HARD_LIMIT
  · simp only [hc, if_true] at h
    have hc2 : ((Flt.fin o.pulse_out).lt (Flt.fin K.LOWER_HARD_LIMIT) ||
        (Flt.fin o.pulse_out).gt (Flt.fin K.UPPER_HARD_LIMIT)) = true := by
      simpa [Flt.lt, Flt.gt] using hc
    simp only [hc2, if_true, min_max_fl_fin]
    cases h0 : index c.calibration 0 with
    | error f => simp [h0] at h
    | ok first =>
      simp only [h0] at h
      rw [index_to_float h0]
      by_cases hb : MIN (MAX o.pulse_out K.LOWER_HARD_LIMIT) K.UPPER_HARD_LIMIT < first.pulse
      · simp only [hb, if_true] at h
        have hb2 : (Flt.fin (MIN (MAX o.pulse_out K.LOWER_HARD_LIMIT)
            K.UPPER_HARD_LIMIT)).lt first.to_float.pulse = true := by
          simpa [Point.to_float, Flt.lt] using hb
        simp only [hb2, if_true]
        cases h1 : index c.calibration 1 with
        | error f => simp [h1] at h
        | ok second =>
          simp only [h1] at h
          rw [index_to_float h1]
          cases hm : map_float (MIN (MAX o.pulse_out K.LOWER_HARD_LIMIT) K.UPPER_HARD_LIMIT)
              first.pulse second.pulse first.value second.value with
          | error f => simp [hm] at h
          | ok q =>
            simp only [hm, pure, Except.pure] at h
            cases h
            simp [Point.to_float, map_float_to_exact hm, pure, Except.pure]
      · simp only [hb, if_false] at h
        have hb2 : (Flt.fin (MIN (MAX o.pulse_out K.LOWER_HARD_LIMIT)
            K.UPPER_HARD_LIMIT)).lt first.to_float.pulse = false := by
          simpa [Point.to_float, Flt.lt] using hb
        simp only [hb2]
        cases hl : index c.calibration (l : ℤ) with
        | error f => simp [hl] at h
        | ok top =>
          simp only [hl] at h
          rw [index_to_float hl]
          by_cases ha : MIN (MAX o.pulse_out K.LOWER_HARD_LIMIT) K.UPPER_HARD_LIMIT > top.pulse
          · simp only [ha, if_true] at h
            have ha2 : (Flt.fin (MIN (MAX o.pulse_out K.LOWER_HARD_LIMIT)
                K.UPPER_HARD_LIMIT)).gt top.to_float.pulse = true := by
              simpa [Point.to_float, Flt.gt, Flt.lt] using ha
            simp only [ha2, if_true]
            cases h1 : index c.calibration ((l : ℤ) - 1) with
            | error f => simp [h1] at h
            | ok below =>
              simp only [h1] at h
              rw [index_to_float h1]
              cases hm : map_float
                  (MIN (MAX o.pulse_out K.LOWER_HARD_LIMIT) K.UPPER_HARD_LIMIT)
                  below.pulse top.pulse below.value top.value with
              | error f => simp [hm] at h
              | ok q =>
                simp only [hm, pure, Except.pure] at h
                cases h
                simp [Point.to_float, map_float_to_exact hm, pure, Except.pure]
          · simp only [ha, if_false] at h
            have ha2 : (Flt.fin (MIN (MAX o.pulse_out K.LOWER_HARD_LIMIT)
                K.UPPER_HARD_LIMIT)).gt top.to_float.pulse = false := by
              simpa [Point.to_float, Flt.gt, Flt.lt] using ha
            simp only [ha2]
            cases hs : seek_by_pulse c.calibration
                (MIN (MAX o.pulse_out K.LOWER_HARD_LIMIT) K.UPPER_HARD_LIMIT) o.value_out l 0
                with
            | error f => simp [hs] at h
            | ok q =>
              simp only [hs, pure, Except.pure] at h
              cases h
              simp [seek_by_pulse_to_exact _ _ _ _ _ _ hs, pure, Except.pure]
  · simp only [hc, if_false, pure, Except.pure] at h
    have hc2 : ((Flt.fin o.pulse_out).lt (Flt.fin K.LOWER_HARD_LIMIT) ||
        (Flt.fin o.pulse_out).gt (Flt.fin K.UPPER_HARD_LIMIT)) = false := by
      simpa [Flt.lt, Flt.gt] using hc
    cases h
    simp only [hc2]
    rfl

/-- The rational embedding is the exact instance of the `float` embedding on runs that
divide by no zero: whatever `value_to_pulse` returns on rationals, `value_to_pulse_fl`
returns in exact arithmetic on the same table and inputs. -/
theorem value_to_pulse_to_exact (K : Constants) (c : Calibration) (v p0 v0 : ℚ) {o : Outs}
    (h : (value_to_pulse K c v p0 v0).outs = Except.ok o) :
    (value_to_pulse_fl exact K c.to_float (Flt.fin v) (Flt.fin p0) (Flt.fin v0)).success
        = (value_to_pulse K c v p0 v0).success ∧
      (value_to_pulse_fl exact K c.to_float (Flt.fin v) (Flt.fin p0) (Flt.fin v0)).outs
        = Except.ok ⟨Flt.fin o.pulse_out, Flt.fin o.value_out⟩ := by
  have hlen := to_float_length c
  by_cases h2 : c.calibration.length ≥ 2
  · simp only [value_to_pulse, Calibration.calibration_size, h2, if_true, bind,
      Except.bind] at h ⊢
    simp only [value_to_pulse_fl, hlen, h2, if_true, bind, Except.bind]
    refine ⟨trivial, ?_⟩
    cases hcv : value_to_pulse_curve c ((c.calibration.length - 1) % 256) v p0 with
    | error f => simp [hcv] at h
    | ok m =>
      simp only [hcv] at h
      rw [curve_to_exact hcv]
      exact clamp_to_exact h
  · simp only [value_to_pulse, Calibration.calibration_size, h2, if_false] at h ⊢
    simp only [value_to_pulse_fl, hlen, h2, if_false]
    cases h
    exact ⟨trivial, rfl⟩

/-- A non-zero number over zero is an infinity, which the hard-limit pass clamps.  In
binary32, on the two-point table whose points share the value 0, with both limits off, the
value -1 is mapped to the pulse 400 and the value 1 to the pulse 2600, each with the
effective value 0; on `{(3000,0), (3000,1)}` the value 1/2 is mapped to the pulse 2600 with
the effective value minus infinity. -/
theorem infinite_pulse_is_clamped :
    (value_to_pulse_fl float32 sample_constants flat_free_table.to_float (Flt.fin (-1))
        (Flt.fin 0) (Flt.fin 0)).outs = Except.ok ⟨Flt.fin 400, Flt.fin 0⟩ ∧
      (value_to_pulse_fl float32 sample_constants flat_free_table.to_float (Flt.fin 1)
        (Flt.fin 0) (Flt.fin 0)).outs = Except.ok ⟨Flt.fin 2600, Flt.fin 0⟩ ∧
      (value_to_pulse_fl float32 sample_constants level_table.to_float (Flt.fin (1 / 2))
        (Flt.fin 0) (Flt.fin 0)).outs = Except.ok ⟨Flt.fin 2600, Flt.ninf⟩ :=
  ⟨by decide!, by decide!, by decide!⟩

/-- The exponent search stops at the least exponent from `e` on whose bound exceeds `a`,
or at `e + n` when the steps run out. -/
theorem last_place_spec (a : ℚ) : ∀ (n : ℕ) (e : ℤ),
    e ≤ last_place a n e ∧ last_place a n e ≤ e + n ∧
      (last_place a n e < e + n → a < 16777216 * (2 : ℚ) ^ (last_place a n e)) ∧
      (∀ k, e ≤ k → k < last_place a n e → ¬ a < 16777216 * (2 : ℚ) ^ k) := by
  intro n
  induction n with
  | zero =>
    intro e
    refine ⟨le_rfl, by simp [last_place], ?_, ?_⟩
    · intro h; simp [last_place] at h
    · intro k h1 h2; simp [last_place] at h2; omega
  | succ m ih =>
    intro e
    by_cases h : a < 16777216 * (2 : ℚ) ^ e
    · have he : last_place a (m + 1) e = e := by simp [last_place, h]
      rw [he]
      refine ⟨le_rfl, by push_cast; omega, fun _ => h, ?_⟩
      intro k h1 h2; omega
    · have he : last_place a (m + 1) e = last_place a m (e + 1) := by simp [last_place, h]
      rw [he]
      obtain ⟨i1, i2, i3, i4⟩ := ih (e + 1)
      refine ⟨by omega, by push_cast; omega, ?_, ?_⟩
      · intro hlt
        exact i3 (by push_cast at hlt; omega)
      · intro k h1 h2
        rcases eq_or_lt_of_le h1 with e1 | e1
        · rw [← e1]; exact h
        · exact i4 k (by omega) h2

theorem last_place_mono {a b : ℚ} (hab : a ≤ b) (n : ℕ) (e : ℤ) :
    last_place a n e ≤ last_place b n e := by
  by_contra hc
  have hlt : last_place b n e < last_place a n e := not_le.mp hc
  obtain ⟨a1, a2, -, a4⟩ := last_place_spec a n e
  obtain ⟨b1, -, b3, -⟩ := last_place_spec b n e
  have hb := b3 (by omega)
  exact a4 _ b1 hlt (lt_of_le_of_lt hab hb)

theorem nearest_even_bounds (x : ℚ) : ⌊x⌋ ≤ nearest_even x ∧ nearest_even x ≤ ⌊x⌋ + 1 := by
  unfold nearest_even
  simp only
  split_ifs <;> constructor <;> omega

theorem nearest_even_mono {x y : ℚ} (h : x ≤ y) : nearest_even x ≤ nearest_even y := by
  have hf : ⌊x⌋ ≤ ⌊y⌋ := Int.floor_le_floor h
  rcases lt_or_eq_of_le hf with hlt | heq
  · have := (nearest_even_bounds x).2
    have := (nearest_even_bounds y).1
    omega
  · unfold nearest_even
    simp only
    rw [heq]
    have hxy : x - (⌊y⌋ : ℚ) ≤ y - (⌊y⌋ : ℚ) := by linarith
    split_ifs <;> first | omega | (exfalso; linarith)

theorem nearest_even_int (n : ℤ) : nearest_even (n : ℚ) = n := by
  unfold nearest_even
  simp

theorem nearest_even_le_int {x : ℚ} {n : ℤ} (h : x ≤ n) : nearest_even x ≤ n := by
  have := nearest_even_mono h
  rwa [nearest_even_int] at this

theorem int_le_nearest_even {x : ℚ} {n : ℤ} (h : (n : ℚ) ≤ x) : n ≤ nearest_even x := by
  have := nearest_even_mono h
  rwa [nearest_even_int] at this

theorem round_place_facts (q : ℚ) :
    -149 ≤ round_place q ∧ round_place q ≤ 104 ∧
      (round_place q < 104 →
        (if q < 0 then -q else q) < 16777216 * (2 : ℚ) ^ round_place q) ∧
      (-149 < round_place q →
        16777216 * (2 : ℚ) ^ (round_place q - 1) ≤ (if q < 0 then -q else q)) := by
  obtain ⟨h1, h2, h3, h4⟩ := last_place_spec (if q < 0 then -q else q) 253 (-149)
  refine ⟨h1, by unfold round_place; push_cast at h2; omega, ?_, ?_⟩
  · intro h
    exact h3 (by unfold round_place at h; push_cast; omega)
  · intro h
    exact not_lt.mp (h4 (round_place q - 1) (by omega) (by unfold round_place; omega))

theorem round_value_eq (q : ℚ) {e : ℤ} (h : round_place q = e) :
    round_value q = (nearest_even (q / (2 : ℚ) ^ e) : ℚ) * (2 : ℚ) ^ e := by
  unfold round_value
  rw [h]

theorem round_value_le_of_lt {q : ℚ} {n : ℤ}
    (h : q ≤ n * (2 : ℚ) ^ round_place q) : round_value q ≤ n * (2 : ℚ) ^ round_place q := by
  have hp : (0 : ℚ) < 2 ^ round_place q := by positivity
  unfold round_value
  have : q / (2 : ℚ) ^ round_place q ≤ n := by rwa [div_le_iff₀ hp]
  have := nearest_even_le_int this
  have hc : (nearest_even (q / (2 : ℚ) ^ round_place q) : ℚ) ≤ n := by exact_mod_cast this
  exact mul_le_mul_of_nonneg_right hc hp.le

theorem le_round_value_of_le {q : ℚ} {n : ℤ}
    (h : n * (2 : ℚ) ^ round_place q ≤ q) : n * (2 : ℚ) ^ round_place q ≤ round_value q := by
  have hp : (0 : ℚ) < 2 ^ round_place q := by positivity
  unfold round_value
  have : (n : ℚ) ≤ q / (2 : ℚ) ^ round_place q := by rwa [le_div_iff₀ hp]
  have := int_le_nearest_even this
  have hc : (n : ℚ) ≤ (nearest_even (q / (2 : ℚ) ^ round_place q) : ℚ) := by
    exact_mod_cast this
  exact mul_le_mul_of_nonneg_right hc hp.le

/-- Rounding keeps the order of the exact results. -/
theorem round_value_mono {x y : ℚ} (h : x ≤ y) : round_value x ≤ round_value y := by
  obtain ⟨x1, x2, x3, x4⟩ := round_place_facts x
  obtain ⟨y1, y2, y3, y4⟩ := round_place_facts y
  have px : (0 : ℚ) < 2 ^ round_place x := by positivity
  have py : (0 : ℚ) < 2 ^ round_place y := by positivity
  have same : round_place x = round_place y → round_value x ≤ round_value y := by
    intro he
    rw [round_value_eq x he, round_value_eq y rfl]
    have : x / (2 : ℚ) ^ round_place y ≤ y / (2 : ℚ) ^ round_place y :=
      div_le_div_of_nonneg_right h py.le
    have := nearest_even_mono this
    exact mul_le_mul_of_nonneg_right (by exact_mod_cast this) py.le
  by_cases hx : x < 0
  · by_cases hy : y < 0
    · -- both negative: the larger magnitude is `x`
      simp only [hx, if_true] at x3 x4
      simp only [hy, if_true] at y3 y4
      have hm : round_place y ≤ round_place x := by
        have := last_place_mono (a := -y) (b := -x) (by linarith) 253 (-149)
        simpa [round_place, hx, hy] using this
      rcases eq_or_lt_of_le hm with he | hl
      · exact same he.symm
      · have hy3 := y3 (by omega)
        have hx4 := x4 (by omega)
        have e1 : (2 : ℚ) ^ (round_place x - 1) = 2 ^ round_place x / 2 := by
          rw [zpow_sub_one₀ (by norm_num)]; ring
        have hxb : round_value x ≤ ((-8388608 : ℤ) : ℚ) * 2 ^ round_place x :=
          round_value_le_of_lt (by push_cast; rw [e1] at hx4; linarith)
        have hyb : ((-16777216 : ℤ) : ℚ) * 2 ^ round_place y ≤ round_value y :=
          le_round_value_of_le (by push_cast; linarith)
        have hpow : (2 : ℚ) ^ round_place y * 2 ≤ 2 ^ round_place x := by
          rw [← zpow_add_one₀ (by norm_num)]
          exact zpow_le_zpow_right₀ (by norm_num) (by omega)
        push_cast at hxb hyb
        linarith
    · -- a negative and a non-negative result
      have hy0 : 0 ≤ y := not_lt.mp hy
      have h1 : round_value x ≤ ((0 : ℤ) : ℚ) * 2 ^ round_place x :=
        round_value_le_of_lt (by push_cast; linarith)
      have h2 : ((0 : ℤ) : ℚ) * 2 ^ round_place y ≤ round_value y :=
        le_round_value_of_le (by push_cast; linarith)
      push_cast at h1 h2
      linarith
  · have hx0 : 0 ≤ x := not_lt.mp hx
    have hy : ¬ y < 0 := by linarith
    simp only [hx, if_false] at x3 x4
    simp only [hy, if_false] at y3 y4
    have hm : round_place x ≤ round_place y := by
      have := last_place_mono (a := x) (b := y) h 253 (-149)
      simpa [round_place, hx, hy] using this
    rcases eq_or_lt_of_le hm with he | hl
    · exact same he
    · have hx3 := x3 (by omega)
      have hy4 := y4 (by omega)
      have e1 : (2 : ℚ) ^ (round_place y - 1) = 2 ^ round_place y / 2 := by
        rw [zpow_sub_one₀ (by norm_num)]; ring
      have hxb : round_value x ≤ ((16777216 : ℤ) : ℚ) * 2 ^ round_place x :=
        round_value_le_of_lt (by push_cast; linarith)
      have hyb : ((8388608 : ℤ) : ℚ) * 2 ^ round_place y ≤ round_value y :=
        le_round_value_of_le (by push_cast; rw [e1] at hy4; linarith)
      have hpow : (2 : ℚ) ^ round_place x * 2 ≤ 2 ^ round_place y := by
        rw [← zpow_add_one₀ (by norm_num)]
        exact zpow_le_zpow_right₀ (by norm_num) (by omega)
      push_cast at hxb hyb
      linarith

/-- Rounding to binary32 keeps the order of the exact results. -/
theorem round32_mono {x y : ℚ} (h : x ≤ y) : (round32 x).le (round32 y) = true := by
  have hm := round_value_mono h
  unfold round32
  split_ifs <;> simp [Flt.le] <;> linarith

theorem round32_ne_nan (x : ℚ) : round32 x ≠ Flt.nan := by
  unfold round32
  split_ifs <;> simp

theorem round32_zero : round32 0 = Flt.fin 0 := by decide!

theorem ordered_fl_refl (x : Flt) : ordered_fl x x := by
  cases x <;> simp [ordered_fl, Flt.le]

theorem ordered_fl_pinf (x : Flt) : ordered_fl x Flt.pinf := by
  cases x <;> simp [ordered_fl, Flt.le]

theorem ordered_fl_ninf (x : Flt) : ordered_fl Flt.ninf x := by
  cases x <;> simp [ordered_fl, Flt.le]

theorem ordered_fl_nan_left (x : Flt) : ordered_fl Flt.nan x := Or.inl rfl

theorem ordered_fl_nan_right (x : Flt) : ordered_fl x Flt.nan := Or.inr (Or.inl rfl)

theorem ordered_fl_round32 {x y : ℚ} (h : x ≤ y) : ordered_fl (round32 x) (round32 y) :=
  Or.inr (Or.inr (round32_mono h))

/-- A function of a `float` that keeps the order on the numbers and towards the infinities
keeps it everywhere. -/
theorem ordered_fl_map (f : Flt → Flt)
    (hfin : ∀ u v : ℚ, u ≤ v → ordered_fl (f (Flt.fin u)) (f (Flt.fin v)))
    (htop : ∀ u : ℚ, ordered_fl (f (Flt.fin u)) (f Flt.pinf))
    (hbot : ∀ u : ℚ, ordered_fl (f Flt.ninf) (f (Flt.fin u)))
    (hends : ordered_fl (f Flt.ninf) (f Flt.pinf)) (hnan : f Flt.nan = Flt.nan)
    {x y : Flt} (h : ordered_fl x y) : ordered_fl (f x) (f y) := by
  rcases h with h | h | h
  · rw [h, hnan]; exact ordered_fl_nan_left _
  · rw [h, hnan]; exact ordered_fl_nan_right _
  · cases x with
    | nan => simp [Flt.le] at h
    | pinf =>
      cases y with
      | pinf => exact ordered_fl_refl _
      | _ => simp [Flt.le] at h
    | ninf =>
      cases y with
      | nan => simp [Flt.le] at h
      | pinf => exact hends
      | ninf => exact ordered_fl_refl _
      | fin v => exact hbot v
    | fin u =>
      cases y with
      | nan => simp [Flt.le] at h
      | ninf => simp [Flt.le] at h
      | pinf => exact htop u
      | fin v => exact hfin u v (by simpa [Flt.le] using h)

theorem signed_infinity_ordered {u v : ℚ} (h : u ≤ v) :
    ordered_fl (signed_infinity u) (signed_infinity v) := by
  unfold signed_infinity
  split_ifs with h1 h2 h3 h4 h5 h6
  all_goals first
    | exact ordered_fl_nan_left _
    | exact ordered_fl_nan_right _
    | exact ordered_fl_pinf _
    | exact ordered_fl_ninf _
    | (exfalso; linarith [lt_of_le_of_ne (not_lt.mp ‹¬ 0 < v›) ‹¬ v = 0›])

theorem nonneg_fl_round32 {q : ℚ} (h : 0 ≤ q) : nonneg_fl (round32 q) := by
  have hm := round32_mono h
  rw [round32_zero] at hm
  cases hr : round32 q with
  | nan => exact absurd hr (round32_ne_nan q)
  | pinf => exact Or.inl rfl
  | ninf => rw [hr] at hm; simp [Flt.le] at hm
  | fin r =>
    rw [hr] at hm
    exact Or.inr ⟨r, by simpa [Flt.le] using hm, rfl⟩

theorem add_ordered32 (a : ℚ) {x y : Flt} (h : ordered_fl x y) :
    ordered_fl (float32.add x (Flt.fin a)) (float32.add y (Flt.fin a)) := by
  refine ordered_fl_map (fun z => float32.add z (Flt.fin a)) ?_ ?_ ?_ ?_ rfl h
  · intro u v huv
    exact ordered_fl_round32 (by linarith)
  · intro u; exact ordered_fl_pinf _
  · intro u; exact ordered_fl_ninf _
  · exact ordered_fl_pinf _

theorem mul_ordered32 {C : Flt} (hC : nonneg_fl C) {x y : Flt} (h : ordered_fl x y) :
    ordered_fl (float32.mul x C) (float32.mul y C) := by
  rcases hC with rfl | ⟨r, hr, rfl⟩
  · refine ordered_fl_map (fun z => float32.mul z Flt.pinf) ?_ ?_ ?_ ?_ rfl h
    · intro u v huv
      exact signed_infinity_ordered huv
    · intro u; exact ordered_fl_pinf _
    · intro u; exact ordered_fl_ninf _
    · exact ordered_fl_pinf _
  · refine ordered_fl_map (fun z => float32.mul z (Flt.fin r)) ?_ ?_ ?_ ?_ rfl h
    · intro u v huv
      exact ordered_fl_round32 (mul_le_mul_of_nonneg_right huv hr)
    · intro u
      show ordered_fl _ (signed_infinity r)
      unfold signed_infinity
      split_ifs
      · exact ordered_fl_nan_right _
      · exact ordered_fl_pinf _
      · exfalso; linarith [lt_of_le_of_ne hr (Ne.symm ‹¬ r = 0›)]
    · intro u
      show ordered_fl (signed_infinity (-r)) _
      unfold signed_infinity
      split_ifs
      · exact ordered_fl_nan_left _
      · exfalso; linarith
      · exact ordered_fl_ninf _
    · show ordered_fl (signed_infinity (-r)) (signed_infinity r)
      exact signed_infinity_ordered (by linarith)

theorem div_ordered32 {D : Flt} (hD : nonneg_fl D) {x y : Flt} (h : ordered_fl x y) :
    ordered_fl (float32.div x D) (float32.div y D) := by
  rcases hD with rfl | ⟨r, hr, rfl⟩
  · refine ordered_fl_map (fun z => float32.div z Flt.pinf) ?_ ?_ ?_ ?_ rfl h
    · intro u v _
      exact ordered_fl_refl _
    · intro u; exact ordered_fl_nan_right _
    · intro u; exact ordered_fl_nan_left _
    · exact ordered_fl_nan_left _
  · have hneg : ¬ r < 0 := not_lt.mpr hr
    refine ordered_fl_map (fun z => float32.div z (Flt.fin r)) ?_ ?_ ?_ ?_ rfl h
    · intro u v huv
      show ordered_fl (if r = 0 then signed_infinity u else round32 (u / r))
        (if r = 0 then signed_infinity v else round32 (v / r))
      split_ifs
      · exact signed_infinity_ordered huv
      · exact ordered_fl_round32 (div_le_div_of_nonneg_right huv hr)
    · intro u
      show ordered_fl _ (if r < 0 then Flt.ninf else Flt.pinf)
      rw [if_neg hneg]; exact ordered_fl_pinf _
    · intro u
      show ordered_fl (if r < 0 then Flt.pinf else Flt.ninf) _
      rw [if_neg hneg]; exact ordered_fl_ninf _
    · show ordered_fl (if r < 0 then Flt.pinf else Flt.ninf) _
      rw [if_neg hneg]; exact ordered_fl_ninf _

theorem sub_nonpos32 {v a : ℚ} (h : v ≤ a) :
    ordered_fl (float32.sub (Flt.fin v) (Flt.fin a)) (Flt.fin 0) := by
  have := ordered_fl_round32 (x := v - a) (y := 0) (by linarith)
  rwa [round32_zero] at this

theorem mul_nonpos32 {C : Flt} (hC : nonneg_fl C) {x : Flt} (h : ordered_fl x (Flt.fin 0)) :
    ordered_fl (float32.mul x C) (Flt.fin 0) := by
  rcases hC with rfl | ⟨r, hr, rfl⟩
  · rcases h with h | h | h
    · rw [h]; exact ordered_fl_nan_left _
    · cases h
    · cases x with
      | nan => exact ordered_fl_nan_left _
      | pinf => simp [Flt.le] at h
      | ninf => exact ordered_fl_ninf _
      | fin u =>
        have hu : u ≤ 0 := by simpa [Flt.le] using h
        show ordered_fl (signed_infinity u) _
        unfold signed_infinity
        split_ifs
        · exact ordered_fl_nan_left _
        · exfalso; linarith
        · exact ordered_fl_ninf _
  · have := mul_ordered32 (C := Flt.fin r) (Or.inr ⟨r, hr, rfl⟩) h
    have e : float32.mul (Flt.fin 0) (Flt.fin r) = Flt.fin 0 := by
      show round32 (0 * r) = Flt.fin 0
      rw [zero_mul, round32_zero]
    rwa [e] at this

theorem div_nonpos32 {D : Flt} (hD : nonneg_fl D) {x : Flt} (h : ordered_fl x (Flt.fin 0)) :
    ordered_fl (float32.div x D) (Flt.fin 0) := by
  rcases hD with rfl | ⟨r, hr, rfl⟩
  · cases x with
    | nan => exact ordered_fl_nan_left _
    | pinf => exact ordered_fl_nan_left _
    | ninf => exact ordered_fl_nan_left _
    | fin u => exact ordered_fl_refl _
  · by_cases hr0 : r = 0
    · subst hr0
      rcases h with h | h | h
      · rw [h]; exact ordered_fl_nan_left _
      · cases h
      · cases x with
        | nan => exact ordered_fl_nan_left _
        | pinf => simp [Flt.le] at h
        | ninf => exact ordered_fl_ninf _
        | fin u =>
          have hu : u ≤ 0 := by simpa [Flt.le] using h
          show ordered_fl (if (0 : ℚ) = 0 then signed_infinity u else round32 (u / 0)) _
          rw [if_pos rfl]
          unfold signed_infinity
          split_ifs
          · exact ordered_fl_nan_left _
          · exfalso; linarith
          · exact ordered_fl_ninf _
    · have := div_ordered32 (D := Flt.fin r) (Or.inr ⟨r, hr, rfl⟩) h
      have e : float32.div (Flt.fin 0) (Flt.fin r) = Flt.fin 0 := by
        show (if r = 0 then signed_infinity 0 else round32 (0 / r)) = Flt.fin 0
        rw [if_neg hr0, zero_div, round32_zero]
      rwa [e] at this

theorem add_le32 {P : ℚ} (hP : round32 P = Flt.fin P) {x : Flt}
    (h : ordered_fl x (Flt.fin 0)) : ordered_fl (float32.add x (Flt.fin P)) (Flt.fin P) := by
  have := add_ordered32 P h
  have e : float32.add (Flt.fin 0) (Flt.fin P) = Flt.fin P := by
    show round32 (0 + P) = Flt.fin P
    rw [zero_add, hP]
  rwa [e] at this

/-- In binary32, along a segment with `a <= b` and `d <= e` whose lower pulse `d` is a
binary32 number, `map_float` of a value at or below `a` is at most `d`, or a NaN. -/
theorem map_float32_le_left {x a b d e : ℚ} (hab : a ≤ b) (hde : d ≤ e)
    (hd : round32 d = Flt.fin d) (hx : x ≤ a) :
    ordered_fl (map_float_fl float32 (Flt.fin x) (Flt.fin a) (Flt.fin b) (Flt.fin d)
      (Flt.fin e)) (Flt.fin d) := by
  have hC : nonneg_fl (float32.sub (Flt.fin e) (Flt.fin d)) :=
    nonneg_fl_round32 (q := e - d) (by linarith)
  have hD : nonneg_fl (float32.sub (Flt.fin b) (Flt.fin a)) :=
    nonneg_fl_round32 (q := b - a) (by linarith)
  unfold map_float_fl
  exact add_le32 hd (div_nonpos32 hD (mul_nonpos32 hC (sub_nonpos32 hx)))

/-- C1, amended: for every `float` arithmetic, every table with 2 to 256 points (whatever
its points, NaN and infinities included), every setting of the two limit flags and every
input value, with `LOWER_HARD_LIMIT <= UPPER_HARD_LIMIT`, `value_to_pulse` succeeds and
the pulse it returns is a NaN or a finite number between the hard limits. -/
theorem value_to_pulse_nan_or_within_hard_limits (A : Arith) (K : Constants)
    (c : FloatCalibration) (v p0 v0 : Flt) (h2 : 2 ≤ c.calibration.length)
    (h256 : c.calibration.length ≤ 256)
    (hK : K.LOWER_HARD_LIMIT ≤ K.UPPER_HARD_LIMIT) :
    (value_to_pulse_fl A K c v p0 v0).success = true ∧
      ∃ p e, (value_to_pulse_fl A K c v p0 v0).outs = Except.ok ⟨p, e⟩ ∧
        (p = Flt.nan ∨
          ∃ q, p = Flt.fin q ∧ K.LOWER_HARD_LIMIT ≤ q ∧ q ≤ K.UPPER_HARD_LIMIT) := by
  have h0 : 0 < c.calibration.length - 1 := by omega
  have hn : c.calibration.length - 1 < c.calibration.length := by omega
  refine ⟨by simp [value_to_pulse_fl, h2], ?_⟩
  obtain ⟨o, ho⟩ := curve_fl_total A h0 hn v p0
  obtain ⟨e, he⟩ := clamp_fl_pulse A K h0 hn o
  refine ⟨clip_fl K o.pulse_out, e, ?_, clip_fl_range hK _⟩
  rw [value_to_pulse_fl_outs A K h2, last_eq h256, ho, ok_bind, he]

/-- C1, as stated, fails in binary32: the returned pulse can be a NaN, which is neither
at least `LOWER_HARD_LIMIT` nor at most `UPPER_HARD_LIMIT` and which the hard-limit pass
leaves as it is.  On the two-point table whose points share the value 0, the value 0 is
mapped through zero divided by zero; on `{(1000,-3e38f), (2000,3e38f)}`, whose values
differ, the value 0 is mapped through infinity divided by infinity, since both the
product and the divisor overflow.  Both calls return `true`. -/
theorem value_to_pulse_returns_nan_pulse :
    2 ≤ flat_table.to_float.calibration.length ∧
      2 ≤ wide_table.to_float.calibration.length ∧
      sample_constants.LOWER_HARD_LIMIT ≤ sample_constants.UPPER_HARD_LIMIT ∧
      round32 300000000549775575777803994281145270272
        = Flt.fin 300000000549775575777803994281145270272 ∧
      (value_to_pulse_fl float32 sample_constants flat_table.to_float (Flt.fin 0) (Flt.fin 0)
        (Flt.fin 0)).success = true ∧
      (value_to_pulse_fl float32 sample_constants flat_table.to_float (Flt.fin 0) (Flt.fin 0)
        (Flt.fin 0)).outs = Except.ok ⟨Flt.nan, Flt.fin 0⟩ ∧
      (value_to_pulse_fl float32 sample_constants wide_table.to_float (Flt.fin 0) (Flt.fin 0)
        (Flt.fin 0)).success = true ∧
      (value_to_pulse_fl float32 sample_constants wide_table.to_float (Flt.fin 0) (Flt.fin 0)
        (Flt.fin 0)).outs = Except.ok ⟨Flt.nan, Flt.fin 0⟩ ∧
      (Flt.fin sample_constants.LOWER_HARD_LIMIT).le Flt.nan = false ∧
      Flt.nan.le (Flt.fin sample_constants.UPPER_HARD_LIMIT) = false := by
  refine ⟨by decide, by decide, by norm_num [sample_constants], by decide!, by decide!,
    by decide!, by decide!, by decide!, rfl, rfl⟩

/-- Witness of C1, amended: binary32 on the angular table at value 45. -/
theorem value_to_pulse_nan_or_within_hard_limits_witness :
    (value_to_pulse_fl float32 sample_constants angular_table.to_float (Flt.fin 45) Flt.nan
        Flt.nan).success = true ∧
      ∃ p e, (value_to_pulse_fl float32 sample_constants angular_table.to_float (Flt.fin 45)
          Flt.nan Flt.nan).outs = Except.ok ⟨p, e⟩ ∧
        (p = Flt.nan ∨ ∃ q, p = Flt.fin q ∧ sample_constants.LOWER_HARD_LIMIT ≤ q ∧
          q ≤ sample_constants.UPPER_HARD_LIMIT) :=
  value_to_pulse_nan_or_within_hard_limits float32 sample_constants angular_table.to_float
    (Flt.fin 45) Flt.nan Flt.nan (by decide) (by decide) (by norm_num [sample_constants])

/-- C2: `value_to_pulse` and `pulse_to_value` return `true` exactly when the table has at
least 2 points, and with fewer than 2 points both return `false` and leave the two
reference outputs as they were, for every input and every setting of the limit flags. -/
theorem mapping_success_iff_two_points (K : Constants) (c : Calibration) (x p0 v0 : ℚ) :
    ((value_to_pulse K c x p0 v0).success = true ↔ 2 ≤ c.size) ∧
      ((pulse_to_value K c x v0 p0).success = true ↔ 2 ≤ c.size) ∧
      (c.size < 2 →
        value_to_pulse K c x p0 v0 = ⟨false, Except.ok ⟨p0, v0⟩⟩ ∧
        pulse_to_value K c x v0 p0 = ⟨false, Except.ok ⟨p0, v0⟩⟩) := by
  by_cases h : 2 ≤ c.calibration.length
  · have h' : ¬ c.calibration.length < 2 := by omega
    simp [value_to_pulse, pulse_to_value, Calibration.size, Calibration.calibration_size, h, h']
  · have h' : c.calibration.length < 2 := by omega
    simp [value_to_pulse, pulse_to_value, Calibration.size, Calibration.calibration_size, h, h']

/-- Witness of C2 on a one-point table: both mappings fail and keep the outputs 7 and 8. -/
theorem mapping_success_iff_two_points_witness :
    value_to_pulse sample_constants single_table 3 7 8 = ⟨false, Except.ok ⟨7, 8⟩⟩ ∧
      pulse_to_value sample_constants single_table 3 8 7 = ⟨false, Except.ok ⟨7, 8⟩⟩ :=
  (mapping_success_iff_two_points sample_constants single_table 3 7 8).2.2 (by decide)

/-- C3, amended: for a table of 2 to 256 points with strictly increasing pulses and
strictly increasing values, `value_to_pulse` called with the value of a point whose pulse
lies between the hard limits returns exactly that point's pulse (and its value). -/
theorem value_to_pulse_at_anchor (K : Constants) (c : Calibration) (k : ℕ) (pk : Point)
    (p0 v0 : ℚ) (h2 : 2 ≤ c.size) (h256 : c.size ≤ 256)
    (_hp : pulses_increasing c.calibration) (hv : values_increasing c.calibration)
    (hk : c.calibration[k]? = some pk)
    (hL : K.LOWER_HARD_LIMIT ≤ pk.pulse) (hU : pk.pulse ≤ K.UPPER_HARD_LIMIT) :
    (value_to_pulse K c pk.value p0 v0).outs = Except.ok ⟨pk.pulse, pk.value⟩ := by
  have h2l : 2 ≤ c.calibration.length := h2
  have h256l : c.calibration.length ≤ 256 := h256
  obtain ⟨hnth, hklt⟩ := nth_of_lookup hk
  rw [value_to_pulse_outs h2l, last_eq h256l]
  have hlast : c.calibration.length - 1 < c.calibration.length := by omega
  have hv0 : ¬ pk.value < (nth c.calibration 0).value := by
    rcases Nat.eq_zero_or_pos k with h | h
    · subst h; rw [hnth]; exact lt_irrefl _
    · have := values_increasing_nth hv h hklt
      rw [hnth] at this
      exact not_lt.mpr this.le
  have hvl : ¬ (nth c.calibration (c.calibration.length - 1)).value < pk.value := by
    rcases Nat.lt_or_ge k (c.calibration.length - 1) with h | h
    · have := values_increasing_nth hv h hlast
      rw [hnth] at this
      exact not_lt.mpr this.le
    · have : k = c.calibration.length - 1 := by omega
      rw [← this, hnth]; exact lt_irrefl _
  have hcurve : value_to_pulse_curve c (c.calibration.length - 1) pk.value p0
      = Except.ok ⟨pk.pulse, pk.value⟩ := by
    rcases Nat.eq_zero_or_pos k with h | h
    · subst h
      have h01 := values_increasing_nth hv (i := 0) (j := 1) (by omega) (by omega)
      have := curve_inside (c := c) (l := c.calibration.length - 1) (j := 0)
        (v := pk.value) (d := p0) hlast hv0 hvl (by omega)
        (by rw [← hnth]; exact h01.le) (fun k hk => absurd hk (Nat.not_lt_zero k))
        (ne_of_lt h01)
      rw [this, ← hnth, lerp_left]
    · have hk1 : k - 1 + 1 = k := Nat.sub_add_cancel h
      have hstep := values_increasing_nth hv (i := k - 1) (j := k) (by omega) hklt
      have := curve_inside (c := c) (l := c.calibration.length - 1) (j := k - 1)
        (v := pk.value) (d := p0) hlast hv0 hvl (by omega)
        (by rw [hk1, hnth])
        (fun i hi => by
          have := values_increasing_nth hv (i := i + 1) (j := k) (by omega) hklt
          rw [hnth] at this
          exact not_le.mpr this)
        (by rw [hk1]; exact ne_of_lt hstep)
      rw [this, hk1, ← hnth, lerp_right _ _ (by rw [hnth]; rw [hnth] at hstep; exact ne_of_lt hstep)]
  rw [hcurve]
  exact clamp_idle hL hU

/-- C3, as stated, fails in three ways.  On a table with increasing pulse and decreasing
value the first point's value is taken to lie above the table and yields the last point's
pulse; on a table whose first pulse is below the lower hard limit the first point's value
yields the hard limit; and on a table with two equal neighbouring values (monotonic, not
strictly) the shared value yields no pulse at all. -/
theorem value_to_pulse_anchor_missed :
    (pulses_increasing reversed_table.calibration ∧
        List.Sorted (· > ·) (reversed_table.calibration.map Point.value) ∧
        reversed_table.calibration[0]? = some ⟨1000, 90⟩ ∧
        (value_to_pulse sample_constants reversed_table 90 0 0).outs
          = Except.ok ⟨2000, -90⟩) ∧
      (pulses_increasing low_table.calibration ∧ values_increasing low_table.calibration ∧
        low_table.calibration[0]? = some ⟨300, 0⟩ ∧
        (value_to_pulse sample_constants low_table 0 0 0).outs = Except.ok ⟨400, 1 / 17⟩) ∧
      (pulses_increasing flat_table.calibration ∧
        List.Sorted (· ≤ ·) (flat_table.calibration.map Point.value) ∧
        flat_table.calibration[0]? = some ⟨1000, 0⟩ ∧
        (value_to_pulse sample_constants flat_table 0 0 0).outs
          = Except.error Fault.non_finite) := by
  refine ⟨⟨?_, ?_, rfl, ?_⟩, ⟨?_, ?_, rfl, ?_⟩, ⟨?_, ?_, rfl, ?_⟩⟩
  · norm_num [pulses_increasing, reversed_table]
  · simp [reversed_table]
  · simp [value_to_pulse, value_to_pulse_curve, value_to_pulse_clamp, index, reversed_table,
      sample_constants, Calibration.calibration_size, bind, Except.bind, pure, Except.pure]
    norm_num
  · norm_num [pulses_increasing, low_table]
  · norm_num [values_increasing, low_table]
  · simp [value_to_pulse, value_to_pulse_curve, value_to_pulse_clamp, seek_by_value,
      seek_by_pulse, index, map_float, low_table, sample_constants,
      Calibration.calibration_size, bind, Except.bind, pure, Except.pure, MIN, MAX]
    norm_num
  · norm_num [pulses_increasing, flat_table]
  · simp [flat_table]
  · simp [value_to_pulse, value_to_pulse_curve, seek_by_value, index, map_float, flat_table,
      Calibration.calibration_size, bind, Except.bind]

/-- Witness of C3, amended: the middle point of the angular table. -/
theorem value_to_pulse_at_anchor_witness :
    (value_to_pulse sample_constants angular_table 0 7 7).outs = Except.ok ⟨1500, 0⟩ :=
  value_to_pulse_at_anchor sample_constants angular_table 1 ⟨1500, 0⟩ 7 7 (by decide)
    (by decide) (by norm_num [pulses_increasing, angular_table])
    (by norm_num [values_increasing, angular_table]) rfl
    (by norm_num [sample_constants]) (by norm_num [sample_constants])

/-- C6, amended: with `limit_lower` set, a value strictly below the first point's value
yields exactly the first point's pulse and value when that pulse lies between the hard
limits; with `limit_upper` set, on a table of at most 256 points, a value above the last
point's value and not below the first point's value yields exactly the last point's pulse
and value when that pulse lies between the hard limits. -/
theorem value_to_pulse_snaps_to_endpoint (K : Constants) (c : Calibration) (v p0 v0 : ℚ)
    (first top : Point) (h2 : 2 ≤ c.size) (hfirst : c.calibration[0]? = some first)
    (htop : c.calibration[c.size - 1]? = some top) :
    (c.limit_lower = true → v < first.value →
        K.LOWER_HARD_LIMIT ≤ first.pulse → first.pulse ≤ K.UPPER_HARD_LIMIT →
        (value_to_pulse K c v p0 v0).outs = Except.ok ⟨first.pulse, first.value⟩) ∧
      (c.limit_upper = true → c.size ≤ 256 → ¬ v < first.value → top.value < v →
        K.LOWER_HARD_LIMIT ≤ top.pulse → top.pulse ≤ K.UPPER_HARD_LIMIT →
        (value_to_pulse K c v p0 v0).outs = Except.ok ⟨top.pulse, top.value⟩) := by
  have h2l : 2 ≤ c.calibration.length := h2
  obtain ⟨hf, -⟩ := nth_of_lookup hfirst
  obtain ⟨ht, htl⟩ := nth_of_lookup htop
  have hts : c.size = c.calibration.length := rfl
  rw [hts] at ht htl
  constructor
  · intro hl hv hL hU
    rw [value_to_pulse_outs h2l, curve_below_limit (by omega) (by rw [hf]; exact hv) hl, hf]
    exact clamp_idle hL hU
  · intro hl h256 hv0 hv hL hU
    have h256l : c.calibration.length ≤ 256 := h256
    rw [value_to_pulse_outs h2l, last_eq h256l,
      curve_above_limit htl (by rw [hf]; exact hv0) (by rw [ht]; exact hv) hl, ht]
    exact clamp_idle hL hU

/-- C6, as stated, fails in two ways.  With `limit_lower` set and the first pulse (300)
below the lower hard limit (400), a value below the first value yields the hard limit and
a recomputed value, not the first point; and with `limit_upper` set, on a table whose
values decrease, a value above the last value but below the first value yields the first
point, not the last. -/
theorem value_to_pulse_snap_missed :
    (low_table.limit_lower = true ∧ low_table.calibration[0]? = some ⟨300, 0⟩ ∧
        (-1 : ℚ) < 0 ∧
        (value_to_pulse sample_constants low_table (-1) 0 0).outs
          = Except.ok ⟨400, 1 / 17⟩) ∧
      (reversed_table.limit_upper = true ∧
        reversed_table.calibration[reversed_table.size - 1]? = some ⟨2000, -90⟩ ∧
        (-90 : ℚ) < 0 ∧
        (value_to_pulse sample_constants reversed_table 0 0 0).outs
          = Except.ok ⟨1000, 90⟩) := by
  refine ⟨⟨rfl, rfl, by norm_num, ?_⟩, ⟨rfl, rfl, by norm_num, ?_⟩⟩
  · simp [value_to_pulse, value_to_pulse_curve, value_to_pulse_clamp, seek_by_pulse, index,
      map_float, low_table, sample_constants, Calibration.calibration_size, bind,
      Except.bind, pure, Except.pure, MIN, MAX]
    norm_num
  · simp [value_to_pulse, value_to_pulse_curve, value_to_pulse_clamp, index,
      reversed_table, sample_constants, Calibration.calibration_size, bind,
      Except.bind, pure, Except.pure]
    norm_num

/-- Witness of C6, amended: the angular table at -100 and at 100. -/
theorem value_to_pulse_snaps_to_endpoint_witness :
    (value_to_pulse sample_constants angular_table (-100) 0 0).outs
        = Except.ok ⟨1000, -90⟩ ∧
      (value_to_pulse sample_constants angular_table 100 0 0).outs = Except.ok ⟨2000, 90⟩ :=
  ⟨(value_to_pulse_snaps_to_endpoint sample_constants angular_table (-100) 0 0
      ⟨1000, -90⟩ ⟨2000, 90⟩ (by decide) rfl rfl).1 rfl (by norm_num)
      (by norm_num [sample_constants]) (by norm_num [sample_constants]),
   (value_to_pulse_snaps_to_endpoint sample_constants angular_table 100 0 0
      ⟨1000, -90⟩ ⟨2000, 90⟩ (by decide) rfl rfl).2 rfl (by decide) (by norm_num)
      (by norm_num) (by norm_num [sample_constants]) (by norm_num [sample_constants])⟩

/-- C4, amended: for a table of 2 to 256 points with strictly increasing pulses and
values, and a value `v` strictly between the first and the last value whose linear
interpolation in the segment that brackets it lies between the hard limits,
`value_to_pulse` returns that pulse `p` together with `v`, and `pulse_to_value` of `p`
returns the value `v` (and the pulse `p`), for every setting of the limit flags. -/
theorem round_trip_inside (K : Constants) (c : Calibration) (v p0 v0 d0 d1 : ℚ)
    (first top : Point) (h2 : 2 ≤ c.size) (h256 : c.size ≤ 256)
    (hp : pulses_increasing c.calibration) (hv : values_increasing c.calibration)
    (hfirst : c.calibration[0]? = some first) (htop : c.calibration[c.size - 1]? = some top)
    (hlo : first.value < v) (hhi : v < top.value)
    (hseg : ∀ i lo hi, c.calibration[i]? = some lo → c.calibration[i + 1]? = some hi →
      lo.value < v → v ≤ hi.value →
      K.LOWER_HARD_LIMIT ≤ (v - lo.value) * (hi.pulse - lo.pulse) / (hi.value - lo.value)
          + lo.pulse ∧
        (v - lo.value) * (hi.pulse - lo.pulse) / (hi.value - lo.value) + lo.pulse
          ≤ K.UPPER_HARD_LIMIT) :
    ∃ p, (value_to_pulse K c v p0 v0).outs = Except.ok ⟨p, v⟩ ∧
      K.LOWER_HARD_LIMIT ≤ p ∧ p ≤ K.UPPER_HARD_LIMIT ∧
      (pulse_to_value K c p d0 d1).outs = Except.ok ⟨p, v⟩ := by
  have h2l : 2 ≤ c.calibration.length := h2
  have h256l : c.calibration.length ≤ 256 := h256
  obtain ⟨hf, -⟩ := nth_of_lookup hfirst
  obtain ⟨ht, -⟩ := nth_of_lookup htop
  have hts : c.size = c.calibration.length := rfl
  rw [hts] at ht
  have h0 : 0 < c.calibration.length - 1 := by omega
  have hn : c.calibration.length - 1 < c.calibration.length := by omega
  rcases curve_cases h0 hn hv v p0 with ⟨hb, -⟩ | ⟨ha, -⟩ | ⟨j, hj, hj1, hj2, hj3, ej⟩
  · rw [hf] at hb; exact absurd hlo (not_lt.mpr hb.le)
  · rw [ht] at ha; exact absurd hhi (not_lt.mpr ha.le)
  · have hjn : j + 1 < c.calibration.length := by omega
    have hj0 : (nth c.calibration j).value < v := by
      rcases Nat.eq_zero_or_pos j with e | l
      · rw [e, hf]; exact hlo
      · exact hj3 l
    have vs := values_increasing_nth hv (show j < j + 1 by omega) hjn
    have ps := pulses_increasing_nth hp (show j < j + 1 by omega) hjn
    have hLU : K.LOWER_HARD_LIMIT ≤
          lerp v (nth c.calibration j).value (nth c.calibration (j + 1)).value
            (nth c.calibration j).pulse (nth c.calibration (j + 1)).pulse ∧
        lerp v (nth c.calibration j).value (nth c.calibration (j + 1)).value
            (nth c.calibration j).pulse (nth c.calibration (j + 1)).pulse
          ≤ K.UPPER_HARD_LIMIT :=
      hseg j _ _ (lookup_nth (by omega)) (lookup_nth hjn) hj0 hj2
    obtain ⟨hL, hU⟩ := hLU
    have hlow : (nth c.calibration j).pulse <
        lerp v (nth c.calibration j).value (nth c.calibration (j + 1)).value
          (nth c.calibration j).pulse (nth c.calibration (j + 1)).pulse := by
      have := lerp_strict_mono vs ps hj0
      rwa [lerp_left] at this
    have hupp := lerp_le_right vs ps.le hj2
    have hclip := clip_of_mem hL hU
    refine ⟨lerp v (nth c.calibration j).value (nth c.calibration (j + 1)).value
      (nth c.calibration j).pulse (nth c.calibration (j + 1)).pulse, ?_, hL, hU, ?_⟩
    · rw [value_to_pulse_outs h2l, last_eq h256l, ej]
      exact clamp_idle hL hU
    · rw [pulse_to_value_outs h2l, last_eq h256l,
        inverse_inside (j := j) hn
          (by
            rw [hclip]
            exact not_lt.mpr (le_trans (pulses_le_nth hp (Nat.zero_le j) (by omega)) hlow.le))
          (not_lt.mpr (le_trans hupp (pulses_le_nth hp (by omega) hn)))
          hj hupp
          (fun k hk => not_le.mpr
            (lt_of_le_of_lt (pulses_le_nth hp (show k + 1 ≤ j by omega) (by omega)) hlow))
          (ne_of_lt ps),
        hclip, lerp_inverse (ne_of_lt vs) (ne_of_lt ps)]

/-- C4, as stated, fails: on `{(1000,0), (3000,1)}` with hard limits 400 and 2600 the value
9/10 lies strictly inside the table and `value_to_pulse` returns the pulse 2600, which
lies within the hard limits (it is the clamped pulse, with value 4/5); `pulse_to_value` of
2600 returns 4/5, not 9/10. -/
theorem round_trip_broken_by_clamp :
    2 ≤ steep_table.size ∧ pulses_increasing steep_table.calibration ∧
      values_increasing steep_table.calibration ∧ (0 : ℚ) < 9 / 10 ∧ (9 / 10 : ℚ) < 1 ∧
      (value_to_pulse sample_constants steep_table (9 / 10) 0 0).outs
        = Except.ok ⟨2600, 4 / 5⟩ ∧
      sample_constants.LOWER_HARD_LIMIT ≤ 2600 ∧ 2600 ≤ sample_constants.UPPER_HARD_LIMIT ∧
      (pulse_to_value sample_constants steep_table 2600 0 0).outs
        = Except.ok ⟨2600, 4 / 5⟩ ∧
      (4 / 5 : ℚ) ≠ 9 / 10 := by
  refine ⟨by decide, ?_, ?_, by norm_num, by norm_num, ?_, ?_, ?_, ?_, by norm_num⟩
  · norm_num [pulses_increasing, steep_table]
  · norm_num [values_increasing, steep_table]
  · simp [value_to_pulse, value_to_pulse_curve, value_to_pulse_clamp, seek_by_value,
      seek_by_pulse, index, map_float, steep_table, sample_constants,
      Calibration.calibration_size, bind, Except.bind, pure, Except.pure, MIN, MAX]
    norm_num
  · norm_num [sample_constants]
  · norm_num [sample_constants]
  · simp [pulse_to_value, pulse_to_value_curve, seek_by_pulse, index, map_float,
      steep_table, sample_constants, Calibration.calibration_size, bind, Except.bind, pure,
      Except.pure, MIN, MAX]
    norm_num

/-- Witness of C4, amended: the angular table at value 45. -/
theorem round_trip_inside_witness :
    ∃ p, (value_to_pulse sample_constants angular_table 45 0 0).outs = Except.ok ⟨p, 45⟩ ∧
      sample_constants.LOWER_HARD_LIMIT ≤ p ∧ p ≤ sample_constants.UPPER_HARD_LIMIT ∧
      (pulse_to_value sample_constants angular_table p 0 0).outs = Except.ok ⟨p, 45⟩ :=
  round_trip_inside sample_constants angular_table 45 0 0 0 0 ⟨1000, -90⟩ ⟨2000, 90⟩
    (by decide) (by decide) (by norm_num [pulses_increasing, angular_table])
    (by norm_num [values_increasing, angular_table]) rfl rfl (by norm_num) (by norm_num)
    (by
      intro i lo hi h1 h2 h3 h4
      match i, h1, h2 with
      | 0, h1, h2 =>
        simp [angular_table] at h1 h2
        subst h1 h2
        norm_num at h4
      | 1, h1, h2 =>
        simp [angular_table] at h1 h2
        subst h1 h2
        norm_num [sample_constants]
      | 2, h1, h2 => simp [angular_table] at h2
      | n + 3, h1, h2 => simp [angular_table] at h1)

/-- C9 fails on a table of 258 points: `last` is `257 % 256 = 1`, so on the uniform table
`(1000 + i, i)`, with both limits on, the interior value 5/2 is taken to lie above the
table and yields point 1, `(1001, 1)`, although its lowest bracketing segment is
`[2, 3]`, whose interpolation `1002.5` lies within the hard limits. -/
theorem value_to_pulse_long_table_misses_segment :
    long_table.size = 258 ∧ pulses_increasing long_table.calibration ∧
      values_increasing long_table.calibration ∧
      long_table.calibration[0]? = some ⟨1000, 0⟩ ∧
      long_table.calibration[257]? = some ⟨1257, 257⟩ ∧
      long_table.calibration[2]? = some ⟨1002, 2⟩ ∧
      long_table.calibration[3]? = some ⟨1003, 3⟩ ∧
      ((0 : ℚ) ≤ 5 / 2 ∧ (5 / 2 : ℚ) ≤ 257 ∧ ¬ (5 / 2 : ℚ) ≤ 1 ∧ ¬ (5 / 2 : ℚ) ≤ 2 ∧
        (5 / 2 : ℚ) ≤ 3) ∧
      (sample_constants.LOWER_HARD_LIMIT ≤ (5 / 2 - 2) * (1003 - 1002) / (3 - 2) + 1002 ∧
        (5 / 2 - 2) * (1003 - 1002) / (3 - 2) + 1002 ≤ sample_constants.UPPER_HARD_LIMIT) ∧
      (value_to_pulse sample_constants long_table (5 / 2) 0 0).outs = Except.ok ⟨1001, 1⟩ ∧
      (1001 : ℚ) ≠ (5 / 2 - 2) * (1003 - 1002) / (3 - 2) + 1002 := by
  have hlen : long_table.calibration.length = 258 := long_points_length
  have hnth : ∀ i, i < 258 → nth long_table.calibration i = ⟨((1000 + i : ℕ) : ℚ), (i : ℚ)⟩ :=
    long_points_nth
  have hget : ∀ i, i < 258 →
      long_table.calibration[i]? = some ⟨((1000 + i : ℕ) : ℚ), (i : ℚ)⟩ := by
    intro i hi
    rw [lookup_nth (by rw [hlen]; exact hi), hnth i hi]
  refine ⟨hlen, long_points_increasing.1, long_points_increasing.2, ?_, ?_, ?_, ?_,
    by norm_num, by norm_num [sample_constants], ?_, by norm_num⟩
  · rw [hget 0 (by decide)]; norm_num
  · rw [hget 257 (by decide)]; norm_num
  · rw [hget 2 (by decide)]; norm_num
  · rw [hget 3 (by decide)]; norm_num
  · have hl : (long_table.calibration.length - 1) % 256 = 1 := by rw [hlen]
    rw [value_to_pulse_outs (by rw [hlen]; decide), hl,
      curve_above_limit (by rw [hlen]; decide) (by rw [hnth 0 (by decide)]; norm_num)
        (by rw [hnth 1 (by decide)]; norm_num) rfl,
      hnth 1 (by decide)]
    rw [ok_bind, clamp_idle (by norm_num [sample_constants])
      (by norm_num [sample_constants])]
    norm_num

/-- C8 fails on a table of 258 points: `last` is `257 % 256 = 1`, so on the table
`(1000 + i, i)` whose last pulse is raised to 2000, with the upper limit off, the value 258
is extrapolated along segment `[0, 1]` to the pulse 1258, although its extrapolation along
the last segment `[256, 257]` is 2744, above `UPPER_HARD_LIMIT = 2600`. -/
theorem value_to_pulse_long_table_misses_override :
    kinked_table.size = 258 ∧ pulses_increasing kinked_table.calibration ∧
      values_increasing kinked_table.calibration ∧ kinked_table.limit_upper = false ∧
      kinked_table.calibration[256]? = some ⟨1256, 256⟩ ∧
      kinked_table.calibration[257]? = some ⟨2000, 257⟩ ∧
      (2000 : ℚ) ≤ sample_constants.UPPER_HARD_LIMIT ∧ (257 : ℚ) < 258 ∧
      sample_constants.UPPER_HARD_LIMIT < (258 - 256) * (2000 - 1256) / (257 - 256) + 1256 ∧
      (value_to_pulse sample_constants kinked_table 258 0 0).outs = Except.ok ⟨1258, 258⟩ ∧
      (1258 : ℚ) ≠ sample_constants.UPPER_HARD_LIMIT := by
  have hlen : kinked_table.calibration.length = 258 := kinked_points_length
  have hnth : ∀ i, i < 258 → nth kinked_table.calibration i =
      ⟨((1000 + i + 743 * (i - 256) : ℕ) : ℚ), (i : ℚ)⟩ := kinked_points_nth
  have hget : ∀ i, i < 258 → kinked_table.calibration[i]? =
      some ⟨((1000 + i + 743 * (i - 256) : ℕ) : ℚ), (i : ℚ)⟩ := by
    intro i hi
    rw [lookup_nth (by rw [hlen]; exact hi), hnth i hi]
  refine ⟨hlen, kinked_points_increasing.1, kinked_points_increasing.2, rfl, ?_, ?_,
    by norm_num [sample_constants], by norm_num, by norm_num [sample_constants], ?_,
    by norm_num [sample_constants]⟩
  · rw [hget 256 (by decide)]; norm_num
  · rw [hget 257 (by decide)]; norm_num
  · have hl : (kinked_table.calibration.length - 1) % 256 = 1 := by rw [hlen]
    rw [value_to_pulse_outs (by rw [hlen]; decide), hl,
      curve_above_free (by decide) (by rw [hlen]; decide)
        (by rw [hnth 0 (by decide)]; norm_num) (by rw [hnth 1 (by decide)]; norm_num) rfl
        (by rw [hnth 0 (by decide), hnth 1 (by decide)]; norm_num),
      hnth 0 (by decide), hnth 1 (by decide), ok_bind,
      clamp_idle (by norm_num [sample_constants, lerp])
        (by norm_num [sample_constants, lerp])]
    norm_num [lerp]

/-- C10 fails: `pulse_to_value` stores the clamped pulse in `pulse_out` but goes on with
the unclamped `pulse`.  On `{(1000,0), (2000,1)}` with the upper limit off and hard limits
400 and 2600, the pulse 2700 yields the value 17/10 (with pulse 2600), while its clamp
2600 yields the value 8/5. -/
theorem pulse_to_value_ignores_clamp :
    2 ≤ linear_table.size ∧
      MIN (MAX 2700 sample_constants.LOWER_HARD_LIMIT) sample_constants.UPPER_HARD_LIMIT
        = 2600 ∧
      (pulse_to_value sample_constants linear_table 2700 0 0).outs
        = Except.ok ⟨2600, 17 / 10⟩ ∧
      (pulse_to_value sample_constants linear_table 2600 0 0).outs
        = Except.ok ⟨2600, 8 / 5⟩ ∧
      (17 / 10 : ℚ) ≠ 8 / 5 := by
  refine ⟨by decide, by norm_num [MIN, MAX, sample_constants], ?_, ?_, by norm_num⟩
  · simp [pulse_to_value, pulse_to_value_curve, seek_by_pulse, index, map_float,
      linear_table, sample_constants, Calibration.calibration_size, bind, Except.bind, pure,
      Except.pure, MIN, MAX]
    norm_num
  · simp [pulse_to_value, pulse_to_value_curve, seek_by_pulse, index, map_float,
      linear_table, sample_constants, Calibration.calibration_size, bind, Except.bind, pure,
      Except.pure, MIN, MAX]
    norm_num

/-- C11, amended: with `limit_lower` set, on a table of at least 2 points with strictly
increasing pulses, a pulse strictly below the first pulse whose clamp to the hard limits
is also strictly below it makes `pulse_to_value` return exactly the first point's value
and pulse; with `limit_upper` set, on such a table of at most 256 points, a pulse strictly
above the last pulse whose clamp is also strictly above it makes it return exactly the
last point's value and pulse. -/
theorem pulse_to_value_snaps_to_endpoint (K : Constants) (c : Calibration) (p v0 p0 : ℚ)
    (first top : Point) (h2 : 2 ≤ c.size) (hp : pulses_increasing c.calibration)
    (hfirst : c.calibration[0]? = some first)
    (htop : c.calibration[c.size - 1]? = some top) :
    (c.limit_lower = true → p < first.pulse →
        MIN (MAX p K.LOWER_HARD_LIMIT) K.UPPER_HARD_LIMIT < first.pulse →
        (pulse_to_value K c p v0 p0).outs = Except.ok ⟨first.pulse, first.value⟩) ∧
      (c.limit_upper = true → c.size ≤ 256 → top.pulse < p →
        top.pulse < MIN (MAX p K.LOWER_HARD_LIMIT) K.UPPER_HARD_LIMIT →
        (pulse_to_value K c p v0 p0).outs = Except.ok ⟨top.pulse, top.value⟩) := by
  have h2l : 2 ≤ c.calibration.length := h2
  obtain ⟨hf, -⟩ := nth_of_lookup hfirst
  obtain ⟨ht, htl⟩ := nth_of_lookup htop
  have hts : c.size = c.calibration.length := rfl
  rw [hts] at ht htl
  constructor
  · intro hl _ hq
    rw [pulse_to_value_outs h2l, inverse_below_limit (by omega) (by rw [hf]; exact hq) hl, hf]
  · intro hl h256 hgt hq
    have h256l : c.calibration.length ≤ 256 := h256
    have hle := pulses_le_nth hp (Nat.zero_le (c.calibration.length - 1)) htl
    rw [hf, ht] at hle
    rw [pulse_to_value_outs h2l, last_eq h256l,
      inverse_above_limit htl (by rw [hf]; exact not_lt.mpr (le_trans hle hq.le))
        (by rw [ht]; exact hgt) hl, ht]

/-- C11, as stated, fails in two ways.  With `limit_lower` set and the first pulse (300)
below the lower hard limit (400), the pulse 200 is clamped to 400 first, which is not
below the first pulse, so the first point is not returned; and with `limit_upper` set and
the whole table above the upper hard limit (2600), the pulse 5000 is clamped to 2600,
below the first pulse, and the first point is returned, not the last. -/
theorem pulse_to_value_snap_missed :
    (2 ≤ low_table.size ∧ pulses_increasing low_table.calibration ∧
        low_table.limit_lower = true ∧ low_table.calibration[0]? = some ⟨300, 0⟩ ∧
        (200 : ℚ) < 300 ∧
        (pulse_to_value sample_constants low_table 200 0 0).outs
          = Except.ok ⟨400, -1 / 17⟩) ∧
      (2 ≤ high_table.size ∧ pulses_increasing high_table.calibration ∧
        high_table.limit_upper = true ∧
        high_table.calibration[high_table.size - 1]? = some ⟨4000, 1⟩ ∧
        (4000 : ℚ) < 5000 ∧
        (pulse_to_value sample_constants high_table 5000 0 0).outs
          = Except.ok ⟨3000, 0⟩) := by
  refine ⟨⟨by decide, ?_, rfl, rfl, by norm_num, ?_⟩, ⟨by decide, ?_, rfl, rfl, by norm_num, ?_⟩⟩
  · norm_num [pulses_increasing, low_table]
  · simp [pulse_to_value, pulse_to_value_curve, seek_by_pulse, index, map_float,
      low_table, sample_constants, Calibration.calibration_size, bind, Except.bind, pure,
      Except.pure, MIN, MAX]
    norm_num
  · norm_num [pulses_increasing, high_table]
  · simp [pulse_to_value, pulse_to_value_curve, index, high_table, sample_constants,
      Calibration.calibration_size, bind, Except.bind, pure, Except.pure, MIN, MAX]
    norm_num

/-- Witness of C11, amended: the angular table at the pulses 900 and 2100. -/
theorem pulse_to_value_snaps_to_endpoint_witness :
    (pulse_to_value sample_constants angular_table 900 0 0).outs = Except.ok ⟨1000, -90⟩ ∧
      (pulse_to_value sample_constants angular_table 2100 0 0).outs = Except.ok ⟨2000, 90⟩ :=
  ⟨(pulse_to_value_snaps_to_endpoint sample_constants angular_table 900 0 0
      ⟨1000, -90⟩ ⟨2000, 90⟩ (by decide) (by norm_num [pulses_increasing, angular_table])
      rfl rfl).1 rfl (by norm_num) (by norm_num [MIN, MAX, sample_constants]),
   (pulse_to_value_snaps_to_endpoint sample_constants angular_table 2100 0 0
      ⟨1000, -90⟩ ⟨2000, 90⟩ (by decide) (by norm_num [pulses_increasing, angular_table])
      rfl rfl).2 rfl (by decide) (by norm_num) (by norm_num [MIN, MAX, sample_constants])⟩

/-- C12: for every table and every index of the parameter type (`uint8_t`, below 256),
`point_at` addresses the element at that index when the index is below `size()` (and
that element exists in the table) and returns null otherwise; `first_point` and
`last_point` return null exactly when `size()` is 0 and otherwise address the elements at
index 0 and `size() - 1`, both inside the table. -/
theorem accessors_stay_inside (c : Calibration) (index : ℕ) (h : index < 256) :
    (index < c.size → c.point_at index = some index ∧ ∃ p, c.calibration[index]? = some p) ∧
      (¬ index < c.size → c.point_at index = none) ∧
      (c.first_point = none ↔ c.size = 0) ∧ (c.last_point = none ↔ c.size = 0) ∧
      (0 < c.size → c.first_point = some 0 ∧ c.last_point = some (c.size - 1) ∧
        (∃ p, c.calibration[0]? = some p) ∧ ∃ q, c.calibration[c.size - 1]? = some q) := by
  have hm : index % 256 = index := Nat.mod_eq_of_lt h
  have hs : c.size = c.calibration.length := rfl
  refine ⟨?_, ?_, ?_, ?_, ?_⟩
  · intro hi
    rw [hs] at hi
    refine ⟨by simp [Calibration.point_at, Calibration.calibration_size, hm, hi], ?_⟩
    exact ⟨_, lookup_nth hi⟩
  · intro hi
    rw [hs] at hi
    simp [Calibration.point_at, Calibration.calibration_size, hm, hi]
  · rw [hs]
    by_cases h0 : 0 < c.calibration.length
    · simp [Calibration.first_point, Calibration.calibration_size, h0]
      exact List.ne_nil_of_length_pos h0
    · have : c.calibration.length = 0 := by omega
      simp [Calibration.first_point, Calibration.calibration_size, this]
  · rw [hs]
    by_cases h0 : 0 < c.calibration.length
    · simp [Calibration.last_point, Calibration.calibration_size, h0]
      exact List.ne_nil_of_length_pos h0
    · have : c.calibration.length = 0 := by omega
      simp [Calibration.last_point, Calibration.calibration_size, this]
  · intro h0
    rw [hs] at h0 ⊢
    refine ⟨by simp [Calibration.first_point, Calibration.calibration_size, h0],
      by simp [Calibration.last_point, Calibration.calibration_size, h0],
      ⟨_, lookup_nth h0⟩, ⟨_, lookup_nth (by omega)⟩⟩

/-- Witness of C12: the angular table at index 1, inside, and at index 3, outside. -/
theorem accessors_stay_inside_witness :
    (angular_table.point_at 1 = some 1 ∧ ∃ p, angular_table.calibration[1]? = some p) ∧
      angular_table.point_at 3 = none :=
  ⟨(accessors_stay_inside angular_table 1 (by decide)).1 (by decide),
   (accessors_stay_inside angular_table 3 (by decide)).2.1 (by decide)⟩

/-- C14: `apply_default` builds `{(MIN,-90), (MID,0), (MAX,90)}` for `ANGULAR`,
`{(MIN,0), (MAX,1)}` for `LINEAR` and `{(MIN,-1), (MID,0), (MAX,1)}` for `CONTINUOUS`
from the default pulse constants, and treats any other kind as `ANGULAR`. -/
theorem apply_default_presets (K : Constants) (c : Calibration) :
    (c.apply_default K CalibrationType.ANGULAR).calibration =
        [⟨K.DEFAULT_MIN_PULSE, -90⟩, ⟨K.DEFAULT_MID_PULSE, 0⟩, ⟨K.DEFAULT_MAX_PULSE, 90⟩] ∧
      (c.apply_default K CalibrationType.LINEAR).calibration =
        [⟨K.DEFAULT_MIN_PULSE, 0⟩, ⟨K.DEFAULT_MAX_PULSE, 1⟩] ∧
      (c.apply_default K CalibrationType.CONTINUOUS).calibration =
        [⟨K.DEFAULT_MIN_PULSE, -1⟩, ⟨K.DEFAULT_MID_PULSE, 0⟩, ⟨K.DEFAULT_MAX_PULSE, 1⟩] ∧
      ∀ raw, c.apply_default K (CalibrationType.other raw) =
        c.apply_default K CalibrationType.ANGULAR := by
  refine ⟨?_, ?_, ?_, fun raw => rfl⟩
  · simp [Calibration.apply_default, apply_three_point_calibration]
  · simp [Calibration.apply_default, apply_two_point_calibration]
  · simp [Calibration.apply_default, apply_three_point_calibration]

/-- C13: `apply_uniform(size, min_pulse, max_pulse, min_value, max_value)` with
`size >= 2` produces exactly `size` points, point `i` being
`(min_pulse + i*(max_pulse-min_pulse)/(size-1), min_value + i*(max_value-min_value)/(size-1))`;
the first point is `(min_pulse, min_value)`, the last is `(max_pulse, max_value)`,
consecutive points differ by the same pulse step and the same value step, and for
`size = 2` the result is the table of `apply_two_point`. -/
theorem apply_uniform_points (c : Calibration) (size : ℕ) (a b d e : ℚ) (h : 2 ≤ size) :
    ∃ r, c.apply_uniform size a b d e = Except.ok r ∧ r.size = size ∧
      (∀ i, i < size → r.calibration[i]? =
        some ⟨a + (i : ℚ) * (b - a) / ((size : ℚ) - 1),
              d + (i : ℚ) * (e - d) / ((size : ℚ) - 1)⟩) ∧
      r.calibration[0]? = some ⟨a, d⟩ ∧ r.calibration[size - 1]? = some ⟨b, e⟩ ∧
      (∀ i p q, r.calibration[i]? = some p → r.calibration[i + 1]? = some q →
        q.pulse - p.pulse = (b - a) / ((size : ℚ) - 1) ∧
        q.value - p.value = (e - d) / ((size : ℚ) - 1)) ∧
      (size = 2 → r = c.apply_two_point a b d e) := by
  have h1 : 1 ≤ size := by omega
  have hne : (size : ℚ) - 1 ≠ 0 := by
    have : (1 : ℚ) < (size : ℚ) := by exact_mod_cast (show 1 < size by omega)
    linarith
  have hpt : ∀ i, i < size →
      ((List.range size).map (uniform_point ((size - 1 : ℕ) : ℚ) a b d e))[i]? =
        some ⟨a + (i : ℚ) * (b - a) / ((size : ℚ) - 1),
              d + (i : ℚ) * (e - d) / ((size : ℚ) - 1)⟩ := by
    intro i hi
    rw [uniform_lookup _ a b d e hi, uniform_point_formula h1]
  refine ⟨_, apply_uniform_eq c h a b d e, ?_, hpt, ?_, ?_, ?_, ?_⟩
  · simp [Calibration.size, Calibration.calibration_size]
  · show ((List.range size).map (uniform_point ((size - 1 : ℕ) : ℚ) a b d e))[0]? = _
    rw [hpt 0 (by omega)]
    simp
  · show ((List.range size).map (uniform_point ((size - 1 : ℕ) : ℚ) a b d e))[size - 1]? = _
    rw [hpt (size - 1) (by omega), Nat.cast_sub h1]
    simp only [Nat.cast_one, Option.some.injEq, Point.mk.injEq]
    constructor <;> field_simp
  · intro i p q hp hq
    have hp' : ((List.range size).map (uniform_point ((size - 1 : ℕ) : ℚ) a b d e))[i]?
        = some p := hp
    have hq' : ((List.range size).map (uniform_point ((size - 1 : ℕ) : ℚ) a b d e))[i + 1]?
        = some q := hq
    have hi1 : i + 1 < size := by
      by_contra hc
      rw [List.getElem?_eq_none (by simp; omega)] at hq'
      exact absurd hq' (by simp)
    rw [hpt i (by omega)] at hp'
    rw [hpt (i + 1) hi1] at hq'
    cases hp'
    cases hq'
    simp only [Nat.cast_add, Nat.cast_one]
    constructor <;> field_simp <;> ring
  · intro h2
    subst h2
    have e2 := apply_two_point_calibration c a b d e
    have l2 := apply_two_point_limits c a b d e
    have : (List.range 2).map (uniform_point ((2 - 1 : ℕ) : ℚ) a b d e) = [⟨a, d⟩, ⟨b, e⟩] := by
      simp [List.range_succ, uniform_point, lerp]
    rw [this]
    cases hc : c.apply_two_point a b d e with
    | mk cal lo up =>
      rw [hc] at e2 l2
      simp only at e2 l2
      rw [e2, l2.1, l2.2]

/-- Witness of C13: five uniform points from `(1000, 0)` to `(2000, 1)`. -/
theorem apply_uniform_points_witness :
    ∃ r, angular_table.apply_uniform 5 1000 2000 0 1 = Except.ok r ∧ r.size = 5 ∧
      (∀ i, i < 5 → r.calibration[i]? =
        some ⟨1000 + (i : ℚ) * (2000 - 1000) / (((5 : ℕ) : ℚ) - 1),
              0 + (i : ℚ) * (1 - 0) / (((5 : ℕ) : ℚ) - 1)⟩) ∧
      r.calibration[0]? = some ⟨1000, 0⟩ ∧ r.calibration[5 - 1]? = some ⟨2000, 1⟩ ∧
      (∀ i p q, r.calibration[i]? = some p → r.calibration[i + 1]? = some q →
        q.pulse - p.pulse = (2000 - 1000) / (((5 : ℕ) : ℚ) - 1) ∧
        q.value - p.value = (1 - 0) / (((5 : ℕ) : ℚ) - 1)) ∧
      (5 = 2 → r = angular_table.apply_two_point 1000 2000 0 1) :=
  apply_uniform_points angular_table 5 1000 2000 0 1 (by decide)

/-- C19: for `size >= 2` and `min_pulse < max_pulse`, the table built by `apply_uniform`
has strictly increasing pulses, strictly increasing values when `min_value < max_value`,
and strictly decreasing values when `min_value > max_value`. -/
theorem apply_uniform_sorted (c : Calibration) (size : ℕ) (a b d e : ℚ) (h : 2 ≤ size)
    (hab : a < b) :
    ∃ r, c.apply_uniform size a b d e = Except.ok r ∧ pulses_increasing r.calibration ∧
      (d < e → values_increasing r.calibration) ∧
      (e < d → List.Sorted (· > ·) (r.calibration.map Point.value)) := by
  have hs : (0 : ℚ) < ((size - 1 : ℕ) : ℚ) := by
    have : 0 < size - 1 := by omega
    exact_mod_cast this
  have key : ∀ (x y : ℚ) (i j : ℕ), i < j →
      (x < y → lerp (i : ℚ) 0 ((size - 1 : ℕ) : ℚ) x y < lerp (j : ℚ) 0 ((size - 1 : ℕ) : ℚ) x y) ∧
      (y < x → lerp (j : ℚ) 0 ((size - 1 : ℕ) : ℚ) x y < lerp (i : ℚ) 0 ((size - 1 : ℕ) : ℚ) x y) := by
    intro x y i j hij
    have hq : (i : ℚ) < (j : ℚ) := by exact_mod_cast hij
    constructor
    · intro hxy
      exact lerp_strict_mono hs hxy hq
    · intro hyx
      have h1 : ((j : ℚ) - 0) * (y - x) < ((i : ℚ) - 0) * (y - x) :=
        mul_lt_mul_of_neg_right (by linarith) (by linarith)
      have h2 := div_lt_div_of_pos_right h1 (show (0 : ℚ) < ((size - 1 : ℕ) : ℚ) - 0 by linarith)
      unfold lerp
      linarith
  refine ⟨_, apply_uniform_eq c h a b d e, ?_, ?_, ?_⟩
  · show List.Pairwise _ _
    rw [List.map_map]
    refine List.Pairwise.map _ ?_ (List.pairwise_lt_range size)
    intro i j hij
    exact (key a b i j hij).1 hab
  · intro hde
    show List.Pairwise _ _
    rw [List.map_map]
    refine List.Pairwise.map _ ?_ (List.pairwise_lt_range size)
    intro i j hij
    exact (key d e i j hij).1 hde
  · intro hed
    show List.Pairwise _ _
    rw [List.map_map]
    refine List.Pairwise.map _ ?_ (List.pairwise_lt_range size)
    intro i j hij
    exact (key d e i j hij).2 hed

/-- Witness of C19: five uniform points from `(1000, 0)` to `(2000, 1)`. -/
theorem apply_uniform_sorted_witness :
    ∃ r, angular_table.apply_uniform 5 1000 2000 0 1 = Except.ok r ∧
      pulses_increasing r.calibration ∧
      ((0 : ℚ) < 1 → values_increasing r.calibration) ∧
      ((1 : ℚ) < 0 → List.Sorted (· > ·) (r.calibration.map Point.value)) :=
  apply_uniform_sorted angular_table 5 1000 2000 0 1 (by decide) (by norm_num)

/-- C15: every builder produces a table that depends only on its arguments, not on the
previous table (`apply_blank(size)` gives `size` points `(0, 0)`, none for `size = 0`),
and leaves `limit_lower` and `limit_upper` as they were; `limit_to_calibration(lower,
upper)` sets the two flags to `lower` and `upper` and leaves the size and every point of
the table as they were. -/
theorem builders_and_limits_frame (K : Constants) (c c' : Calibration) (size : ℕ)
    (a b d e f g : ℚ) (kind : CalibrationType) (lower upper : Bool) :
    ((c.apply_blank size).calibration = List.replicate size ⟨0, 0⟩ ∧
        (c.apply_blank 0).calibration = []) ∧
      ((c.apply_blank size).calibration = (c'.apply_blank size).calibration ∧
        (c.apply_two_point a b d e).calibration = (c'.apply_two_point a b d e).calibration ∧
        (c.apply_three_point a b d e f g).calibration
          = (c'.apply_three_point a b d e f g).calibration ∧
        (c.apply_default K kind).calibration = (c'.apply_default K kind).calibration ∧
        (c.apply_uniform size a b d e).map Calibration.calibration
          = (c'.apply_uniform size a b d e).map Calibration.calibration) ∧
      (((c.apply_blank size).limit_lower = c.limit_lower ∧
          (c.apply_blank size).limit_upper = c.limit_upper) ∧
        ((c.apply_two_point a b d e).limit_lower = c.limit_lower ∧
          (c.apply_two_point a b d e).limit_upper = c.limit_upper) ∧
        ((c.apply_three_point a b d e f g).limit_lower = c.limit_lower ∧
          (c.apply_three_point a b d e f g).limit_upper = c.limit_upper) ∧
        ((c.apply_default K kind).limit_lower = c.limit_lower ∧
          (c.apply_default K kind).limit_upper = c.limit_upper) ∧
        (∀ r, c.apply_uniform size a b d e = Except.ok r →
          r.limit_lower = c.limit_lower ∧ r.limit_upper = c.limit_upper) ∧
        (size ≠ 1 → ∃ r, c.apply_uniform size a b d e = Except.ok r)) ∧
      ((c.limit_to_calibration lower upper).has_lower_limit = lower ∧
        (c.limit_to_calibration lower upper).has_upper_limit = upper ∧
        (c.limit_to_calibration lower upper).size = c.size ∧
        (c.limit_to_calibration lower upper).calibration = c.calibration) := by
  refine ⟨⟨apply_blank_calibration c size, rfl⟩, ⟨?_, ?_, ?_, ?_, ?_⟩,
    ⟨apply_blank_limits c size, apply_two_point_limits c a b d e,
      apply_three_point_limits c a b d e f g, ?_, ?_, ?_⟩, ⟨rfl, rfl, rfl, rfl⟩⟩
  · rw [apply_blank_calibration, apply_blank_calibration]
  · rw [apply_two_point_calibration, apply_two_point_calibration]
  · rw [apply_three_point_calibration, apply_three_point_calibration]
  · cases kind <;>
      simp [Calibration.apply_default, apply_two_point_calibration,
        apply_three_point_calibration]
  · rw [apply_uniform_frame c, apply_uniform_frame c']
    cases (if size > 0 then
        fill_uniform ((size - 1 : ℕ) : ℚ) a b d e size 0 (List.replicate size ⟨0, 0⟩)
      else Except.ok []) <;> rfl
  · cases kind <;>
      simp [Calibration.apply_default, apply_two_point_limits, apply_three_point_limits]
  · intro r hr
    rw [apply_uniform_frame c] at hr
    cases hfill : (if size > 0 then
        fill_uniform ((size - 1 : ℕ) : ℚ) a b d e size 0 (List.replicate size ⟨0, 0⟩)
      else Except.ok []) with
    | error err =>
      rw [hfill] at hr
      exact absurd hr (by simp [Except.map])
    | ok cal =>
      rw [hfill] at hr
      simp only [Except.map, Except.ok.injEq] at hr
      subst hr
      exact ⟨rfl, rfl⟩
  · intro h1
    rcases Nat.lt_or_ge size 2 with hlt | hge
    · have h0 : size = 0 := by omega
      subst h0
      exact ⟨_, rfl⟩
    · exact ⟨_, apply_uniform_eq c hge a b d e⟩

/-- Witness of C15: rebuilding the angular table as five uniform points keeps both limit
flags, and so does a three-point table built from a two-point table with the upper limit
off. -/
theorem builders_and_limits_frame_witness :
    (∃ r, angular_table.apply_uniform 5 1000 2000 0 1 = Except.ok r) ∧
      (linear_table.apply_three_point 1000 1500 2000 0 1 2).limit_upper
        = linear_table.limit_upper :=
  ⟨(builders_and_limits_frame sample_constants angular_table linear_table 5 1000 2000 0 1 0 0
      CalibrationType.LINEAR true true).2.2.1.2.2.2.2.2 (by decide),
   (builders_and_limits_frame sample_constants linear_table angular_table 5 1000 1500 2000 0
      1 2 CalibrationType.LINEAR true true).2.2.1.2.2.1.2⟩

/-- C16 fails on a table of 257 points: `last` is `256 % 256 = 0`.  On the uniform table
`(1000 + i, i)` with both limits on, the value 5 yields `(1000, 0)`; the value 0 then
matches neither end test, the segment loop does not run, and `pulse_out` keeps what the
caller had in it (here 0), which the hard-limit pass turns into `(400, -600)`. -/
theorem value_to_pulse_not_idempotent_on_wrapped_table :
    wrapped_table.size = 257 ∧ pulses_increasing wrapped_table.calibration ∧
      values_increasing wrapped_table.calibration ∧
      sample_constants.LOWER_HARD_LIMIT ≤ sample_constants.UPPER_HARD_LIMIT ∧
      (value_to_pulse sample_constants wrapped_table 5 0 0).outs = Except.ok ⟨1000, 0⟩ ∧
      (value_to_pulse sample_constants wrapped_table 0 0 0).outs = Except.ok ⟨400, -600⟩ := by
  have hlen : wrapped_table.calibration.length = 257 := wrapped_points_length
  have hnth : ∀ i, i < 257 →
      nth wrapped_table.calibration i = ⟨((1000 + i : ℕ) : ℚ), (i : ℚ)⟩ := wrapped_points_nth
  have hl : (wrapped_table.calibration.length - 1) % 256 = 0 := by rw [hlen]
  refine ⟨hlen, wrapped_points_increasing.1, wrapped_points_increasing.2,
    by norm_num [sample_constants], ?_, ?_⟩
  · rw [value_to_pulse_outs (by rw [hlen]; decide), hl,
      curve_above_limit (by rw [hlen]; decide) (by rw [hnth 0 (by decide)]; norm_num)
        (by rw [hnth 0 (by decide)]; norm_num) rfl,
      hnth 0 (by decide), ok_bind,
      clamp_idle (by norm_num [sample_constants]) (by norm_num [sample_constants])]
    norm_num
  · rw [value_to_pulse_outs (by rw [hlen]; decide), hl,
      curve_last_zero_idle (by rw [hlen]; decide) (by rw [hnth 0 (by decide)]; norm_num),
      ok_bind,
      clamp_below (by rw [hlen]; decide) (Or.inl (by norm_num [sample_constants]))
        (by rw [hnth 0 (by decide)]; norm_num [clip, MIN, MAX, sample_constants])
        (by rw [hnth 0 (by decide), hnth 1 (by decide)]; norm_num),
      hnth 0 (by decide), hnth 1 (by decide)]
    norm_num [clip, MIN, MAX, sample_constants, lerp]

/-- C17 fails on a table of 258 points: `last` is `257 % 256 = 1`.  On the uniform table
`(1000 + i, i)` with both limits on, the pulse 1002.5 lies between the first and the last
pulse and within the hard limits, its lowest bracketing segment is `[2, 3]` with
interpolated value 5/2, but it is taken to lie above the table and `pulse_to_value`
returns point 1, value 1 with pulse 1001. -/
theorem pulse_to_value_long_table_misses_segment :
    long_table.size = 258 ∧ pulses_increasing long_table.calibration ∧
      values_increasing long_table.calibration ∧
      long_table.calibration[0]? = some ⟨1000, 0⟩ ∧
      long_table.calibration[257]? = some ⟨1257, 257⟩ ∧
      long_table.calibration[2]? = some ⟨1002, 2⟩ ∧
      long_table.calibration[3]? = some ⟨1003, 3⟩ ∧
      ((1000 : ℚ) ≤ 2005 / 2 ∧ (2005 / 2 : ℚ) ≤ 1257 ∧ ¬ (2005 / 2 : ℚ) ≤ 1001 ∧
        ¬ (2005 / 2 : ℚ) ≤ 1002 ∧ (2005 / 2 : ℚ) ≤ 1003) ∧
      (sample_constants.LOWER_HARD_LIMIT ≤ 2005 / 2 ∧
        2005 / 2 ≤ sample_constants.UPPER_HARD_LIMIT) ∧
      (pulse_to_value sample_constants long_table (2005 / 2) 0 0).outs
        = Except.ok ⟨1001, 1⟩ ∧
      (1001 : ℚ) ≠ 2005 / 2 ∧ (1 : ℚ) ≠ (2005 / 2 - 1002) * (3 - 2) / (1003 - 1002) + 2 := by
  have hlen : long_table.calibration.length = 258 := long_points_length
  have hnth : ∀ i, i < 258 → nth long_table.calibration i = ⟨((1000 + i : ℕ) : ℚ), (i : ℚ)⟩ :=
    long_points_nth
  have hget : ∀ i, i < 258 →
      long_table.calibration[i]? = some ⟨((1000 + i : ℕ) : ℚ), (i : ℚ)⟩ := by
    intro i hi
    rw [lookup_nth (by rw [hlen]; exact hi), hnth i hi]
  have hclip : clip sample_constants (2005 / 2) = 2005 / 2 :=
    clip_of_mem (by norm_num [sample_constants]) (by norm_num [sample_constants])
  refine ⟨hlen, long_points_increasing.1, long_points_increasing.2, ?_, ?_, ?_, ?_,
    by norm_num, by norm_num [sample_constants], ?_, by norm_num, by norm_num⟩
  · rw [hget 0 (by decide)]; norm_num
  · rw [hget 257 (by decide)]; norm_num
  · rw [hget 2 (by decide)]; norm_num
  · rw [hget 3 (by decide)]; norm_num
  · have hl : (long_table.calibration.length - 1) % 256 = 1 := by rw [hlen]
    rw [pulse_to_value_outs (by rw [hlen]; decide), hl,
      inverse_above_limit (by rw [hlen]; decide)
        (by rw [hclip, hnth 0 (by decide)]; norm_num)
        (by rw [hnth 1 (by decide)]; norm_num) rfl,
      hnth 1 (by decide)]
    norm_num

/-- C18 fails on a table of 257 points: `last` is `256 % 256 = 0`, not `n - 1 = 256`, and
the index `last - 1` is `-1`.  On the uniform table `(1000 + i, i)` with the upper limit
off, `value_to_pulse(5)` and `pulse_to_value(1005)` both read `calibration[-1]`. -/
theorem mapping_reads_before_the_table :
    wrapped_free_table.size = 257 ∧
      (wrapped_free_table.calibration_size - 1) % 256 = 0 ∧
      (wrapped_free_table.calibration_size - 1) % 256 ≠ wrapped_free_table.size - 1 ∧
      index wrapped_free_table.calibration
        ((((wrapped_free_table.calibration_size - 1) % 256 : ℕ) : ℤ) - 1)
        = Except.error Fault.out_of_bounds ∧
      (value_to_pulse sample_constants wrapped_free_table 5 0 0).outs
        = Except.error Fault.out_of_bounds ∧
      (pulse_to_value sample_constants wrapped_free_table 1005 0 0).outs
        = Except.error Fault.out_of_bounds := by
  have hlen : wrapped_free_table.calibration.length = 257 := wrapped_points_length
  have hsize : wrapped_free_table.calibration_size = 257 := hlen
  have hs : wrapped_free_table.size = 257 := hlen
  have hnth : ∀ i, i < 257 →
      nth wrapped_free_table.calibration i = ⟨((1000 + i : ℕ) : ℚ), (i : ℚ)⟩ :=
    wrapped_points_nth
  have hl : (wrapped_free_table.calibration.length - 1) % 256 = 0 := by rw [hlen]
  have hfree : wrapped_free_table.limit_upper = false := rfl
  refine ⟨hs, by rw [hsize], by rw [hsize, hs]; decide, ?_, ?_, ?_⟩
  · rw [hsize]
    simp [index]
  · rw [value_to_pulse_outs (by rw [hlen]; decide), hl,
      curve_last_zero_reads_before (by rw [hlen]; decide)
        (by rw [hnth 0 (by decide)]; norm_num) hfree]
    rfl
  · rw [pulse_to_value_outs (by rw [hlen]; decide), hl,
      inverse_last_zero_reads_before (by rw [hlen]; decide)
        (by rw [hnth 0 (by decide)]; norm_num [clip, MIN, MAX, sample_constants])
        (by rw [hnth 0 (by decide)]; norm_num) hfree]

/-- C7, amended: with `limit_lower` off, on a table of at least 2 points whose first two
points have strictly increasing pulse and value, for a value strictly below the first
value.  In binary32, when the first pulse is a binary32 number and the extrapolation along
the first segment, as `map_float` computes it, lies between the hard limits,
`value_to_pulse` returns that computed pulse, which is at most (not always strictly below)
the first pulse, and the value itself as the effective value.  In exact arithmetic (no
operation rounds), when the extrapolation lies between the hard limits, the returned pulse
is exactly the extrapolation, strictly below the first pulse, and the effective value is
the value itself. -/
theorem value_to_pulse_extrapolates_below_rounded_and_exact (K : Constants)
    (c : Calibration) (v : ℚ) (p0 v0 : Flt) (a b : Point) (h2 : 2 ≤ c.size)
    (hl : c.limit_lower = false)
    (ha : c.calibration[0]? = some a) (hb : c.calibration[1]? = some b)
    (hp : a.pulse < b.pulse) (hv : a.value < b.value) (hlt : v < a.value) :
    (∀ q : ℚ, round32 a.pulse = Flt.fin a.pulse →
      map_float_fl float32 (Flt.fin v) (Flt.fin a.value) (Flt.fin b.value) (Flt.fin a.pulse)
        (Flt.fin b.pulse) = Flt.fin q →
      K.LOWER_HARD_LIMIT ≤ q → q ≤ K.UPPER_HARD_LIMIT →
      (value_to_pulse_fl float32 K c.to_float (Flt.fin v) p0 v0).outs =
          Except.ok ⟨Flt.fin q, Flt.fin v⟩ ∧ q ≤ a.pulse) ∧
    (K.LOWER_HARD_LIMIT ≤
        (v - a.value) * (b.pulse - a.pulse) / (b.value - a.value) + a.pulse →
      (v - a.value) * (b.pulse - a.pulse) / (b.value - a.value) + a.pulse
        ≤ K.UPPER_HARD_LIMIT →
      (value_to_pulse_fl exact K c.to_float (Flt.fin v) p0 v0).outs =
          Except.ok ⟨Flt.fin
            ((v - a.value) * (b.pulse - a.pulse) / (b.value - a.value) + a.pulse),
            Flt.fin v⟩ ∧
        (v - a.value) * (b.pulse - a.pulse) / (b.value - a.value) + a.pulse < a.pulse) := by
  have h2l : 2 ≤ c.calibration.length := h2
  have h2f : 2 ≤ c.to_float.calibration.length := by rw [to_float_length]; exact h2l
  obtain ⟨hna, -⟩ := nth_of_lookup ha
  obtain ⟨hnb, -⟩ := nth_of_lookup hb
  have v0e := to_float_nth_value c (i := 0) (by omega)
  have p0e := to_float_nth_pulse c (i := 0) (by omega)
  have v1e := to_float_nth_value c (i := 1) (by omega)
  have p1e := to_float_nth_pulse c (i := 1) (by omega)
  rw [hna] at v0e p0e
  rw [hnb] at v1e p1e
  have hne : ¬ b.value - a.value = 0 := by linarith
  constructor
  · intro q hrep hq hL hU
    constructor
    · rw [value_to_pulse_fl_outs float32 K h2f,
        curve_fl_below_free float32 (by omega) (by rw [v0e]; simpa [Flt.lt] using hlt) hl,
        v0e, v1e, p0e, p1e, hq, ok_bind]
      exact clamp_fl_idle float32 (by simp [Flt.lt, Flt.gt, hL, hU])
    · have := map_float32_le_left hv.le hp.le hrep hlt.le
      rw [hq] at this
      rcases this with h | h | h
      · cases h
      · cases h
      · simpa [Flt.le] using h
  · intro hL hU
    constructor
    · rw [value_to_pulse_fl_outs exact K h2f,
        curve_fl_below_free exact (by omega) (by rw [v0e]; simpa [Flt.lt] using hlt) hl,
        v0e, v1e, p0e, p1e, map_float_exact, if_neg hne, ok_bind]
      exact clamp_fl_idle exact (by simp [Flt.lt, Flt.gt, lerp, hL, hU])
    · have := lerp_strict_mono hv hp hlt
      rw [lerp_left] at this
      exact this

/-- C7, as stated, fails in binary32: on `{(500,0), (2500,1)}` with `limit_lower` off, the
value `-2^-30` lies strictly below the first value and its extrapolation
`500 - 2000 * 2^-30` lies between the hard limits 400 and 2600, yet the sum
`-2000 * 2^-30 + 500` rounds to 500: the returned pulse is the first pulse itself, not
strictly less, and not the linear extrapolation. -/
theorem value_to_pulse_extrapolation_rounds_to_first_pulse :
    2 ≤ unit_table.size ∧ unit_table.limit_lower = false ∧
      unit_table.calibration[0]? = some ⟨500, 0⟩ ∧
      unit_table.calibration[1]? = some ⟨2500, 1⟩ ∧
      (500 : ℚ) < 2500 ∧ (0 : ℚ) < 1 ∧ (-1 / 2 ^ 30 : ℚ) < 0 ∧
      round32 (-1 / 2 ^ 30) = Flt.fin (-1 / 2 ^ 30) ∧
      sample_constants.LOWER_HARD_LIMIT ≤ (-1 / 2 ^ 30 - 0) * (2500 - 500) / (1 - 0) + 500 ∧
      (-1 / 2 ^ 30 - 0) * (2500 - 500) / (1 - 0) + 500 ≤ sample_constants.UPPER_HARD_LIMIT ∧
      (value_to_pulse_fl float32 sample_constants unit_table.to_float (Flt.fin (-1 / 2 ^ 30))
        (Flt.fin 0) (Flt.fin 0)).outs = Except.ok ⟨Flt.fin 500, Flt.fin (-1 / 2 ^ 30)⟩ ∧
      (Flt.fin 500).lt (Flt.fin 500) = false ∧
      ((-1 / 2 ^ 30 - 0) * (2500 - 500) / (1 - 0) + 500 : ℚ) ≠ 500 := by
  refine ⟨by decide, rfl, rfl, rfl, by norm_num, by norm_num, by norm_num, by decide!,
    by norm_num [sample_constants], by norm_num [sample_constants], by decide!, by decide!,
    by norm_num⟩

/-- Witness of C7, amended: the table `{(1000,0), (2000,1)}` with the lower limit off at
-1/2, where binary32 and exact arithmetic both give the pulse 500. -/
theorem value_to_pulse_extrapolates_below_rounded_and_exact_witness :
    ((value_to_pulse_fl float32 sample_constants
        (Calibration.to_float ⟨[⟨1000, 0⟩, ⟨2000, 1⟩], false, true⟩) (Flt.fin (-1 / 2))
        (Flt.fin 0) (Flt.fin 0)).outs = Except.ok ⟨Flt.fin 500, Flt.fin (-1 / 2)⟩ ∧
      (500 : ℚ) ≤ 1000) ∧
    ((value_to_pulse_fl exact sample_constants
        (Calibration.to_float ⟨[⟨1000, 0⟩, ⟨2000, 1⟩], false, true⟩) (Flt.fin (-1 / 2))
        (Flt.fin 0) (Flt.fin 0)).outs
        = Except.ok ⟨Flt.fin ((-1 / 2 - 0) * (2000 - 1000) / (1 - 0) + 1000),
          Flt.fin (-1 / 2)⟩ ∧
      ((-1 / 2 - 0) * (2000 - 1000) / (1 - 0) + 1000 : ℚ) < 1000) :=
  ⟨(value_to_pulse_extrapolates_below_rounded_and_exact sample_constants
      ⟨[⟨1000, 0⟩, ⟨2000, 1⟩], false, true⟩ (-1 / 2) (Flt.fin 0) (Flt.fin 0) ⟨1000, 0⟩
      ⟨2000, 1⟩ (by decide) rfl rfl rfl (by norm_num) (by norm_num) (by norm_num)).1 500
      (by decide!) (by decide!) (by norm_num [sample_constants])
      (by norm_num [sample_constants]),
    (value_to_pulse_extrapolates_below_rounded_and_exact sample_constants
      ⟨[⟨1000, 0⟩, ⟨2000, 1⟩], false, true⟩ (-1 / 2) (Flt.fin 0) (Flt.fin 0) ⟨1000, 0⟩
      ⟨2000, 1⟩ (by decide) rfl rfl rfl (by norm_num) (by norm_num) (by norm_num)).2
      (by norm_num [sample_constants]) (by norm_num [sample_constants])⟩

end servo
